import Mathlib

/-!
Verification development for the scheduling engine of a doctor-appointment
booking backend (NestJS/TypeORM).  The definitions below are a shallow
embedding of the TypeScript sources:

  * src/common/utils/time.utils.ts                (TimeUtils)
  * src/appointments/appointment.controller.ts    (AppointmentService)
  * src/doctors/services/schedule.service.ts      (ScheduleService)

Times of day ("HH:MM" strings in the source) are embedded at two levels:
a faithful string level (parsing and formatting exactly as the JS code
does, with day wrap-around from JS Date arithmetic under a fixed UTC
offset), and a minutes-since-midnight level used by the state model.
The two levels are connected by theorems proved below.  Absolute instants
(JS Date values) are embedded as integers at minute granularity, with
combineDateAndTime date t = 1440 * date + t for an abstract day index.
-/

namespace Sched

/-! ## Time-of-day strings: the embedding of TimeUtils -/

/-- Numeric value of a decimal digit character. -/
def digitVal (c : Char) : Nat := c.toNat - 48

/-- JS Number(s) on a string made of decimal digits: defined (some) exactly
when the character list is a non-empty all-digit string, in which case it
folds the digits in base 10.  (split(":").map(Number) in the source.) -/
def parseNatChars (cs : List Char) : Option Nat :=
  if cs ≠ [] ∧ cs.all (fun c => c.isDigit) then
    some (cs.foldl (fun acc c => acc * 10 + digitVal c) 0)
  else none

/-- Embedding of JS String.prototype.split(":") on the character list. -/
def splitColon : List Char → List (List Char)
  | [] => [[]]
  | c :: rest =>
    if c = ':' then [] :: splitColon rest
    else
      match splitColon rest with
      | [] => [[c]]
      | seg :: segs => (c :: seg) :: segs

/-- splitColon never returns an empty list of segments. -/
theorem splitColon_ne_nil (cs : List Char) : splitColon cs ≠ [] := by
  cases cs with
  | nil => simp [splitColon]
  | cons c rest =>
    simp only [splitColon]
    by_cases h : c = ':'
    · simp [h]
    · simp only [h, if_false]
      cases hrec : splitColon rest with
      | nil => simp
      | cons seg segs => simp

/-- A colon-free character list splits into the single segment itself. -/
theorem splitColon_no_colon (cs : List Char) (h : ':' ∉ cs) :
    splitColon cs = [cs] := by
  induction cs with
  | nil => rfl
  | cons c rest ih =>
    simp only [List.mem_cons, not_or] at h
    have hc : ¬ c = ':' := fun hc => h.1 hc.symm
    simp [splitColon, if_neg hc, ih h.2]

/-- Splitting a list of the form xs ++ ':' :: ys where xs is colon-free
peels off xs as the first segment. -/
theorem splitColon_append (xs ys : List Char) (h : ':' ∉ xs) :
    splitColon (xs ++ ':' :: ys) = xs :: splitColon ys := by
  induction xs with
  | nil => simp [splitColon]
  | cons c rest ih =>
    simp only [List.mem_cons, not_or] at h
    have hc : ¬ c = ':' := fun hc => h.1 hc.symm
    simp only [List.cons_append, splitColon, if_neg hc, List.append_eq,
      ih h.2]

/-- Zero-padding to two digits: toString(n).padStart(2, "0") in the source. -/
def pad2 (n : Nat) : String :=
  if n < 10 then "0" ++ toString n else toString n

/-- The "HH:MM" format produced by TimeUtils.shiftTime and
calculateReportingTime in the source. -/
def fmtTime (h m : Nat) : String := pad2 h ++ ":" ++ pad2 m

/-- Parse an "HH:MM" string the way the source does:
timeString.split(":").map(Number) destructured into the first two parts. -/
def parseTime (s : String) : Option (Nat × Nat) :=
  match splitColon s.data with
  | hcs :: mcs :: _ =>
    match parseNatChars hcs, parseNatChars mcs with
    | some h, some m => some (h, m)
    | _, _ => none
  | _ => none

/-- Embedding of TimeUtils.shiftTime (time.utils.ts, lines 24-29):
parse "HH:MM", add the signed minutes with JS Date arithmetic
(Date(2000,0,1,h,m).setMinutes(... + minutes) followed by
getHours/getMinutes, which under a fixed UTC offset is euclidean
arithmetic modulo one day), and re-format zero-padded. -/
def shiftTime (s : String) (minutes : Int) : String :=
  match parseTime s with
  | some (h, m) =>
    let total : Nat := ((((h * 60 + m : Nat) : Int) + minutes) % 1440).toNat
    fmtTime (total / 60) (total % 60)
  | none => "NaN:NaN"

theorem parseNatChars_pad2 (n : Nat) (h : n < 100) :
    parseNatChars (pad2 n).data = some n := by
  revert n h
  decide

theorem colon_not_mem_pad2 (n : Nat) (h : n < 100) : ':' ∉ (pad2 n).data := by
  revert n h
  decide

theorem fmtTime_data (h m : Nat) :
    (fmtTime h m).data = (pad2 h).data ++ ':' :: (pad2 m).data := by
  simp [fmtTime, String.data_append]

theorem parseTime_fmtTime (h m : Nat) (hh : h < 100) (hm : m < 100) :
    parseTime (fmtTime h m) = some (h, m) := by
  unfold parseTime
  rw [fmtTime_data, splitColon_append _ _ (colon_not_mem_pad2 h hh),
    splitColon_no_colon _ (colon_not_mem_pad2 m hm)]
  simp [parseNatChars_pad2 h hh, parseNatChars_pad2 m hm]

/-- Minute-of-day form of TimeUtils.shiftTime: total minutes shifted,
wrapped into [0, 1440) by the euclidean remainder (what JS Date rollover
computes under a fixed UTC offset). -/
def shiftMinutesOfDay (t : Nat) (minutes : Int) : Nat :=
  ((((t : Int) + minutes)) % 1440).toNat

theorem shiftMinutesOfDay_lt (t : Nat) (minutes : Int) :
    shiftMinutesOfDay t minutes < 1440 := by
  unfold shiftMinutesOfDay
  omega

/-- The string-level shiftTime agrees with the minute-of-day form on every
well-formed zero-padded "HH:MM" input. -/
theorem shiftTime_eq_fmt (h m : Nat) (hh : h < 24) (hm : m < 60)
    (minutes : Int) :
    shiftTime (fmtTime h m) minutes =
      fmtTime (shiftMinutesOfDay (h * 60 + m) minutes / 60)
        (shiftMinutesOfDay (h * 60 + m) minutes % 60) := by
  unfold shiftTime
  rw [parseTime_fmtTime h m (by omega) (by omega)]
  rfl

theorem shiftTime_roundtrip_minutes (t : Nat) (ht : t < 1440)
    (minutes : Int) :
    shiftMinutesOfDay (shiftMinutesOfDay t minutes) (-minutes) = t := by
  unfold shiftMinutesOfDay
  omega

/-! ## Staggered reporting time
(AppointmentService.calculateReportingTime, appointment.controller.ts) -/

/-- Minute-of-day form of calculateReportingTime: slot start plus
patientIndex times floor(slotDuration / maxPatients) minutes, with the JS
Date wrap-around (Math.floor mirrored by Int.fdiv since the division is
done on floats in the source). -/
def calcReportingMinutes (startM endM maxPatients patientIndex : Nat) : Nat :=
  ((((startM : Int) +
      patientIndex * (((endM : Int) - startM).fdiv maxPatients)) % 1440)).toNat

/-- Embedding of AppointmentService.calculateReportingTime
(appointment.controller.ts, lines 863-875): parse the slot start and end
"HH:MM" strings, compute the stagger, and format as a zero-padded "HH:MM". -/
def calculateReportingTime (startStr endStr : String)
    (maxPatients patientIndex : Nat) : String :=
  match parseTime startStr, parseTime endStr with
  | some (sh, sm), some (eh, em) =>
    let total := calcReportingMinutes (sh * 60 + sm) (eh * 60 + em)
      maxPatients patientIndex
    fmtTime (total / 60) (total % 60)
  | _, _ => "NaN:NaN"

/-- On a slot with start strictly before end on the same day, the stagger
of patient index k < maxPatients stays inside [start, end). -/
theorem calcReportingMinutes_bounds (startM endM maxPatients k : Nat)
    (hlt : startM < endM) (hend : endM < 1440) (hmax : 0 < maxPatients)
    (hk : k < maxPatients) :
    startM ≤ calcReportingMinutes startM endM maxPatients k ∧
      calcReportingMinutes startM endM maxPatients k < endM := by
  have hfd : ((endM : Int) - startM).fdiv maxPatients
      = (((endM - startM) / maxPatients : Nat) : Int) := by
    rw [Int.fdiv_eq_ediv _ (Int.natCast_nonneg _), Int.natCast_div]
    congr 1
    omega
  have hq : k * ((endM - startM) / maxPatients) < endM - startM := by
    set d := endM - startM with hd
    have hdpos : 0 < d := by omega
    rcases Nat.eq_zero_or_pos (d / maxPatients) with hq0 | hqpos
    · simpa [hq0] using hdpos
    · calc k * (d / maxPatients) ≤ (maxPatients - 1) * (d / maxPatients) :=
            Nat.mul_le_mul_right _ (by omega)
        _ = maxPatients * (d / maxPatients) - (d / maxPatients) := by
            rw [Nat.sub_mul, Nat.one_mul]
        _ ≤ d - d / maxPatients := by
            have := Nat.div_mul_le_self d maxPatients
            have := Nat.mul_div_le d maxPatients
            omega
        _ < d := by omega
  have hcast : ((startM + k * ((endM - startM) / maxPatients) : Nat) : Int)
      = (startM : Int) +
        (k : Int) * (((endM - startM) / maxPatients : Nat) : Int) := by
    push_cast
    ring
  unfold calcReportingMinutes
  rw [hfd, ← hcast, Int.emod_eq_of_lt (Int.natCast_nonneg _) (by omega)]
  omega

/-! ## Data model

Embedding of the TypeORM entities (users/doctors/patients/availability/
time-slot/appointment tables from the initial migration).  Only the
columns the scheduling engine reads are kept.  Times of day are stored as
minutes since midnight (the parsed value of the zero-padded "HH:MM"
varchar columns; string comparison on such values agrees with numeric
comparison).  Dates are abstract day indices; instants are integers with
combineDateAndTime date t = 1440 * date + t. -/

inductive TimeSlotStatus
  | AVAILABLE
  | BOOKED
  | BLOCKED
deriving DecidableEq, Repr

inductive AppointmentStatus
  | SCHEDULED
  | CANCELLED
  | COMPLETED
deriving DecidableEq, Repr

inductive SessionTag
  | MORNING
  | AFTERNOON
  | EVENING
deriving DecidableEq, Repr

inductive UserRole
  | DOCTOR
  | PATIENT
deriving DecidableEq, Repr

structure Availability where
  availability_id : Nat
  doctor_id : Nat
  date : Nat
  session : SessionTag
  consulting_start_time : Nat
  consulting_end_time : Nat
  booking_start_at : Int
  booking_end_at : Int
  is_deleted : Bool
deriving DecidableEq, Repr

structure TimeSlot where
  timeslot_id : Nat
  availability_id : Nat
  doctor_id : Nat
  start_time : Nat
  end_time : Nat
  max_patients : Nat
  status : TimeSlotStatus
  is_deleted : Bool
deriving DecidableEq, Repr

structure Appointment where
  appointment_id : Nat
  patient_id : Nat
  doctor_id : Nat
  timeslot_id : Nat
  appointment_status : AppointmentStatus
  scheduled_on : Int
  created_at : Int
  reason : String
  notes : String
deriving DecidableEq, Repr

/-- The database state the scheduling engine reads and writes.
patients is the list of patient user ids; nextAppointmentId models the
generated primary key of the appointments table. -/
structure St where
  availabilities : List Availability
  slots : List TimeSlot
  appointments : List Appointment
  patients : List Nat
  nextAppointmentId : Nat
deriving DecidableEq, Repr

/-- combineDateAndTime: anchor a time of day on a date
(TimeUtils.combineDateAndTime with dates as day indices). -/
def combine (date : Nat) (timeOfDay : Nat) : Int :=
  (1440 * date + timeOfDay : Nat)

/-! ### Repository primitives (TypeORM findOne / save by primary key) -/

def findSlot (s : St) (slotId : Nat) : Option TimeSlot :=
  s.slots.find? fun t => decide (t.timeslot_id = slotId)

/-- findOne({ where: { timeslot_id, is_deleted: false } }). -/
def findActiveSlot (s : St) (slotId : Nat) : Option TimeSlot :=
  s.slots.find? fun t => decide (t.timeslot_id = slotId) && !t.is_deleted

def findAvailability (s : St) (availabilityId : Nat) : Option Availability :=
  s.availabilities.find? fun a => decide (a.availability_id = availabilityId)

def findAppointment (s : St) (appointmentId : Nat) : Option Appointment :=
  s.appointments.find? fun a => decide (a.appointment_id = appointmentId)

/-- save(slot): update the row with the same primary key. -/
def saveSlot (s : St) (t1 : TimeSlot) : St :=
  { s with slots := s.slots.map fun t =>
      if t.timeslot_id = t1.timeslot_id then t1 else t }

def saveAppointment (s : St) (a1 : Appointment) : St :=
  { s with appointments := s.appointments.map fun a =>
      if a.appointment_id = a1.appointment_id then a1 else a }

def saveAvailability (s : St) (a1 : Availability) : St :=
  { s with availabilities := s.availabilities.map fun a =>
      if a.availability_id = a1.availability_id then a1 else a }

/-- Count of SCHEDULED appointments referencing a slot (the aggregate the
source computes either with count({...}) or by filtering the loaded
appointments relation). -/
def activeCount (s : St) (slotId : Nat) : Nat :=
  s.appointments.countP fun a =>
    decide (a.timeslot_id = slotId) &&
      decide (a.appointment_status = AppointmentStatus.SCHEDULED)

/-! ### Slot status engine -/

/-- The three-way branch of ScheduleService.updateSlotStatus
(schedule.service.ts, lines 877-886) and of
AppointmentService.updateSlotStatusAfterBooking (identical logic). -/
def newStatusFor (current : TimeSlotStatus)
    (activeAppointments maxPatients : Nat) : TimeSlotStatus :=
  if activeAppointments ≥ maxPatients then TimeSlotStatus.BOOKED
  else if current = TimeSlotStatus.BLOCKED then TimeSlotStatus.BLOCKED
  else TimeSlotStatus.AVAILABLE

/-- Embedding of ScheduleService.updateSlotStatus (schedule.service.ts,
lines 862-893): load the slot, recompute the status from the SCHEDULED
count, and save only if the status changed.
AppointmentService.updateSlotStatusAfterBooking (appointment.controller.ts,
lines 921-956) has the identical body (plus an error swallow that cannot
fire in the pure model), so it is embedded by the same function. -/
def updateSlotStatus (s : St) (slotId : Nat) : St :=
  match findSlot s slotId with
  | none => s
  | some slot =>
    let ns := newStatusFor slot.status (activeCount s slotId) slot.max_patients
    if slot.status ≠ ns then saveSlot s { slot with status := ns } else s

/-- Modelled from the spec (section 4.3, recomputeStatus): the pure
recompute function of (current status, active SCHEDULED count,
max_patients), used to state the refinement claim about the status engine. -/
def specRecomputeStatus (current : TimeSlotStatus)
    (count maxPatients : Nat) : TimeSlotStatus :=
  if count ≥ maxPatients then TimeSlotStatus.BOOKED
  else if current = TimeSlotStatus.BLOCKED then TimeSlotStatus.BLOCKED
  else TimeSlotStatus.AVAILABLE

/-! ### Error taxonomy (the thrown Nest exceptions, one constructor per
throw site relevant to the engine) -/

inductive Err
  | notFoundTimeSlot
  | notFoundPatient
  | notFoundAppointment
  | notFoundAppointmentsToMove
  | notFoundAvailability
  | notFoundNewTimeSlot
  | notFoundNoSlots
  | conflictSlotNotAvailable
  | conflictPastTimeslot
  | conflictWindowStartAfterEnd
  | conflictWindowClosesAfterAppointment
  | conflictWindowNotOpen (minutesUntilOpening : Int)
  | conflictWindowClosed (minutesAfterClosure : Int)
  | conflictDuplicateSession
  | conflictSlotFull
  | conflictNotYourAppointment
  | conflictAlreadyCancelledOrCompleted
  | conflictTooLateToCancel
  | conflictInsufficientMoveCapacity (available required : Nat)
  | conflictInsufficientShrinkCapacity (affected availableCapacity : Nat)
  | badRequestWrongDoctor
  | badRequestShiftMinutes
  | badRequestShrinkNoParams
  | badRequestShrinkEndNotEarlier
  | badRequestShrinkStartNotLater
  | badRequestShrinkStartAfterEnd
  | internalError
deriving DecidableEq, Repr

/-- Whether the error is a ConflictException in the source. -/
def Err.isConflict : Err → Bool
  | Err.conflictSlotNotAvailable => true
  | Err.conflictPastTimeslot => true
  | Err.conflictWindowStartAfterEnd => true
  | Err.conflictWindowClosesAfterAppointment => true
  | Err.conflictWindowNotOpen _ => true
  | Err.conflictWindowClosed _ => true
  | Err.conflictDuplicateSession => true
  | Err.conflictSlotFull => true
  | Err.conflictNotYourAppointment => true
  | Err.conflictAlreadyCancelledOrCompleted => true
  | Err.conflictTooLateToCancel => true
  | Err.conflictInsufficientMoveCapacity _ _ => true
  | Err.conflictInsufficientShrinkCapacity _ _ => true
  | _ => false

/-! ### Booking-window validation
(AppointmentService.validateBookingWindow, appointment.controller.ts,
lines 962-1043) -/

/-- Embedding of validateBookingWindow.  The checks in source order:
past timeslot, window configuration integrity (start before end, end
before the appointment instant), then strict window enforcement
(now < start not yet open, now > end closed).  The null-configuration
check of the source cannot fire here because booking_start_at and
booking_end_at are NOT NULL columns (initial migration), so it is not
modelled.  Error payloads carry the minute differences the source computes
(exact at the minute granularity of the model). -/
def validateBookingWindow (availability : Availability) (timeslot : TimeSlot)
    (currentTime : Int) : Option Err :=
  let appointmentDateTime := combine availability.date timeslot.start_time
  if currentTime ≥ appointmentDateTime then some Err.conflictPastTimeslot
  else
    let bookingStartTime := availability.booking_start_at
    let bookingEndTime := availability.booking_end_at
    if bookingStartTime ≥ bookingEndTime then
      some Err.conflictWindowStartAfterEnd
    else if bookingEndTime ≥ appointmentDateTime then
      some Err.conflictWindowClosesAfterAppointment
    else if currentTime < bookingStartTime then
      some (Err.conflictWindowNotOpen (bookingStartTime - currentTime))
    else if currentTime > bookingEndTime then
      some (Err.conflictWindowClosed (currentTime - bookingEndTime))
    else none

/-! ### Booking admission
(AppointmentService.newAppointment, appointment.controller.ts,
lines 187-335) -/

structure NewAppointmentDto where
  doctor_id : Nat
  timeslot_id : Nat
  reason : String
  notes : String
deriving DecidableEq, Repr

/-- The duplicate-session query of newAppointment: does the patient
already hold a SCHEDULED appointment whose slot belongs to the same
doctor on an availability with the same date and session? -/
def sameSessionExists (s : St) (patientId doctorUserId : Nat)
    (date : Nat) (session : SessionTag) : Bool :=
  s.appointments.any fun a =>
    decide (a.patient_id = patientId) &&
    decide (a.appointment_status = AppointmentStatus.SCHEDULED) &&
    (match findSlot s a.timeslot_id with
     | some t =>
       decide (t.doctor_id = doctorUserId) &&
       (match findAvailability s t.availability_id with
        | some av => decide (av.date = date) && decide (av.session = session)
        | none => false)
     | none => false)

/-- Embedding of AppointmentService.newAppointment.  Checks in source
order: slot exists and not deleted; slot status AVAILABLE; booking
window; slot belongs to the requested doctor; patient exists; no
duplicate same-session booking; SCHEDULED count below max_patients.
Then the appointment row is created with the staggered reporting time as
scheduled_on and the slot status is recomputed.  A dangling availability
relation surfaces as the catch-all InternalServerErrorException. -/
def newAppointment (s : St) (patientId : Nat) (dto : NewAppointmentDto)
    (now : Int) : Except Err Appointment × St :=
  match findActiveSlot s dto.timeslot_id with
  | none => (Except.error Err.notFoundTimeSlot, s)
  | some timeslot =>
    if timeslot.status ≠ TimeSlotStatus.AVAILABLE then
      (Except.error Err.conflictSlotNotAvailable, s)
    else
      match findAvailability s timeslot.availability_id with
      | none => (Except.error Err.internalError, s)
      | some availability =>
        match validateBookingWindow availability timeslot now with
        | some e => (Except.error e, s)
        | none =>
          if timeslot.doctor_id ≠ dto.doctor_id then
            (Except.error Err.badRequestWrongDoctor, s)
          else if patientId ∉ s.patients then
            (Except.error Err.notFoundPatient, s)
          else if sameSessionExists s patientId timeslot.doctor_id
              availability.date availability.session then
            (Except.error Err.conflictDuplicateSession, s)
          else
            let existingAppointmentsCount := activeCount s timeslot.timeslot_id
            if existingAppointmentsCount ≥ timeslot.max_patients then
              (Except.error Err.conflictSlotFull, s)
            else
              let reportingTime := calcReportingMinutes timeslot.start_time
                timeslot.end_time timeslot.max_patients
                existingAppointmentsCount
              let appointment : Appointment :=
                { appointment_id := s.nextAppointmentId
                  patient_id := patientId
                  doctor_id := timeslot.doctor_id
                  timeslot_id := timeslot.timeslot_id
                  appointment_status := AppointmentStatus.SCHEDULED
                  scheduled_on := combine availability.date reportingTime
                  created_at := now
                  reason := dto.reason
                  notes := dto.notes }
              let s1 : St := { s with
                appointments := s.appointments ++ [appointment]
                nextAppointmentId := s.nextAppointmentId + 1 }
              (Except.ok appointment, updateSlotStatus s1 dto.timeslot_id)

/-! ### Cancellation
(AppointmentService.cancelAppointment, appointment.controller.ts,
lines 486-552) -/

/-- Embedding of cancelAppointment: ownership by requester role, not
already cancelled or completed, strictly before the consultation start
instant; then the status flips to CANCELLED and the slot status is
recomputed. -/
def cancelAppointment (s : St) (appointmentId userId : Nat) (role : UserRole)
    (now : Int) : Except Err Unit × St :=
  match findAppointment s appointmentId with
  | none => (Except.error Err.notFoundAppointment, s)
  | some appointment =>
    if role = UserRole.PATIENT ∧ appointment.patient_id ≠ userId then
      (Except.error Err.conflictNotYourAppointment, s)
    else if role = UserRole.DOCTOR ∧ appointment.doctor_id ≠ userId then
      (Except.error Err.conflictNotYourAppointment, s)
    else if appointment.appointment_status = AppointmentStatus.CANCELLED ∨
        appointment.appointment_status = AppointmentStatus.COMPLETED then
      (Except.error Err.conflictAlreadyCancelledOrCompleted, s)
    else
      match findSlot s appointment.timeslot_id with
      | none => (Except.error Err.internalError, s)
      | some slot =>
        match findAvailability s slot.availability_id with
        | none => (Except.error Err.internalError, s)
        | some availability =>
          let consultStartAt := combine availability.date slot.start_time
          if now ≥ consultStartAt then
            (Except.error Err.conflictTooLateToCancel, s)
          else
            let s1 := saveAppointment s
              { appointment with
                appointment_status := AppointmentStatus.CANCELLED }
            (Except.ok (), updateSlotStatus s1 appointment.timeslot_id)

/-! ### Slot-to-slot move
(ScheduleService.moveSlots, schedule.service.ts, lines 27-81, with its
helpers validateSlotOwnership, getAppointmentsFromSlot,
getSlotAvailableCapacity, moveAppointmentToSlot, batchUpdateSlotStatuses).

Each operation additionally returns the ghost trace of slot ids passed to
updateSlotStatus, in call order, so that the number of status
recomputations per slot is observable. -/

structure MoveDto where
  availability_id : Nat
  source_slot_id : Nat
  target_slot_id : Nat
  appointment_id : Option Nat
  reason : Option String
deriving DecidableEq, Repr

/-- The join condition of validateSlotOwnership: the slot's availability
belongs to the doctor. -/
def doctorOwnsSlot (s : St) (t : TimeSlot) (doctorId : Nat) : Bool :=
  match findAvailability s t.availability_id with
  | some av => decide (av.doctor_id = doctorId)
  | none => false

/-- findOne({ where: { timeslot_id, availability: { doctor: { user_id } } } }). -/
def validateSlotOwnership (s : St) (slotId doctorId : Nat) : Option TimeSlot :=
  s.slots.find? fun t =>
    decide (t.timeslot_id = slotId) && doctorOwnsSlot s t doctorId

/-- The SCHEDULED appointments of a slot, optionally narrowed to one
appointment id. -/
def getAppointmentsFromSlot (s : St) (slotId : Nat)
    (appointmentId : Option Nat) : List Appointment :=
  s.appointments.filter fun a =>
    decide (a.timeslot_id = slotId) &&
    decide (a.appointment_status = AppointmentStatus.SCHEDULED) &&
    (match appointmentId with
     | some i => decide (a.appointment_id = i)
     | none => true)

/-- Embedding of getSlotAvailableCapacity (schedule.service.ts, lines
805-826): max_patients minus the SCHEDULED count, clamped at 0; the
helper also recomputes the slot status before returning (a write hidden
inside a read). -/
def getSlotAvailableCapacity (s : St) (slotId : Nat) :
    Except Err Nat × St × List Nat :=
  match findSlot s slotId with
  | none => (Except.error Err.notFoundTimeSlot, s, [])
  | some slot =>
    let availableCapacity : Int :=
      (slot.max_patients : Int) - activeCount s slotId
    (Except.ok (max 0 availableCapacity).toNat, updateSlotStatus s slotId,
      [slotId])

/-- Embedding of moveAppointmentToSlot (schedule.service.ts, lines
829-859): reassign the appointment to the new slot, append the reason to
the notes, then recompute the status of the old and the new slot. -/
def moveAppointmentToSlot (s : St) (appointmentId newSlotId : Nat)
    (reason : Option String) : Except Err Unit × St × List Nat :=
  match findAppointment s appointmentId with
  | none => (Except.error Err.notFoundAppointment, s, [])
  | some appointment =>
    let oldSlotId := appointment.timeslot_id
    match findSlot s newSlotId with
    | none => (Except.error Err.notFoundNewTimeSlot, s, [])
    | some _ =>
      let a1 := { appointment with
        timeslot_id := newSlotId
        notes := match reason with
          | some r => (appointment.notes ++ " " ++ r).trim
          | none => appointment.notes }
      let s1 := saveAppointment s a1
      let s2 := updateSlotStatus s1 oldSlotId
      let s3 := updateSlotStatus s2 newSlotId
      (Except.ok (), s3, [oldSlotId, newSlotId])

/-- The movedSlotIds Set of moveSlots: insertion-ordered, deduplicated. -/
def addUnique (l : List Nat) (x : Nat) : List Nat :=
  if x ∈ l then l else l ++ [x]

/-- The for-loop of moveSlots over the appointments to move, threading the
movedSlotIds set; a failing moveAppointmentToSlot aborts the loop
(the thrown exception propagates out of moveSlots). -/
def execMoves (s : St) (apps : List Appointment) (targetSlotId : Nat)
    (reason : Option String) (acc : List Nat) :
    Except Err Unit × St × List Nat × List Nat :=
  match apps with
  | [] => (Except.ok (), s, acc, [])
  | a :: rest =>
    match moveAppointmentToSlot s a.appointment_id targetSlotId reason with
    | (Except.error e, s1, tr) => (Except.error e, s1, acc, tr)
    | (Except.ok _, s1, tr) =>
      let acc1 := addUnique (addUnique acc a.timeslot_id) targetSlotId
      match execMoves s1 rest targetSlotId reason acc1 with
      | (r, s2, acc2, tr2) => (r, s2, acc2, tr ++ tr2)

/-- batchUpdateSlotStatuses: one updateSlotStatus per collected slot id
(the Promise.all of independent, idempotent updates is modelled
sequentially). -/
def batchUpdateSlotStatuses (s : St) (slotIds : List Nat) : St :=
  slotIds.foldl updateSlotStatus s

structure MoveResult where
  moved_appointments : Nat
  appointment_ids : List Nat
deriving DecidableEq, Repr

/-- Embedding of ScheduleService.moveSlots with the ghost recompute trace
(third component) and the deduplicated batch list (fourth component). -/
def moveSlotsT (s : St) (doctorId : Nat) (dto : MoveDto) :
    Except Err MoveResult × St × List Nat × List Nat :=
  match validateSlotOwnership s dto.source_slot_id doctorId with
  | none => (Except.error Err.notFoundTimeSlot, s, [], [])
  | some _ =>
    match validateSlotOwnership s dto.target_slot_id doctorId with
    | none => (Except.error Err.notFoundTimeSlot, s, [], [])
    | some _ =>
      let appointmentsToMove :=
        getAppointmentsFromSlot s dto.source_slot_id dto.appointment_id
      if appointmentsToMove.isEmpty then
        (Except.error Err.notFoundAppointmentsToMove, s, [], [])
      else
        match getSlotAvailableCapacity s dto.target_slot_id with
        | (Except.error e, s1, tr1) => (Except.error e, s1, tr1, [])
        | (Except.ok targetCapacity, s1, tr1) =>
          if targetCapacity < appointmentsToMove.length then
            (Except.error
              (Err.conflictInsufficientMoveCapacity targetCapacity
                appointmentsToMove.length), s1, tr1, [])
          else
            match execMoves s1 appointmentsToMove dto.target_slot_id
                dto.reason [] with
            | (Except.error e, s2, _, tr2) =>
              (Except.error e, s2, tr1 ++ tr2, [])
            | (Except.ok _, s2, movedSlotIds, tr2) =>
              (Except.ok
                { moved_appointments := appointmentsToMove.length
                  appointment_ids :=
                    appointmentsToMove.map fun a => a.appointment_id },
                batchUpdateSlotStatuses s2 movedSlotIds,
                tr1 ++ tr2 ++ movedSlotIds, movedSlotIds)

/-- moveSlots as the caller sees it: result and final state. -/
def moveSlots (s : St) (doctorId : Nat) (dto : MoveDto) :
    Except Err MoveResult × St :=
  match moveSlotsT s doctorId dto with
  | (r, s1, _, _) => (r, s1)

/-! ### Time shift
(ScheduleService.shiftTime, schedule.service.ts, lines 85-154) -/

structure ShiftDto where
  availability_id : Nat
  new_start_time : Nat
  new_end_time : Nat
  shift_minutes : Option Int
  reason : Option String
deriving DecidableEq, Repr

/-- findOne({ where: { availability_id, doctor: { user_id } } }). -/
def validateAvailability (s : St) (availabilityId doctorId : Nat) :
    Option Availability :=
  s.availabilities.find? fun a =>
    decide (a.availability_id = availabilityId) &&
      decide (a.doctor_id = doctorId)

structure ShiftResult where
  slots_updated : Nat
deriving DecidableEq, Repr

/-- Embedding of ScheduleService.shiftTime: requires a non-zero
shift_minutes, rewrites the availability's consulting start and end to
the given new values, and shifts the start and end of every non-deleted
slot under the availability by shift_minutes via TimeUtils.shiftTime
(shiftMinutesOfDay at the minute level).  Appointment rows are never
touched. -/
def shiftTimeOp (s : St) (doctorId : Nat) (dto : ShiftDto) :
    Except Err ShiftResult × St :=
  match validateAvailability s dto.availability_id doctorId with
  | none => (Except.error Err.notFoundAvailability, s)
  | some availability =>
    match dto.shift_minutes with
    | none => (Except.error Err.badRequestShiftMinutes, s)
    | some shiftMinutes =>
      if shiftMinutes = 0 then (Except.error Err.badRequestShiftMinutes, s)
      else
        let slots := s.slots.filter fun t =>
          decide (t.availability_id = dto.availability_id) && !t.is_deleted
        if slots.isEmpty then (Except.error Err.notFoundNoSlots, s)
        else
          let s1 := saveAvailability s
            { availability with
              consulting_start_time := dto.new_start_time
              consulting_end_time := dto.new_end_time }
          let s2 := slots.foldl (fun st t =>
            saveSlot st
              { t with
                start_time := shiftMinutesOfDay t.start_time shiftMinutes
                end_time := shiftMinutesOfDay t.end_time shiftMinutes }) s1
          (Except.ok { slots_updated := slots.length }, s2)

/-! ### Shrink
(ScheduleService.shrinkSchedule, schedule.service.ts, lines 158-220, with
its helpers, lines 306-763) -/

structure ShrinkDto where
  availability_id : Nat
  new_start_time : Option Nat
  new_end_time : Option Nat
  reason : Option String
deriving DecidableEq, Repr

/-- validateShrinkingParameters (schedule.service.ts, lines 307-338).
The source compares zero-padded "HH:MM" varchars with string order, which
is numeric order at the minute level. -/
def validateShrinkingParameters (dto : ShrinkDto)
    (availability : Availability) : Option Err :=
  match dto.new_start_time, dto.new_end_time with
  | none, none => some Err.badRequestShrinkNoParams
  | _, _ =>
    if dto.new_end_time.isSome ∧
        dto.new_end_time.iget ≥ availability.consulting_end_time then
      some Err.badRequestShrinkEndNotEarlier
    else if dto.new_start_time.isSome ∧
        dto.new_start_time.iget ≤ availability.consulting_start_time then
      some Err.badRequestShrinkStartNotLater
    else if dto.new_start_time.isSome ∧ dto.new_end_time.isSome ∧
        dto.new_start_time.iget ≥ dto.new_end_time.iget then
      some Err.badRequestShrinkStartAfterEnd
    else none

/-- Stable insertion sort by an integer key (the ORDER BY ... ASC of the
SQL queries and the Array.prototype.sort comparator of the source, both
stable). -/
def sortByKey (key : α → Int) : List α → List α
  | [] => []
  | a :: rest => insertByKey key a (sortByKey key rest)
where
  insertByKey (key : α → Int) (a : α) : List α → List α
    | [] => [a]
    | b :: rest =>
      if key b ≤ key a then b :: insertByKey key a rest
      else a :: b :: rest

/-- The dedup of getAffectedAppointments: keep the first occurrence of
each appointment_id (filter with findIndex in the source), walking the
list once while tracking the ids already emitted. -/
def dedupById (l : List Appointment) : List Appointment :=
  go l []
where
  go : List Appointment → List Nat → List Appointment
    | [], _ => []
    | a :: rest, seen =>
      if a.appointment_id ∈ seen then go rest seen
      else a :: go rest (a.appointment_id :: seen)

/-- The start time of an appointment's slot, for the ORDER BY on the
joined time_slot relation. -/
def slotStartKey (s : St) (a : Appointment) : Int :=
  match findSlot s a.timeslot_id with
  | some t => (t.start_time : Int)
  | none => 0

/-- Embedding of getAffectedAppointments (schedule.service.ts, lines
342-396): SCHEDULED appointments under the availability whose slot starts
after the new end time (when shrinking from the end) and those whose slot
ends before the new start time (when shrinking from the start), each
batch ordered by (slot start, scheduled_on); the union is deduplicated by
appointment id and sorted ascending by scheduled_on. -/
def getAffectedAppointments (s : St) (availability : Availability)
    (dto : ShrinkDto) : List Appointment :=
  let endAffected := match dto.new_end_time with
    | some newEnd =>
      sortByKey (fun a => a.scheduled_on)
        (sortByKey (slotStartKey s)
          (s.appointments.filter fun a =>
            decide (a.appointment_status = AppointmentStatus.SCHEDULED) &&
            (match findSlot s a.timeslot_id with
             | some t =>
               decide (t.availability_id = availability.availability_id) &&
                 decide (t.start_time > newEnd)
             | none => false)))
    | none => []
  let startAffected := match dto.new_start_time with
    | some newStart =>
      sortByKey (fun a => a.scheduled_on)
        (sortByKey (slotStartKey s)
          (s.appointments.filter fun a =>
            decide (a.appointment_status = AppointmentStatus.SCHEDULED) &&
            (match findSlot s a.timeslot_id with
             | some t =>
               decide (t.availability_id = availability.availability_id) &&
                 decide (t.end_time < newStart)
             | none => false)))
    | none => []
  sortByKey (fun a => a.scheduled_on)
    (dedupById (endAffected ++ startAffected))

/-- The raw rows of the capacity queries: slot with its SCHEDULED count
and remaining spots. -/
structure SlotCap where
  timeslot_id : Nat
  start_time : Nat
  end_time : Nat
  max_patients : Nat
  current_appointments : Nat
  available_spots : Nat
deriving DecidableEq, Repr

def toSlotCap (s : St) (t : TimeSlot) : SlotCap :=
  { timeslot_id := t.timeslot_id
    start_time := t.start_time
    end_time := t.end_time
    max_patients := t.max_patients
    current_appointments := activeCount s t.timeslot_id
    available_spots := t.max_patients - activeCount s t.timeslot_id }

/-- Embedding of findSameDayAvailableSlots (schedule.service.ts, lines
438-489): non-deleted AVAILABLE slots of the availability inside the new
range (end_time at most the new end when shrinking from the end, start
time at least the new start when shrinking from the start), having
SCHEDULED count below max_patients, ordered by start time. -/
def findSameDayAvailableSlots (s : St) (availability : Availability)
    (dto : ShrinkDto) : List SlotCap :=
  (sortByKey (fun t => (t.start_time : Int))
    (s.slots.filter fun t =>
      decide (t.availability_id = availability.availability_id) &&
      (match dto.new_end_time with
       | some newEnd => decide (t.end_time ≤ newEnd)
       | none => true) &&
      (match dto.new_start_time with
       | some newStart => decide (t.start_time ≥ newStart)
       | none => true) &&
      !t.is_deleted &&
      decide (t.status = TimeSlotStatus.AVAILABLE) &&
      decide (activeCount s t.timeslot_id < t.max_patients))).map (toSlotCap s)

/-- Embedding of findAllAvailableSlotsOnDay (schedule.service.ts, lines
520-547): same query without the time-range conditions. -/
def findAllAvailableSlotsOnDay (s : St) (availabilityId : Nat) :
    List SlotCap :=
  (sortByKey (fun t => (t.start_time : Int))
    (s.slots.filter fun t =>
      decide (t.availability_id = availabilityId) &&
      !t.is_deleted &&
      decide (t.status = TimeSlotStatus.AVAILABLE) &&
      decide (activeCount s t.timeslot_id < t.max_patients))).map (toSlotCap s)

/-- The doctor's availabilities strictly after a date, ordered by date
ascending (the ORDER BY availability.date ASC queries). -/
def futureAvailabilities (s : St) (doctorId currentDate : Nat) :
    List Availability :=
  sortByKey (fun av => (av.date : Int))
    (s.availabilities.filter fun av =>
      decide (av.doctor_id = doctorId) && decide (av.date > currentDate))

def capacityOf (slots : List SlotCap) : Nat :=
  (slots.map fun sc => sc.available_spots).sum

structure NextDayData where
  date : Nat
  slots : List SlotCap
  capacity : Nat
deriving DecidableEq, Repr

/-- Embedding of findNextAvailableDay (schedule.service.ts, lines
494-515): the chronologically next availability of the doctor, with all
its available slots and their total capacity. -/
def findNextAvailableDay (s : St) (doctorId currentDate : Nat) :
    Option NextDayData :=
  match futureAvailabilities s doctorId currentDate with
  | [] => none
  | next :: _ =>
    let slots := findAllAvailableSlotsOnDay s next.availability_id
    some { date := next.date, slots := slots, capacity := capacityOf slots }

structure DayCap where
  date : Nat
  slots : List SlotCap
  capacity : Nat
deriving DecidableEq, Repr

/-- The accumulation loop of findMultipleFutureDays: keep days with
positive capacity, stop as soon as the accumulated total reaches the
requirement. -/
def accumulateDays (s : St) (requiredCapacity : Nat) :
    List Availability → List DayCap × Nat
  | [] => ([], 0)
  | day :: rest =>
    let daySlots := findAllAvailableSlotsOnDay s day.availability_id
    let dayCapacity := capacityOf daySlots
    if dayCapacity > 0 then
      if dayCapacity ≥ requiredCapacity then
        ([{ date := day.date, slots := daySlots, capacity := dayCapacity }],
          dayCapacity)
      else
        match accumulateDays s (requiredCapacity - dayCapacity) rest with
        | (days, total) =>
          ({ date := day.date, slots := daySlots,
              capacity := dayCapacity } :: days, dayCapacity + total)
    else accumulateDays s requiredCapacity rest

/-- Embedding of findMultipleFutureDays (schedule.service.ts, lines
552-589): scan up to the next 7 availabilities by date, accumulating
capacity until it covers the requirement. -/
def findMultipleFutureDays (s : St) (doctorId currentDate
    requiredCapacity : Nat) : List DayCap × Nat × Bool :=
  let futureDays := (futureAvailabilities s doctorId currentDate).take 7
  match accumulateDays s requiredCapacity futureDays with
  | (days, total) => (days, total, total ≥ requiredCapacity)

structure RescheduleAction where
  appointment_id : Nat
  new_timeslot_id : Nat
  new_date : Option Nat
  reason : String
deriving DecidableEq, Repr

structure Strategy where
  success : Bool
  available_capacity : Option Nat
  reschedule_actions : List RescheduleAction
deriving DecidableEq, Repr

def actionReason (sc : SlotCap) (date : Option Nat) : String :=
  match date with
  | some d =>
    "Rescheduled to " ++ fmtTime (sc.start_time / 60) (sc.start_time % 60)
      ++ "-" ++ fmtTime (sc.end_time / 60) (sc.end_time % 60)
      ++ " on day " ++ toString d
  | none =>
    "Rescheduled to " ++ fmtTime (sc.start_time / 60) (sc.start_time % 60)
      ++ "-" ++ fmtTime (sc.end_time / 60) (sc.end_time % 60)

/-- The greedy loop of createRescheduleActions (schedule.service.ts,
lines 594-628): for each appointment in order, advance past slots with no
remaining spots, assign the appointment to the next slot and decrement
its local spot counter; once the slots are exhausted no further
appointment is assigned. -/
def assignGreedy (date : Option Nat) :
    List Appointment → List SlotCap → List RescheduleAction
  | [], _ => []
  | a :: rest, slots =>
    match slots.dropWhile (fun sc => decide (sc.available_spots = 0)) with
    | [] => []
    | sc :: more =>
      { appointment_id := a.appointment_id
        new_timeslot_id := sc.timeslot_id
        new_date := date
        reason := actionReason sc date } ::
        assignGreedy date rest
          ({ sc with available_spots := sc.available_spots - 1 } :: more)

/-- createRescheduleActions: success exactly when every appointment got a
slot. -/
def createRescheduleActions (appointments : List Appointment)
    (slots : List SlotCap) (date : Option Nat) : Strategy :=
  let actions := assignGreedy date appointments slots
  { success := decide (actions.length = appointments.length)
    available_capacity := none
    reschedule_actions := actions }

/-- The day loop of createMultiDayRescheduleActions (schedule.service.ts,
lines 633-669): fill each day greedily, then move to the next day with
the remaining appointments. -/
def assignDays : List Appointment → List DayCap → List RescheduleAction
  | _, [] => []
  | apps, day :: rest =>
    let acts := assignGreedy (some day.date) apps day.slots
    acts ++ assignDays (apps.drop acts.length) rest

def createMultiDayRescheduleActions (appointments : List Appointment)
    (days : List DayCap) : Strategy :=
  let actions := assignDays appointments days
  { success := decide (actions.length = appointments.length)
    available_capacity := none
    reschedule_actions := actions }

/-- Embedding of generateRescheduleStrategy (schedule.service.ts, lines
400-435): three-tier capacity search stopping at the first tier whose
capacity covers the affected appointments; otherwise a failed strategy
carrying the multi-day total capacity. -/
def generateRescheduleStrategy (s : St) (doctorId : Nat)
    (availability : Availability) (dto : ShrinkDto)
    (affectedAppointments : List Appointment) : Strategy :=
  let sameDaySlots := findSameDayAvailableSlots s availability dto
  let sameDayCapacity := capacityOf sameDaySlots
  if sameDayCapacity ≥ affectedAppointments.length then
    createRescheduleActions affectedAppointments sameDaySlots none
  else
    let nextDayData := findNextAvailableDay s doctorId availability.date
    match nextDayData with
    | some nd =>
      if nd.capacity ≥ affectedAppointments.length then
        createRescheduleActions affectedAppointments nd.slots (some nd.date)
      else
        match findMultipleFutureDays s doctorId availability.date
            affectedAppointments.length with
        | (days, total, sufficient) =>
          if sufficient then
            createMultiDayRescheduleActions affectedAppointments days
          else
            { success := false, available_capacity := some total
              reschedule_actions := [] }
    | none =>
      match findMultipleFutureDays s doctorId availability.date
          affectedAppointments.length with
      | (days, total, sufficient) =>
        if sufficient then
          createMultiDayRescheduleActions affectedAppointments days
        else
          { success := false, available_capacity := some total
            reschedule_actions := [] }

/-- Embedding of rescheduleAppointment (schedule.service.ts, lines
674-696): reassign the appointment's time_slot and append the reason to
the notes. -/
def rescheduleAppointment (s : St) (appointmentId newTimeslotId : Nat)
    (reason : String) : Except Err Unit × St :=
  match findAppointment s appointmentId with
  | none => (Except.error Err.notFoundAppointment, s)
  | some appointment =>
    match findSlot s newTimeslotId with
    | none => (Except.error Err.notFoundNewTimeSlot, s)
    | some _ =>
      (Except.ok (), saveAppointment s
        { appointment with
          timeslot_id := newTimeslotId
          notes := (appointment.notes ++ " " ++ reason).trim })

/-- The execution loop of shrinkSchedule over the strategy's actions. -/
def execReschedules (s : St) :
    List RescheduleAction → Except Err Unit × St
  | [] => (Except.ok (), s)
  | action :: rest =>
    match rescheduleAppointment s action.appointment_id
        action.new_timeslot_id action.reason with
    | (Except.error e, s1) => (Except.error e, s1)
    | (Except.ok _, s1) => execReschedules s1 rest

/-- Embedding of deactivateSlots (schedule.service.ts, lines 725-763):
mark BLOCKED and soft-delete every slot of the availability outside the
new range (start after the new end, or end before the new start). -/
def deactivateSlots (s : St) (availabilityId : Nat) (dto : ShrinkDto) : St :=
  match dto.new_start_time, dto.new_end_time with
  | none, none => s
  | _, _ =>
    { s with slots := s.slots.map fun t =>
        if decide (t.availability_id = availabilityId) &&
            ((match dto.new_end_time with
              | some newEnd => decide (t.start_time > newEnd)
              | none => false) ||
             (match dto.new_start_time with
              | some newStart => decide (t.end_time < newStart)
              | none => false)) then
          { t with status := TimeSlotStatus.BLOCKED, is_deleted := true }
        else t }

/-- Embedding of applyShrinking (schedule.service.ts, lines 701-720):
update the availability's consulting times to the provided values, then
deactivate the slots now outside the range. -/
def applyShrinking (s : St) (availability : Availability)
    (dto : ShrinkDto) : St :=
  let availability1 := { availability with
    consulting_end_time :=
      dto.new_end_time.getD availability.consulting_end_time
    consulting_start_time :=
      dto.new_start_time.getD availability.consulting_start_time }
  deactivateSlots (saveAvailability s availability1)
    availability.availability_id dto

structure ShrinkResult where
  appointments_rescheduled : Nat
  reschedule_actions : List RescheduleAction
deriving DecidableEq, Repr

/-- Embedding of ScheduleService.shrinkSchedule (schedule.service.ts,
lines 158-220): validate ownership and parameters, find the affected
appointments, shrink directly when none; otherwise run the FCFS strategy,
fail with a ConflictException carrying the found capacity when it is
insufficient (before any write), and otherwise execute all reassignments
and then apply the shrink. -/
def shrinkSchedule (s : St) (doctorId : Nat) (dto : ShrinkDto) :
    Except Err ShrinkResult × St :=
  match validateAvailability s dto.availability_id doctorId with
  | none => (Except.error Err.notFoundAvailability, s)
  | some availability =>
    match validateShrinkingParameters dto availability with
    | some e => (Except.error e, s)
    | none =>
      let affectedAppointments := getAffectedAppointments s availability dto
      if affectedAppointments.isEmpty then
        (Except.ok { appointments_rescheduled := 0, reschedule_actions := [] },
          applyShrinking s availability dto)
      else
        let strategy := generateRescheduleStrategy s doctorId availability
          dto affectedAppointments
        if strategy.success = false then
          (Except.error
            (Err.conflictInsufficientShrinkCapacity
              affectedAppointments.length
              (strategy.available_capacity.getD 0)), s)
        else
          match execReschedules s strategy.reschedule_actions with
          | (Except.error e, s1) => (Except.error e, s1)
          | (Except.ok _, s1) =>
            (Except.ok
              { appointments_rescheduled := strategy.reschedule_actions.length
                reschedule_actions := strategy.reschedule_actions },
              applyShrinking s1 availability dto)

/-! ## Well-formedness and the capacity invariant -/

/-- Database well-formedness: primary keys are unique. -/
structure WF (s : St) : Prop where
  slots_nodup : (s.slots.map fun t => t.timeslot_id).Nodup
  appointments_nodup : (s.appointments.map fun a => a.appointment_id).Nodup
  availabilities_nodup :
    (s.availabilities.map fun a => a.availability_id).Nodup

instance (s : St) : Decidable (WF s) := by
  have : WF s ↔ ((s.slots.map fun t => t.timeslot_id).Nodup ∧
      (s.appointments.map fun a => a.appointment_id).Nodup ∧
      (s.availabilities.map fun a => a.availability_id).Nodup) :=
    ⟨fun h => ⟨h.1, h.2, h.3⟩, fun h => ⟨h.1, h.2.1, h.2.2⟩⟩
  exact decidable_of_iff _ this.symm

/-- The capacity invariant of the spec: every slot's SCHEDULED count is at
most its max_patients. -/
def CapInv (s : St) : Prop :=
  ∀ t ∈ s.slots, activeCount s t.timeslot_id ≤ t.max_patients

instance (s : St) : Decidable (CapInv s) := by
  unfold CapInv
  infer_instance

/-! ## Basic lemmas on the state primitives -/

theorem saveSlot_appointments (s : St) (t1 : TimeSlot) :
    (saveSlot s t1).appointments = s.appointments := rfl

theorem saveSlot_patients (s : St) (t1 : TimeSlot) :
    (saveSlot s t1).patients = s.patients := rfl

theorem saveSlot_availabilities (s : St) (t1 : TimeSlot) :
    (saveSlot s t1).availabilities = s.availabilities := rfl

theorem saveAppointment_slots (s : St) (a1 : Appointment) :
    (saveAppointment s a1).slots = s.slots := rfl

theorem saveAppointment_availabilities (s : St) (a1 : Appointment) :
    (saveAppointment s a1).availabilities = s.availabilities := rfl

theorem saveAppointment_patients (s : St) (a1 : Appointment) :
    (saveAppointment s a1).patients = s.patients := rfl

theorem updateSlotStatus_appointments (s : St) (slotId : Nat) :
    (updateSlotStatus s slotId).appointments = s.appointments := by
  unfold updateSlotStatus
  cases findSlot s slotId with
  | none => rfl
  | some slot =>
    simp only []
    split
    · rfl
    · rfl

theorem updateSlotStatus_patients (s : St) (slotId : Nat) :
    (updateSlotStatus s slotId).patients = s.patients := by
  unfold updateSlotStatus
  cases findSlot s slotId with
  | none => rfl
  | some slot =>
    simp only []
    split
    · rfl
    · rfl

theorem updateSlotStatus_availabilities (s : St) (slotId : Nat) :
    (updateSlotStatus s slotId).availabilities = s.availabilities := by
  unfold updateSlotStatus
  cases findSlot s slotId with
  | none => rfl
  | some slot =>
    simp only []
    split
    · rfl
    · rfl

theorem updateSlotStatus_nextId (s : St) (slotId : Nat) :
    (updateSlotStatus s slotId).nextAppointmentId = s.nextAppointmentId := by
  unfold updateSlotStatus
  cases findSlot s slotId with
  | none => rfl
  | some slot =>
    simp only []
    split
    · rfl
    · rfl

theorem activeCount_updateSlotStatus (s : St) (slotId x : Nat) :
    activeCount (updateSlotStatus s slotId) x = activeCount s x := by
  unfold activeCount
  rw [updateSlotStatus_appointments]

/-- The fields of a slot other than status are preserved by saveSlot with
a status-only change, expressed through the key-and-capacity projection
that the capacity invariant reads. -/
def slotShape (t : TimeSlot) : Nat × Nat :=
  (t.timeslot_id, t.max_patients)

theorem saveSlot_slotIds (s : St) (t1 : TimeSlot) :
    (saveSlot s t1).slots.map (fun t => t.timeslot_id) =
      s.slots.map fun t => t.timeslot_id := by
  unfold saveSlot
  simp only [List.map_map]
  apply List.map_congr_left
  intro t _
  by_cases h : t.timeslot_id = t1.timeslot_id
  · simp [Function.comp, h]
  · simp [Function.comp, h]

theorem saveSlot_shape (s : St) (slot : TimeSlot) (ns : TimeSlotStatus)
    (hnodup : (s.slots.map fun t => t.timeslot_id).Nodup)
    (hmem : slot ∈ s.slots) :
    (saveSlot s { slot with status := ns }).slots.map slotShape =
      s.slots.map slotShape := by
  unfold saveSlot
  simp only [List.map_map]
  apply List.map_congr_left
  intro t ht
  by_cases h : t.timeslot_id = slot.timeslot_id
  · have : t = slot := List.inj_on_of_nodup_map hnodup ht hmem h
    subst this
    simp [Function.comp, slotShape]
  · simp [Function.comp, h]

theorem updateSlotStatus_slotIds (s : St) (slotId : Nat) :
    (updateSlotStatus s slotId).slots.map (fun t => t.timeslot_id) =
      s.slots.map fun t => t.timeslot_id := by
  unfold updateSlotStatus
  cases hf : findSlot s slotId with
  | none => rfl
  | some slot =>
    simp only []
    split
    · exact saveSlot_slotIds s _
    · rfl

theorem updateSlotStatus_shape (s : St) (slotId : Nat)
    (hnodup : (s.slots.map fun t => t.timeslot_id).Nodup) :
    (updateSlotStatus s slotId).slots.map slotShape =
      s.slots.map slotShape := by
  unfold updateSlotStatus
  cases hf : findSlot s slotId with
  | none => rfl
  | some slot =>
    simp only []
    split
    · exact saveSlot_shape s slot _ hnodup (List.mem_of_find?_eq_some hf)
    · rfl

theorem batchUpdateSlotStatuses_appointments (ids : List Nat) (s : St) :
    (batchUpdateSlotStatuses s ids).appointments = s.appointments := by
  induction ids generalizing s with
  | nil => rfl
  | cons i rest ih =>
    unfold batchUpdateSlotStatuses at ih ⊢
    simp only [List.foldl_cons]
    rw [ih, updateSlotStatus_appointments]

theorem batchUpdateSlotStatuses_shape (ids : List Nat) (s : St)
    (hnodup : (s.slots.map fun t => t.timeslot_id).Nodup) :
    (batchUpdateSlotStatuses s ids).slots.map slotShape =
      s.slots.map slotShape := by
  induction ids generalizing s with
  | nil => rfl
  | cons i rest ih =>
    unfold batchUpdateSlotStatuses at ih ⊢
    simp only [List.foldl_cons]
    rw [ih, updateSlotStatus_shape s i hnodup]
    rw [updateSlotStatus_slotIds]
    exact hnodup

/-- How find? by key interacts with a save-by-primary-key update. -/
theorem find?_update_eq {α : Type} (key : α → Nat) (l : List α) (a1 : α)
    (x : Nat) :
    (l.map fun a => if key a = key a1 then a1 else a).find?
        (fun a => decide (key a = x)) =
      if x = key a1 then
        (if (l.find? fun a => decide (key a = key a1)).isSome then some a1
         else none)
      else l.find? fun a => decide (key a = x) := by
  induction l with
  | nil => by_cases hx : x = key a1 <;> simp [hx]
  | cons b rest ih =>
    by_cases hx : x = key a1
    · subst hx
      by_cases hb : key b = key a1
      · simp [List.find?_cons, hb]
      · simp [List.find?_cons, hb, ih]
    · by_cases hb : key b = key a1
      · have h1 : ¬ key a1 = x := fun h => hx h.symm
        have h2 : ¬ key b = x := by rw [hb]; exact h1
        simp [List.find?_cons, hb, hx, h1, h2, ih]
      · by_cases hbx : key b = x
        · simp [List.find?_cons, hb, hx, hbx]
        · simp [List.find?_cons, hb, hx, hbx, ih]

/-- find? by key finds an element of a key-Nodup list. -/
theorem find?_of_mem_nodup {α : Type} (key : α → Nat) (l : List α) (a : α)
    (hmem : a ∈ l) (hnodup : (l.map key).Nodup) :
    l.find? (fun b => decide (key b = key a)) = some a := by
  induction l with
  | nil => cases hmem
  | cons b rest ih =>
    rcases List.mem_cons.mp hmem with rfl | hmem2
    · simp [List.find?_cons]
    · simp only [List.map_cons, List.nodup_cons] at hnodup
      have hne : ¬ key b = key a := by
        intro h
        exact hnodup.1 (h ▸ List.mem_map_of_mem key hmem2)
      simp [List.find?_cons, hne, ih hmem2 hnodup.2]

theorem findSlot_of_mem (s : St) (t : TimeSlot) (hmem : t ∈ s.slots)
    (hnodup : (s.slots.map fun t => t.timeslot_id).Nodup) :
    findSlot s t.timeslot_id = some t := by
  exact find?_of_mem_nodup (fun t : TimeSlot => t.timeslot_id)
    s.slots t hmem hnodup

theorem findAppointment_of_mem (s : St) (a : Appointment)
    (hmem : a ∈ s.appointments)
    (hnodup : (s.appointments.map fun a => a.appointment_id).Nodup) :
    findAppointment s a.appointment_id = some a := by
  exact find?_of_mem_nodup (fun a : Appointment => a.appointment_id)
    s.appointments a hmem hnodup

theorem findSlot_saveSlot (s : St) (t1 : TimeSlot) (x : Nat) :
    findSlot (saveSlot s t1) x =
      if x = t1.timeslot_id then
        (if (findSlot s t1.timeslot_id).isSome then some t1 else none)
      else findSlot s x := by
  exact find?_update_eq (fun t : TimeSlot => t.timeslot_id) s.slots t1 x

theorem findAppointment_saveAppointment (s : St) (a1 : Appointment)
    (x : Nat) :
    findAppointment (saveAppointment s a1) x =
      if x = a1.appointment_id then
        (if (findAppointment s a1.appointment_id).isSome then some a1
         else none)
      else findAppointment s x := by
  exact find?_update_eq (fun a : Appointment => a.appointment_id)
    s.appointments a1 x

theorem findAvailability_saveAvailability (s : St) (a1 : Availability)
    (x : Nat) :
    findAvailability (saveAvailability s a1) x =
      if x = a1.availability_id then
        (if (findAvailability s a1.availability_id).isSome then some a1
         else none)
      else findAvailability s x := by
  exact find?_update_eq (fun a : Availability => a.availability_id)
    s.availabilities a1 x

/-! ### Lemmas on the status engine (for claim C6) -/

theorem newStatusFor_eq_spec (current : TimeSlotStatus)
    (count maxPatients : Nat) :
    newStatusFor current count maxPatients =
      specRecomputeStatus current count maxPatients := rfl

/-- Recomputing a recomputed status changes nothing. -/
theorem newStatusFor_idem (current : TimeSlotStatus)
    (count maxPatients : Nat) :
    newStatusFor (newStatusFor current count maxPatients) count maxPatients =
      newStatusFor current count maxPatients := by
  unfold newStatusFor
  by_cases h : count ≥ maxPatients
  · simp [h]
  · by_cases hb : current = TimeSlotStatus.BLOCKED <;> simp [h, hb]

/-- When the recomputed status equals the stored one, updateSlotStatus is
the identity on the state: no write happens. -/
theorem updateSlotStatus_noop (s : St) (slotId : Nat) (slot : TimeSlot)
    (hfind : findSlot s slotId = some slot)
    (heq : newStatusFor slot.status (activeCount s slotId)
      slot.max_patients = slot.status) :
    updateSlotStatus s slotId = s := by
  unfold updateSlotStatus
  rw [hfind]
  simp [heq]

/-- The stored status after updateSlotStatus is the recomputed one. -/
theorem findSlot_updateSlotStatus (s : St) (slotId : Nat) (slot : TimeSlot)
    (hfind : findSlot s slotId = some slot) :
    findSlot (updateSlotStatus s slotId) slotId =
      some { slot with
        status :=
          newStatusFor slot.status (activeCount s slotId)
            slot.max_patients } := by
  have hid : slot.timeslot_id = slotId := by
    have := List.find?_some hfind
    simpa using this
  unfold updateSlotStatus
  rw [hfind]
  simp only []
  split
  · rw [findSlot_saveSlot]
    simp [hid, hfind]
  · rename_i hne
    rw [not_not] at hne
    rw [hfind]
    rw [← hne]

/-- updateSlotStatus is idempotent. -/
theorem updateSlotStatus_idem (s : St) (slotId : Nat) :
    updateSlotStatus (updateSlotStatus s slotId) slotId =
      updateSlotStatus s slotId := by
  cases hfind : findSlot s slotId with
  | none =>
    have h1 : updateSlotStatus s slotId = s := by
      unfold updateSlotStatus
      rw [hfind]
    rw [h1, h1]
  | some slot =>
    have hstep := findSlot_updateSlotStatus s slotId slot hfind
    apply updateSlotStatus_noop _ _ _ hstep
    simp only [activeCount_updateSlotStatus]
    exact newStatusFor_idem _ _ _

/-! ### Lemmas on fold-of-save loops (for the time-shift operation) -/

theorem foldl_saveSlot_appointments (f : TimeSlot → TimeSlot)
    (l : List TimeSlot) (s : St) :
    (l.foldl (fun st t => saveSlot st (f t)) s).appointments =
      s.appointments := by
  induction l generalizing s with
  | nil => rfl
  | cons t rest ih => simp [List.foldl_cons, ih, saveSlot_appointments]

theorem foldl_saveSlot_availabilities (f : TimeSlot → TimeSlot)
    (l : List TimeSlot) (s : St) :
    (l.foldl (fun st t => saveSlot st (f t)) s).availabilities =
      s.availabilities := by
  induction l generalizing s with
  | nil => rfl
  | cons t rest ih => simp [List.foldl_cons, ih, saveSlot_availabilities]

/-- A loop that saves a modified copy of each slot of a key-Nodup list
replaces exactly those slots and leaves every other slot untouched. -/
theorem foldl_saveSlot_find (f : TimeSlot → TimeSlot)
    (hid : ∀ t, (f t).timeslot_id = t.timeslot_id) (l : List TimeSlot)
    (s : St) (hnodup : (l.map fun t => t.timeslot_id).Nodup)
    (hsub : ∀ t ∈ l, findSlot s t.timeslot_id = some t) :
    (∀ t ∈ l, findSlot (l.foldl (fun st t => saveSlot st (f t)) s)
        t.timeslot_id = some (f t)) ∧
      (∀ x, x ∉ l.map (fun t => t.timeslot_id) →
        findSlot (l.foldl (fun st t => saveSlot st (f t)) s) x =
          findSlot s x) := by
  induction l generalizing s with
  | nil => exact ⟨fun t ht => absurd ht (List.not_mem_nil t), fun x _ => rfl⟩
  | cons t0 rest ih =>
    simp only [List.map_cons, List.nodup_cons] at hnodup
    have hs1sub : ∀ t ∈ rest,
        findSlot (saveSlot s (f t0)) t.timeslot_id = some t := by
      intro t ht
      have hne : ¬ t.timeslot_id = t0.timeslot_id := by
        intro h
        exact hnodup.1
          (h ▸ List.mem_map_of_mem (fun t => t.timeslot_id) ht)
      rw [findSlot_saveSlot, hid, if_neg hne]
      exact hsub t (List.mem_cons_of_mem t0 ht)
    have hrec := ih (saveSlot s (f t0)) hnodup.2 hs1sub
    refine ⟨?_, ?_⟩
    · intro t ht
      rcases List.mem_cons.mp ht with heq | ht2
      · subst heq
        simp only [List.foldl_cons]
        rw [hrec.2 t.timeslot_id hnodup.1, findSlot_saveSlot, hid,
          if_pos rfl]
        simp [hsub t (List.mem_cons_self _ _)]
      · simp only [List.foldl_cons]
        exact hrec.1 t ht2
    · intro x hx
      simp only [List.map_cons, List.mem_cons, not_or] at hx
      simp only [List.foldl_cons]
      rw [hrec.2 x hx.2, findSlot_saveSlot, hid, if_neg hx.1]

/-! ### Lemmas on sortByKey and dedupById -/

theorem insertByKey_perm {α : Type} (key : α → Int) (a : α) (l : List α) :
    (sortByKey.insertByKey key a l).Perm (a :: l) := by
  induction l with
  | nil => exact List.Perm.refl _
  | cons b rest ih =>
    unfold sortByKey.insertByKey
    split
    · exact ((ih.cons b).trans (List.Perm.swap a b rest)).symm.symm
    · exact List.Perm.refl _

theorem sortByKey_perm {α : Type} (key : α → Int) (l : List α) :
    (sortByKey key l).Perm l := by
  induction l with
  | nil => exact List.Perm.refl _
  | cons a rest ih =>
    unfold sortByKey
    exact (insertByKey_perm key a (sortByKey key rest)).trans (ih.cons a)

theorem mem_sortByKey {α : Type} (key : α → Int) (l : List α) (a : α) :
    a ∈ sortByKey key l ↔ a ∈ l :=
  (sortByKey_perm key l).mem_iff

theorem insertByKey_pairwise {α : Type} (key : α → Int) (a : α)
    (l : List α) (h : l.Pairwise fun x y => key x ≤ key y) :
    (sortByKey.insertByKey key a l).Pairwise fun x y => key x ≤ key y := by
  induction l with
  | nil => simp [sortByKey.insertByKey]
  | cons b rest ih =>
    rw [List.pairwise_cons] at h
    unfold sortByKey.insertByKey
    split
    · rename_i hba
      rw [List.pairwise_cons]
      refine ⟨?_, ih h.2⟩
      intro y hy
      rcases List.mem_cons.mp
          ((insertByKey_perm key a rest).mem_iff.mp hy) with rfl | hy2
      · exact hba
      · exact h.1 y hy2
    · rename_i hba
      have hab : key a ≤ key b := le_of_lt (lt_of_not_le hba)
      rw [List.pairwise_cons]
      refine ⟨?_, List.pairwise_cons.mpr h⟩
      intro y hy
      rcases List.mem_cons.mp hy with rfl | hy2
      · exact hab
      · exact le_trans hab (h.1 y hy2)

theorem sortByKey_pairwise {α : Type} (key : α → Int) (l : List α) :
    (sortByKey key l).Pairwise fun x y => key x ≤ key y := by
  induction l with
  | nil => simp [sortByKey]
  | cons a rest ih =>
    unfold sortByKey
    exact insertByKey_pairwise key a _ ih

theorem dedupById_go_subset (l : List Appointment) :
    ∀ (seen : List Nat) (a : Appointment),
      a ∈ dedupById.go l seen → a ∈ l := by
  induction l with
  | nil =>
    intro seen a h
    cases h
  | cons b rest ih =>
    intro seen a h
    unfold dedupById.go at h
    by_cases hb : b.appointment_id ∈ seen
    · rw [if_pos hb] at h
      exact List.mem_cons_of_mem _ (ih _ a h)
    · rw [if_neg hb] at h
      rcases List.mem_cons.mp h with rfl | h2
      · exact List.mem_cons_self _ _
      · exact List.mem_cons_of_mem _ (ih _ a h2)

theorem dedupById_subset (l : List Appointment) (a : Appointment)
    (h : a ∈ dedupById l) : a ∈ l :=
  dedupById_go_subset l [] a h

theorem dedupById_go_mem (l : List Appointment)
    (hinj : ∀ x ∈ l, ∀ y ∈ l, x.appointment_id = y.appointment_id → x = y) :
    ∀ (seen : List Nat) (a : Appointment), a ∈ l →
      a.appointment_id ∉ seen → a ∈ dedupById.go l seen := by
  induction l with
  | nil =>
    intro seen a h _
    cases h
  | cons b rest ih =>
    have hinj2 : ∀ x ∈ rest, ∀ y ∈ rest,
        x.appointment_id = y.appointment_id → x = y :=
      fun x hx y hy => hinj x (List.mem_cons_of_mem _ hx) y
        (List.mem_cons_of_mem _ hy)
    intro seen a ha hseen
    unfold dedupById.go
    by_cases hb : b.appointment_id ∈ seen
    · rw [if_pos hb]
      rcases List.mem_cons.mp ha with rfl | h2
      · exact absurd hb hseen
      · exact ih hinj2 seen a h2 hseen
    · rw [if_neg hb]
      rcases List.mem_cons.mp ha with rfl | h2
      · exact List.mem_cons_self _ _
      · by_cases hab : a = b
        · rw [hab]
          exact List.mem_cons_self _ _
        · refine List.mem_cons_of_mem _ (ih hinj2 _ a h2 ?_)
          intro hmem
          rcases List.mem_cons.mp hmem with hid | h3
          · exact hab (hinj a (List.mem_cons_of_mem _ h2) b
              (List.mem_cons_self _ _) hid)
          · exact hseen h3

/-- When equal ids imply equal values, deduplication loses no element. -/
theorem mem_dedupById (l : List Appointment)
    (hinj : ∀ x ∈ l, ∀ y ∈ l, x.appointment_id = y.appointment_id → x = y)
    (a : Appointment) : a ∈ dedupById l ↔ a ∈ l :=
  ⟨dedupById_subset l a,
    fun h => dedupById_go_mem l hinj [] a h (by simp)⟩

theorem dedupById_go_nodup (l : List Appointment) :
    ∀ seen : List Nat,
      ((dedupById.go l seen).map fun a => a.appointment_id).Nodup ∧
      ∀ x ∈ (dedupById.go l seen).map (fun a => a.appointment_id),
        x ∉ seen := by
  induction l with
  | nil =>
    intro seen
    simp [dedupById.go]
  | cons b rest ih =>
    intro seen
    unfold dedupById.go
    by_cases hb : b.appointment_id ∈ seen
    · rw [if_pos hb]
      exact ih seen
    · rw [if_neg hb]
      rcases ih (b.appointment_id :: seen) with ⟨hnd, hnotin⟩
      constructor
      · simp only [List.map_cons, List.nodup_cons]
        refine ⟨?_, hnd⟩
        intro hmem
        exact hnotin _ hmem (List.mem_cons_self _ _)
      · intro x hx
        simp only [List.map_cons, List.mem_cons] at hx
        rcases hx with rfl | hx2
        · exact hb
        · intro hxseen
          exact hnotin x hx2 (List.mem_cons_of_mem _ hxseen)

theorem dedupById_ids_nodup (l : List Appointment) :
    ((dedupById l).map fun a => a.appointment_id).Nodup :=
  (dedupById_go_nodup l []).1

/-! ### Counting lemmas -/

theorem countP_split {α : Type} (l : List α) (p q : α → Bool) :
    l.countP p = l.countP (fun x => q x && p x) +
      l.countP fun x => !q x && p x := by
  induction l with
  | nil => simp
  | cons a rest ih =>
    simp only [List.countP_cons]
    cases hq : q a <;> cases hp : p a <;> simp [hq, hp] <;> omega

theorem countP_or_disjoint {α : Type} (l : List α) (p q : α → Bool)
    (hdisj : ∀ x ∈ l, ¬(p x = true ∧ q x = true)) :
    l.countP (fun x => p x || q x) = l.countP p + l.countP q := by
  induction l with
  | nil => simp
  | cons a rest ih =>
    have hrest : ∀ x ∈ rest, ¬(p x = true ∧ q x = true) :=
      fun x hx => hdisj x (List.mem_cons_of_mem a hx)
    simp only [List.countP_cons]
    cases hp : p a <;> cases hq : q a <;>
      simp [hp, hq, ih hrest] <;> first
        | omega
        | exact absurd ⟨hp, hq⟩ (hdisj a (List.mem_cons_self a rest))

/-- Counting the elements whose key equals the key of a member of a
key-Nodup list gives exactly one. -/
theorem countP_key_unique {α : Type} (f : α → Nat) (l : List α) (i : Nat)
    (hnodup : (l.map f).Nodup) (hmem : i ∈ l.map f) :
    l.countP (fun b => decide (f b = i)) = 1 := by
  induction l with
  | nil => cases hmem
  | cons b rest ih =>
    simp only [List.map_cons, List.nodup_cons] at hnodup
    simp only [List.countP_cons]
    rcases List.mem_cons.mp hmem with rfl | h2
    · have hz : rest.countP (fun x => decide (f x = f b)) = 0 := by
        apply List.countP_eq_zero.mpr
        intro x hx
        simp only [decide_eq_true_eq]
        intro hfx
        exact hnodup.1 (hfx ▸ List.mem_map_of_mem f hx)
      rw [hz]
      simp
    · have hne : ¬ f b = i := by
        rintro rfl
        exact hnodup.1 h2
      rw [ih hnodup.2 h2]
      simp [hne]

/-! ### Lemmas on the greedy allocation -/

/-- Total remaining spots attributed to one slot id in a capacity row
list. -/
def spotsFor (x : Nat) (slots : List SlotCap) : Nat :=
  ((slots.filter fun sc => decide (sc.timeslot_id = x)).map
    fun sc => sc.available_spots).sum

theorem spotsFor_cons (x : Nat) (sc : SlotCap) (more : List SlotCap) :
    spotsFor x (sc :: more) =
      (if sc.timeslot_id = x then sc.available_spots else 0) +
        spotsFor x more := by
  unfold spotsFor
  by_cases h : sc.timeslot_id = x <;> simp [List.filter_cons, h]

/-- spotsFor on a head whose spot counter was decremented. -/
theorem spotsFor_cons_dec (x : Nat) (sc : SlotCap) (more : List SlotCap) :
    spotsFor x ({ sc with available_spots := sc.available_spots - 1 } ::
        more) =
      (if sc.timeslot_id = x then sc.available_spots - 1 else 0) +
        spotsFor x more := by
  unfold spotsFor
  by_cases h : sc.timeslot_id = x <;> simp [List.filter_cons, h]

theorem dropZero_capacity (slots : List SlotCap) :
    capacityOf (slots.dropWhile fun sc => decide (sc.available_spots = 0)) =
      capacityOf slots := by
  induction slots with
  | nil => rfl
  | cons sc more ih =>
    by_cases h : sc.available_spots = 0
    · rw [List.dropWhile_cons, if_pos (by simp [h]), ih]
      simp [capacityOf, h]
    · rw [List.dropWhile_cons, if_neg (by simp [h])]

theorem dropZero_spotsFor (x : Nat) (slots : List SlotCap) :
    spotsFor x (slots.dropWhile fun sc => decide (sc.available_spots = 0)) =
      spotsFor x slots := by
  induction slots with
  | nil => rfl
  | cons sc more ih =>
    by_cases h : sc.available_spots = 0
    · rw [List.dropWhile_cons, if_pos (by simp [h]), ih, spotsFor_cons, h]
      simp
    · rw [List.dropWhile_cons, if_neg (by simp [h])]

theorem dropZero_head (slots : List SlotCap) (sc : SlotCap)
    (more : List SlotCap)
    (h : slots.dropWhile (fun sc => decide (sc.available_spots = 0)) =
      sc :: more) : sc.available_spots ≠ 0 := by
  induction slots with
  | nil => simp [List.dropWhile_nil] at h
  | cons b rest ih =>
    rw [List.dropWhile_cons] at h
    by_cases hb : b.available_spots = 0
    · simp only [hb, decide_True] at h
      exact ih h
    · simp only [hb, decide_False] at h
      cases h
      exact hb

theorem dropZero_ids_subset (slots : List SlotCap) :
    ∀ sc ∈ slots.dropWhile (fun sc => decide (sc.available_spots = 0)),
      sc.timeslot_id ∈ slots.map fun sc => sc.timeslot_id := by
  intro sc hmem
  exact List.mem_map_of_mem _ ((List.dropWhile_sublist _).subset hmem)

theorem assignGreedy_length (date : Option Nat) (apps : List Appointment)
    (slots : List SlotCap) :
    (assignGreedy date apps slots).length =
      min apps.length (capacityOf slots) := by
  induction apps generalizing slots with
  | nil => simp [assignGreedy]
  | cons a rest ih =>
    rw [assignGreedy]
    cases hdrop : slots.dropWhile fun sc => decide (sc.available_spots = 0)
      with
    | nil =>
      have hcap : capacityOf slots = 0 := by
        rw [← dropZero_capacity slots, hdrop]
        rfl
      simp [hcap]
    | cons sc more =>
      have hpos : sc.available_spots ≠ 0 := dropZero_head slots sc more hdrop
      have hcap : capacityOf slots = capacityOf (sc :: more) := by
        rw [← dropZero_capacity slots, hdrop]
      simp only [List.length_cons]
      rw [ih]
      have hcap2 : capacityOf
          ({ sc with available_spots := sc.available_spots - 1 } :: more) =
            capacityOf (sc :: more) - 1 := by
        simp [capacityOf]
        omega
      rw [hcap2, hcap]
      have : capacityOf (sc :: more) = sc.available_spots + capacityOf more
        := by simp [capacityOf]
      omega

theorem assignGreedy_ids_take (date : Option Nat)
    (apps : List Appointment) (slots : List SlotCap) :
    (assignGreedy date apps slots).map (fun act => act.appointment_id) =
      (apps.take (assignGreedy date apps slots).length).map
        fun a => a.appointment_id := by
  induction apps generalizing slots with
  | nil => simp [assignGreedy]
  | cons a rest ih =>
    rw [assignGreedy]
    cases hdrop : slots.dropWhile fun sc => decide (sc.available_spots = 0)
      with
    | nil => simp
    | cons sc more =>
      simp only [List.map_cons, List.length_cons, List.take_succ_cons]
      rw [ih]

theorem assignGreedy_countP_le (date : Option Nat)
    (apps : List Appointment) (slots : List SlotCap) (x : Nat) :
    (assignGreedy date apps slots).countP
        (fun act => decide (act.new_timeslot_id = x)) ≤
      spotsFor x slots := by
  induction apps generalizing slots with
  | nil => simp [assignGreedy]
  | cons a rest ih =>
    rw [assignGreedy]
    cases hdrop : slots.dropWhile fun sc => decide (sc.available_spots = 0)
      with
    | nil => simp
    | cons sc more =>
      have hpos : sc.available_spots ≠ 0 := dropZero_head slots sc more hdrop
      have hspots : spotsFor x slots = spotsFor x (sc :: more) := by
        rw [← dropZero_spotsFor x slots, hdrop]
      rw [hspots, List.countP_cons, spotsFor_cons]
      have hrec := ih ({ sc with available_spots := sc.available_spots - 1 }
        :: more)
      rw [spotsFor_cons_dec] at hrec
      dsimp only at hrec ⊢
      simp only [decide_eq_true_eq]
      by_cases hx : sc.timeslot_id = x
      · simp only [if_pos hx] at hrec ⊢
        omega
      · simp only [if_neg hx] at hrec ⊢
        omega

theorem assignGreedy_targets (date : Option Nat) (apps : List Appointment)
    (slots : List SlotCap) :
    ∀ act ∈ assignGreedy date apps slots,
      act.new_timeslot_id ∈ slots.map fun sc => sc.timeslot_id := by
  induction apps generalizing slots with
  | nil => simp [assignGreedy]
  | cons a rest ih =>
    rw [assignGreedy]
    cases hdrop : slots.dropWhile fun sc => decide (sc.available_spots = 0)
      with
    | nil => simp
    | cons sc more =>
      intro act hact
      have hsub : ∀ y ∈ sc :: more,
          y.timeslot_id ∈ slots.map fun sc => sc.timeslot_id := by
        intro y hy
        exact dropZero_ids_subset slots y (hdrop.symm ▸ hy)
      rcases List.mem_cons.mp hact with rfl | hact2
      · exact hsub sc (List.mem_cons_self _ _)
      · have := ih ({ sc with available_spots := sc.available_spots - 1 }
          :: more) act hact2
        rcases List.mem_map.mp this with ⟨y, hy, hid⟩
        rcases List.mem_cons.mp hy with rfl | hy2
        · exact hid ▸ hsub sc (List.mem_cons_self _ _)
        · exact hid ▸ hsub y (List.mem_cons_of_mem _ hy2)

theorem assignDays_length (apps : List Appointment) (days : List DayCap) :
    (assignDays apps days).length =
      min apps.length ((days.map fun d => capacityOf d.slots).sum) := by
  induction days generalizing apps with
  | nil => simp [assignDays]
  | cons d rest ih =>
    rw [assignDays]
    simp only [List.length_append, List.map_cons, List.sum_cons]
    rw [ih, assignGreedy_length, List.length_drop]
    omega

theorem assignDays_ids_take (apps : List Appointment) (days : List DayCap) :
    (assignDays apps days).map (fun act => act.appointment_id) =
      (apps.take (assignDays apps days).length).map
        fun a => a.appointment_id := by
  induction days generalizing apps with
  | nil => simp [assignDays]
  | cons d rest ih =>
    rw [assignDays]
    simp only [List.map_append, List.length_append]
    rw [ih, assignGreedy_ids_take, List.take_add, List.map_append]

theorem assignDays_countP_le (apps : List Appointment) (days : List DayCap)
    (x : Nat) :
    (assignDays apps days).countP
        (fun act => decide (act.new_timeslot_id = x)) ≤
      (days.map fun d => spotsFor x d.slots).sum := by
  induction days generalizing apps with
  | nil => simp [assignDays]
  | cons d rest ih =>
    rw [assignDays]
    rw [List.countP_append]
    simp only [List.map_cons, List.sum_cons]
    exact Nat.add_le_add (assignGreedy_countP_le _ _ _ _) (ih _)

theorem assignDays_targets (apps : List Appointment) (days : List DayCap) :
    ∀ act ∈ assignDays apps days, ∃ d ∈ days,
      act.new_timeslot_id ∈ d.slots.map fun sc => sc.timeslot_id := by
  induction days generalizing apps with
  | nil => simp [assignDays]
  | cons d rest ih =>
    intro act hact
    rw [assignDays] at hact
    rcases List.mem_append.mp hact with h1 | h2
    · exact ⟨d, List.mem_cons_self _ _, assignGreedy_targets _ _ _ act h1⟩
    · rcases ih _ act h2 with ⟨d2, hd2, hmem⟩
      exact ⟨d2, List.mem_cons_of_mem _ hd2, hmem⟩

/-! ### Bounding the capacity rows of the search queries by the state -/

/-- The spots the state itself can grant for a slot id: max_patients minus
the SCHEDULED count of the (unique) slot row, 0 when the id is unknown. -/
def spotsBound (s : St) (x : Nat) : Nat :=
  match findSlot s x with
  | some t => t.max_patients - activeCount s x
  | none => 0

theorem spotsFor_perm (x : Nat) {l1 l2 : List SlotCap} (h : l1.Perm l2) :
    spotsFor x l1 = spotsFor x l2 := by
  unfold spotsFor
  exact ((h.filter _).map _).sum_eq

theorem spotsFor_sublist (x : Nat) {l1 l2 : List SlotCap}
    (h : l1.Sublist l2) : spotsFor x l1 ≤ spotsFor x l2 := by
  unfold spotsFor
  exact List.Sublist.sum_le_sum ((h.filter _).map _) fun a _ => Nat.zero_le a

/-- The capacity rows computed from the whole slot table grant at most the
state bound for every slot id. -/
theorem spotsFor_map_all_le (s : St) (x : Nat)
    (hnodup : (s.slots.map fun t => t.timeslot_id).Nodup) :
    spotsFor x (s.slots.map (toSlotCap s)) ≤ spotsBound s x := by
  unfold spotsBound
  unfold findSlot
  generalize hL : s.slots = L at hnodup
  clear hL
  induction L with
  | nil => simp [spotsFor]
  | cons t rest ih =>
    simp only [List.map_cons, List.nodup_cons] at hnodup
    rw [List.map_cons, spotsFor_cons, List.find?_cons]
    by_cases ht : t.timeslot_id = x
    · subst ht
      have hz : spotsFor t.timeslot_id (rest.map (toSlotCap s)) = 0 := by
        unfold spotsFor
        rw [List.filter_eq_nil_iff.mpr, List.map_nil, List.sum_nil]
        intro sc hsc
        rcases List.mem_map.mp hsc with ⟨t2, ht2, rfl⟩
        simp only [toSlotCap, decide_eq_true_eq]
        intro hid
        exact hnodup.1 (hid ▸
          List.mem_map_of_mem (fun t => t.timeslot_id) ht2)
      simp [hz, toSlotCap]
    · simp only [toSlotCap, ht, if_false, decide_False]
      simpa using ih hnodup.2

theorem spotsFor_sameDay_le (s : St) (availability : Availability)
    (dto : ShrinkDto) (x : Nat)
    (hnodup : (s.slots.map fun t => t.timeslot_id).Nodup) :
    spotsFor x (findSameDayAvailableSlots s availability dto) ≤
      spotsBound s x := by
  unfold findSameDayAvailableSlots
  calc spotsFor x ((sortByKey (fun t => (t.start_time : Int)) _).map
        (toSlotCap s))
      = spotsFor x ((s.slots.filter _).map (toSlotCap s)) :=
        spotsFor_perm x ((sortByKey_perm _ _).map _)
    _ ≤ spotsFor x (s.slots.map (toSlotCap s)) :=
        spotsFor_sublist x ((List.filter_sublist _).map _)
    _ ≤ spotsBound s x := spotsFor_map_all_le s x hnodup

theorem spotsFor_day_le (s : St) (availabilityId : Nat) (x : Nat)
    (hnodup : (s.slots.map fun t => t.timeslot_id).Nodup) :
    spotsFor x (findAllAvailableSlotsOnDay s availabilityId) ≤
      spotsBound s x := by
  unfold findAllAvailableSlotsOnDay
  calc spotsFor x ((sortByKey (fun t => (t.start_time : Int)) _).map
        (toSlotCap s))
      = spotsFor x ((s.slots.filter _).map (toSlotCap s)) :=
        spotsFor_perm x ((sortByKey_perm _ _).map _)
    _ ≤ spotsFor x (s.slots.map (toSlotCap s)) :=
        spotsFor_sublist x ((List.filter_sublist _).map _)
    _ ≤ spotsBound s x := spotsFor_map_all_le s x hnodup

/-- A day query for a different availability grants nothing for a slot of
another availability. -/
theorem spotsFor_day_mismatch (s : St) (availabilityId : Nat) (x : Nat)
    (t : TimeSlot) (hfind : findSlot s x = some t)
    (hnodup : (s.slots.map fun t => t.timeslot_id).Nodup)
    (hmm : t.availability_id ≠ availabilityId) :
    spotsFor x (findAllAvailableSlotsOnDay s availabilityId) = 0 := by
  unfold findAllAvailableSlotsOnDay spotsFor
  rw [List.filter_eq_nil_iff.mpr, List.map_nil, List.sum_nil]
  intro sc hsc
  rcases List.mem_map.mp hsc with ⟨t2, ht2, rfl⟩
  rw [mem_sortByKey] at ht2
  have ht2mem := List.mem_filter.mp ht2
  simp only [toSlotCap, decide_eq_true_eq]
  intro hid
  have : t2 = t := by
    have hfind2 : findSlot s t2.timeslot_id = some t2 :=
      findSlot_of_mem s t2 ht2mem.1 hnodup
    rw [hid, hfind] at hfind2
    exact (Option.some_inj.mp hfind2).symm
  rw [this] at ht2mem
  have hcond := ht2mem.2
  simp only [Bool.and_eq_true, decide_eq_true_eq] at hcond
  exact hmm hcond.1.1.1

/-! ### Lemmas on the multi-day accumulation -/

theorem accumulateDays_shape (s : St) (requiredCapacity : Nat)
    (avs : List Availability) :
    ∀ d ∈ (accumulateDays s requiredCapacity avs).1, ∃ av ∈ avs,
      d.slots = findAllAvailableSlotsOnDay s av.availability_id ∧
        d.capacity = capacityOf d.slots := by
  induction avs generalizing requiredCapacity with
  | nil => simp [accumulateDays]
  | cons day rest ih =>
    intro d hd
    rw [accumulateDays] at hd
    by_cases hpos : capacityOf (findAllAvailableSlotsOnDay s
        day.availability_id) > 0
    · rw [if_pos hpos] at hd
      by_cases hge : capacityOf (findAllAvailableSlotsOnDay s
          day.availability_id) ≥ requiredCapacity
      · rw [if_pos hge] at hd
        rcases List.mem_singleton.mp hd with rfl
        exact ⟨day, List.mem_cons_self _ _, rfl, rfl⟩
      · rw [if_neg hge] at hd
        rcases List.mem_cons.mp hd with rfl | hd2
        · exact ⟨day, List.mem_cons_self _ _, rfl, rfl⟩
        · rcases ih _ d hd2 with ⟨av, hav, hsh⟩
          exact ⟨av, List.mem_cons_of_mem _ hav, hsh⟩
    · rw [if_neg hpos] at hd
      rcases ih _ d hd with ⟨av, hav, hsh⟩
      exact ⟨av, List.mem_cons_of_mem _ hav, hsh⟩

theorem accumulateDays_total (s : St) (requiredCapacity : Nat)
    (avs : List Availability) :
    (accumulateDays s requiredCapacity avs).2 =
      ((accumulateDays s requiredCapacity avs).1.map
        fun d => capacityOf d.slots).sum := by
  induction avs generalizing requiredCapacity with
  | nil => simp [accumulateDays]
  | cons day rest ih =>
    rw [accumulateDays]
    by_cases hpos : capacityOf (findAllAvailableSlotsOnDay s
        day.availability_id) > 0
    · rw [if_pos hpos]
      by_cases hge : capacityOf (findAllAvailableSlotsOnDay s
          day.availability_id) ≥ requiredCapacity
      · rw [if_pos hge]
        simp
      · rw [if_neg hge]
        simp [ih]
    · rw [if_neg hpos]
      exact ih _

/-- Across availabilities with distinct ids, the accumulated days grant at
most the state bound for every slot id. -/
theorem accumulateDays_spotsFor_le (s : St) (x : Nat)
    (hnodup : (s.slots.map fun t => t.timeslot_id).Nodup) :
    ∀ (avs : List Availability) (requiredCapacity : Nat),
      (avs.map fun av => av.availability_id).Nodup →
      ((accumulateDays s requiredCapacity avs).1.map
        fun d => spotsFor x d.slots).sum ≤ spotsBound s x := by
  intro avs
  induction avs with
  | nil => intro req _; simp [accumulateDays]
  | cons day rest ih =>
    intro req havnodup
    simp only [List.map_cons, List.nodup_cons] at havnodup
    rw [accumulateDays]
    by_cases hpos : capacityOf (findAllAvailableSlotsOnDay s
        day.availability_id) > 0
    · rw [if_pos hpos]
      by_cases hge : capacityOf (findAllAvailableSlotsOnDay s
          day.availability_id) ≥ req
      · rw [if_pos hge]
        simpa using spotsFor_day_le s day.availability_id x hnodup
      · rw [if_neg hge]
        simp only [List.map_cons, List.sum_cons]
        by_cases hz : spotsFor x (findAllAvailableSlotsOnDay s
            day.availability_id) = 0
        · rw [hz]
          simpa using ih _ havnodup.2
        · -- the slot with id x lives under this availability; the
          -- remaining accumulated days are other availabilities and
          -- grant nothing for x
          cases hfind : findSlot s x with
          | none =>
            exfalso
            apply hz
            unfold findAllAvailableSlotsOnDay spotsFor
            rw [List.filter_eq_nil_iff.mpr, List.map_nil, List.sum_nil]
            intro sc hsc
            rcases List.mem_map.mp hsc with ⟨t2, ht2, rfl⟩
            rw [mem_sortByKey] at ht2
            simp only [toSlotCap, decide_eq_true_eq]
            intro hid
            have : findSlot s x = some t2 :=
              hid ▸ findSlot_of_mem s t2 (List.mem_filter.mp ht2).1 hnodup
            rw [hfind] at this
            cases this
          | some t =>
            have htav : t.availability_id = day.availability_id := by
              by_contra hne
              exact hz (spotsFor_day_mismatch s day.availability_id x t
                hfind hnodup hne)
            have hrest : (List.map (fun d => spotsFor x d.slots)
                (accumulateDays s (req - capacityOf
                  (findAllAvailableSlotsOnDay s day.availability_id))
                  rest).1).sum = 0 := by
              apply List.sum_eq_zero
              intro n hn
              rcases List.mem_map.mp hn with ⟨d, hd, rfl⟩
              rcases accumulateDays_shape s _ rest d hd with
                ⟨av, hav, hdslots, _⟩
              rw [hdslots]
              apply spotsFor_day_mismatch s av.availability_id x t hfind
                hnodup
              rw [htav]
              intro heq
              exact havnodup.1 (heq ▸ List.mem_map_of_mem
                (fun av => av.availability_id) hav)
            rw [hrest]
            simpa using spotsFor_day_le s day.availability_id x hnodup
    · rw [if_neg hpos]
      exact ih _ havnodup.2

/-! ### Soundness of the reschedule strategy -/

theorem mem_capIds_sameDay (s : St) (availability : Availability)
    (dto : ShrinkDto) (x : Nat)
    (h : x ∈ (findSameDayAvailableSlots s availability dto).map
      fun sc => sc.timeslot_id) : ∃ t ∈ s.slots, t.timeslot_id = x := by
  unfold findSameDayAvailableSlots at h
  rw [List.map_map] at h
  rcases List.mem_map.mp h with ⟨t, ht, hid⟩
  rw [mem_sortByKey] at ht
  exact ⟨t, List.mem_of_mem_filter ht, hid⟩

theorem mem_capIds_day (s : St) (availabilityId : Nat) (x : Nat)
    (h : x ∈ (findAllAvailableSlotsOnDay s availabilityId).map
      fun sc => sc.timeslot_id) : ∃ t ∈ s.slots, t.timeslot_id = x := by
  unfold findAllAvailableSlotsOnDay at h
  rw [List.map_map] at h
  rcases List.mem_map.mp h with ⟨t, ht, hid⟩
  rw [mem_sortByKey] at ht
  exact ⟨t, List.mem_of_mem_filter ht, hid⟩

theorem findNextAvailableDay_shape (s : St) (doctorId currentDate : Nat)
    (nd : NextDayData) (h : findNextAvailableDay s doctorId currentDate =
      some nd) :
    ∃ availabilityId, nd.slots =
      findAllAvailableSlotsOnDay s availabilityId := by
  unfold findNextAvailableDay at h
  cases hf : futureAvailabilities s doctorId currentDate with
  | nil => rw [hf] at h; cases h
  | cons next rest =>
    rw [hf] at h
    simp only [Option.some_inj] at h
    exact ⟨next.availability_id, by rw [← h]⟩

theorem futureAvailabilities_ids_nodup (s : St) (doctorId currentDate : Nat)
    (hnodup : (s.availabilities.map fun a => a.availability_id).Nodup) :
    (((futureAvailabilities s doctorId currentDate).take 7).map
      fun av => av.availability_id).Nodup := by
  have h1 : (List.map (fun a => a.availability_id)
      (s.availabilities.filter fun av =>
        decide (av.doctor_id = doctorId) &&
          decide (av.date > currentDate))).Nodup :=
    List.Nodup.sublist ((List.filter_sublist _).map _) hnodup
  have h2 : ((futureAvailabilities s doctorId currentDate).map
      fun a => a.availability_id).Nodup := by
    unfold futureAvailabilities
    exact (List.Perm.nodup_iff ((sortByKey_perm _ _).map _)).mpr h1
  exact List.Nodup.sublist ((List.take_sublist _ _).map _) h2

/-- The next-day tier does not cover the requirement (vacuously when
there is no next availability). -/
def nextDayInsufficient (s : St) (doctorId currentDate n : Nat) : Prop :=
  ∀ nd, findNextAvailableDay s doctorId currentDate = some nd →
    nd.capacity < n

theorem findMultipleFutureDays_eq (s : St) (doctorId currentDate
    requiredCapacity : Nat) :
    findMultipleFutureDays s doctorId currentDate requiredCapacity =
      ((accumulateDays s requiredCapacity
          ((futureAvailabilities s doctorId currentDate).take 7)).1,
        (accumulateDays s requiredCapacity
          ((futureAvailabilities s doctorId currentDate).take 7)).2,
        decide ((accumulateDays s requiredCapacity
          ((futureAvailabilities s doctorId currentDate).take 7)).2 ≥
            requiredCapacity)) := by
  unfold findMultipleFutureDays
  cases hacc : accumulateDays s requiredCapacity
    ((futureAvailabilities s doctorId currentDate).take 7) with
  | mk d t => simp [hacc]

theorem genStrategy_tier1 (s : St) (doctorId : Nat)
    (availability : Availability) (dto : ShrinkDto)
    (affected : List Appointment)
    (h : capacityOf (findSameDayAvailableSlots s availability dto) ≥
      affected.length) :
    generateRescheduleStrategy s doctorId availability dto affected =
      createRescheduleActions affected
        (findSameDayAvailableSlots s availability dto) none := by
  simp only [generateRescheduleStrategy]
  rw [if_pos h]

theorem genStrategy_tier2 (s : St) (doctorId : Nat)
    (availability : Availability) (dto : ShrinkDto)
    (affected : List Appointment) (nd : NextDayData)
    (h1 : ¬ capacityOf (findSameDayAvailableSlots s availability dto) ≥
      affected.length)
    (hnd : findNextAvailableDay s doctorId availability.date = some nd)
    (h2 : nd.capacity ≥ affected.length) :
    generateRescheduleStrategy s doctorId availability dto affected =
      createRescheduleActions affected nd.slots (some nd.date) := by
  simp only [generateRescheduleStrategy]
  rw [if_neg h1, hnd]
  simp only [if_pos h2]

theorem genStrategy_multi (s : St) (doctorId : Nat)
    (availability : Availability) (dto : ShrinkDto)
    (affected : List Appointment) (days : List DayCap) (total : Nat)
    (h1 : ¬ capacityOf (findSameDayAvailableSlots s availability dto) ≥
      affected.length)
    (h2 : nextDayInsufficient s doctorId availability.date affected.length)
    (hm : findMultipleFutureDays s doctorId availability.date
      affected.length = (days, total, true)) :
    generateRescheduleStrategy s doctorId availability dto affected =
      createMultiDayRescheduleActions affected days := by
  simp only [generateRescheduleStrategy]
  rw [if_neg h1]
  cases hnd : findNextAvailableDay s doctorId availability.date with
  | some nd =>
    have hlt := h2 nd hnd
    simp only [if_neg (by omega : ¬ nd.capacity ≥ affected.length), hm]
    simp
  | none =>
    simp only [hm]
    simp

theorem genStrategy_fail (s : St) (doctorId : Nat)
    (availability : Availability) (dto : ShrinkDto)
    (affected : List Appointment) (days : List DayCap) (total : Nat)
    (h1 : ¬ capacityOf (findSameDayAvailableSlots s availability dto) ≥
      affected.length)
    (h2 : nextDayInsufficient s doctorId availability.date affected.length)
    (hm : findMultipleFutureDays s doctorId availability.date
      affected.length = (days, total, false)) :
    generateRescheduleStrategy s doctorId availability dto affected =
      { success := false, available_capacity := some total
        reschedule_actions := [] } := by
  simp only [generateRescheduleStrategy]
  rw [if_neg h1]
  cases hnd : findNextAvailableDay s doctorId availability.date with
  | some nd =>
    have hlt := h2 nd hnd
    simp only [if_neg (by omega : ¬ nd.capacity ≥ affected.length), hm]
    simp
  | none =>
    simp only [hm]
    simp

/-- Every target of a successful or failed strategy is bounded per slot id
by what the state can grant. -/
theorem strategy_countP_le (s : St) (doctorId : Nat)
    (availability : Availability) (dto : ShrinkDto)
    (affected : List Appointment)
    (hsnodup : (s.slots.map fun t => t.timeslot_id).Nodup)
    (havnodup : (s.availabilities.map fun a => a.availability_id).Nodup)
    (x : Nat) :
    (generateRescheduleStrategy s doctorId availability dto
      affected).reschedule_actions.countP
        (fun act => decide (act.new_timeslot_id = x)) ≤ spotsBound s x := by
  by_cases h1 : capacityOf (findSameDayAvailableSlots s availability dto) ≥
    affected.length
  · rw [genStrategy_tier1 s doctorId availability dto affected h1]
    unfold createRescheduleActions
    exact le_trans (assignGreedy_countP_le _ _ _ _)
      (spotsFor_sameDay_le s availability dto x hsnodup)
  · by_cases h2 : nextDayInsufficient s doctorId availability.date
      affected.length
    · cases hm : findMultipleFutureDays s doctorId availability.date
        affected.length with
      | mk days rest =>
        obtain ⟨total, suff⟩ := rest
        cases suff with
        | true =>
          rw [genStrategy_multi s doctorId availability dto affected days
            total h1 h2 hm]
          unfold createMultiDayRescheduleActions
          refine le_trans (assignDays_countP_le _ _ _) ?_
          have hdays : days = (accumulateDays s affected.length
              ((futureAvailabilities s doctorId availability.date).take 7)).1
            := by
            rw [findMultipleFutureDays_eq] at hm
            exact (congrArg Prod.fst hm).symm
          rw [hdays]
          exact accumulateDays_spotsFor_le s x hsnodup _ _
            (futureAvailabilities_ids_nodup s doctorId availability.date
              havnodup)
        | false =>
          rw [genStrategy_fail s doctorId availability dto affected days
            total h1 h2 hm]
          simp
    · unfold nextDayInsufficient at h2
      push_neg at h2
      rcases h2 with ⟨nd, hnd, hcap⟩
      rw [genStrategy_tier2 s doctorId availability dto affected nd h1 hnd
        hcap]
      unfold createRescheduleActions
      rcases findNextAvailableDay_shape s doctorId availability.date nd hnd
        with ⟨avId, hsh⟩
      refine le_trans (assignGreedy_countP_le _ _ _ _) ?_
      rw [hsh]
      exact spotsFor_day_le s avId x hsnodup

/-- Every target slot id of a strategy action exists in the slot table. -/
theorem strategy_targets_exist (s : St) (doctorId : Nat)
    (availability : Availability) (dto : ShrinkDto)
    (affected : List Appointment) :
    ∀ act ∈ (generateRescheduleStrategy s doctorId availability dto
        affected).reschedule_actions,
      ∃ t ∈ s.slots, t.timeslot_id = act.new_timeslot_id := by
  by_cases h1 : capacityOf (findSameDayAvailableSlots s availability dto) ≥
    affected.length
  · rw [genStrategy_tier1 s doctorId availability dto affected h1]
    intro act hact
    exact mem_capIds_sameDay s availability dto act.new_timeslot_id
      (assignGreedy_targets _ _ _ act hact)
  · by_cases h2 : nextDayInsufficient s doctorId availability.date
      affected.length
    · cases hm : findMultipleFutureDays s doctorId availability.date
        affected.length with
      | mk days rest =>
        obtain ⟨total, suff⟩ := rest
        cases suff with
        | true =>
          rw [genStrategy_multi s doctorId availability dto affected days
            total h1 h2 hm]
          intro act hact
          rcases assignDays_targets _ _ act hact with ⟨d, hd, hmem⟩
          have hdays : days = (accumulateDays s affected.length
              ((futureAvailabilities s doctorId availability.date).take 7)).1
            := by
            rw [findMultipleFutureDays_eq] at hm
            exact (congrArg Prod.fst hm).symm
          rw [hdays] at hd
          rcases accumulateDays_shape s _ _ d hd with ⟨av, _, hdslots, _⟩
          apply mem_capIds_day s av.availability_id act.new_timeslot_id
          rw [← hdslots]
          exact hmem
        | false =>
          rw [genStrategy_fail s doctorId availability dto affected days
            total h1 h2 hm]
          intro act hact
          cases hact
    · unfold nextDayInsufficient at h2
      push_neg at h2
      rcases h2 with ⟨nd, hnd, hcap⟩
      rw [genStrategy_tier2 s doctorId availability dto affected nd h1 hnd
        hcap]
      intro act hact
      rcases findNextAvailableDay_shape s doctorId availability.date nd hnd
        with ⟨avId, hsh⟩
      apply mem_capIds_day s avId act.new_timeslot_id
      rw [← hsh]
      exact assignGreedy_targets _ _ _ act hact

/-- A successful strategy pairs the affected appointments, in order,
exactly with its actions. -/
theorem strategy_ids_of_success (s : St) (doctorId : Nat)
    (availability : Availability) (dto : ShrinkDto)
    (affected : List Appointment)
    (hsucc : (generateRescheduleStrategy s doctorId availability dto
      affected).success = true) :
    (generateRescheduleStrategy s doctorId availability dto
        affected).reschedule_actions.map (fun act => act.appointment_id) =
      affected.map fun a => a.appointment_id := by
  have hgen : ∀ (actions : List RescheduleAction),
      actions.length = affected.length →
      actions.map (fun act => act.appointment_id) =
        (affected.take actions.length).map (fun a => a.appointment_id) →
      actions.map (fun act => act.appointment_id) =
        affected.map fun a => a.appointment_id := by
    intro actions hlen htake
    rw [htake, hlen, List.take_length]
  by_cases h1 : capacityOf (findSameDayAvailableSlots s availability dto) ≥
    affected.length
  · rw [genStrategy_tier1 s doctorId availability dto affected h1]
    rw [genStrategy_tier1 s doctorId availability dto affected h1] at hsucc
    unfold createRescheduleActions at hsucc ⊢
    simp only [decide_eq_true_eq] at hsucc
    exact hgen _ hsucc (assignGreedy_ids_take _ _ _)
  · by_cases h2 : nextDayInsufficient s doctorId availability.date
      affected.length
    · cases hm : findMultipleFutureDays s doctorId availability.date
        affected.length with
      | mk days rest =>
        obtain ⟨total, suff⟩ := rest
        cases suff with
        | true =>
          rw [genStrategy_multi s doctorId availability dto affected days
            total h1 h2 hm]
          rw [genStrategy_multi s doctorId availability dto affected days
            total h1 h2 hm] at hsucc
          unfold createMultiDayRescheduleActions at hsucc ⊢
          simp only [decide_eq_true_eq] at hsucc
          exact hgen _ hsucc (assignDays_ids_take _ _)
        | false =>
          rw [genStrategy_fail s doctorId availability dto affected days
            total h1 h2 hm] at hsucc
          simp at hsucc
    · unfold nextDayInsufficient at h2
      push_neg at h2
      rcases h2 with ⟨nd, hnd, hcap⟩
      rw [genStrategy_tier2 s doctorId availability dto affected nd h1 hnd
        hcap]
      rw [genStrategy_tier2 s doctorId availability dto affected nd h1 hnd
        hcap] at hsucc
      unfold createRescheduleActions at hsucc ⊢
      simp only [decide_eq_true_eq] at hsucc
      exact hgen _ hsucc (assignGreedy_ids_take _ _ _)

theorem countP_key_le_one {α : Type} (f : α → Nat) (l : List α) (x : Nat)
    (hnodup : (l.map f).Nodup) :
    l.countP (fun b => decide (f b = x)) ≤ 1 := by
  induction l with
  | nil => simp
  | cons b rest ih =>
    simp only [List.map_cons, List.nodup_cons] at hnodup
    rw [List.countP_cons]
    by_cases hb : f b = x
    · subst hb
      have hz : rest.countP (fun c => decide (f c = f b)) = 0 := by
        apply List.countP_eq_zero.mpr
        intro c hc
        simp only [decide_eq_true_eq]
        intro hfc
        exact hnodup.1 (hfc ▸ List.mem_map_of_mem f hc)
      simp [hz]
    · have := ih hnodup.2
      simp only [decide_eq_true_eq]
      simp [hb]
      omega

theorem countP_mem_le {α : Type} (f : α → Nat) (l : List α)
    (ids : List Nat) (hl : (l.map f).Nodup) (hids : ids.Nodup) :
    l.countP (fun b => decide (f b ∈ ids)) ≤ ids.length := by
  induction ids with
  | nil => simp
  | cons i rest ih =>
    simp only [List.nodup_cons] at hids
    have hsplit : l.countP (fun b => decide (f b ∈ i :: rest)) =
        l.countP (fun b => decide (f b = i) || decide (f b ∈ rest)) := by
      congr 1
      funext b
      simp [List.mem_cons]
    rw [hsplit, countP_or_disjoint]
    · have h1 := countP_key_le_one f l i hl
      have h2 := ih hids.2
      simp only [List.length_cons]
      omega
    · intro b _
      simp only [decide_eq_true_eq]
      rintro ⟨rfl, hmem⟩
      exact hids.1 hmem

/-! ### Characterizing the shrink execution loop -/

theorem saveAppointment_appIds (s : St) (a1 : Appointment) :
    (saveAppointment s a1).appointments.map (fun a => a.appointment_id) =
      s.appointments.map fun a => a.appointment_id := by
  unfold saveAppointment
  simp only [List.map_map]
  apply List.map_congr_left
  intro a _
  by_cases h : a.appointment_id = a1.appointment_id
  · simp [Function.comp, h]
  · simp [Function.comp, h]

/-- What rescheduleAppointment writes into the found appointment. -/
def applyAction (act : RescheduleAction) (a : Appointment) : Appointment :=
  { a with
    timeslot_id := act.new_timeslot_id
    notes := (a.notes ++ " " ++ act.reason).trim }

theorem rescheduleAppointment_eq (s : St)
    (appointmentId newTimeslotId : Nat) (reason : String)
    (a : Appointment) (tslot : TimeSlot)
    (hfa : findAppointment s appointmentId = some a)
    (hfs : findSlot s newTimeslotId = some tslot) :
    rescheduleAppointment s appointmentId newTimeslotId reason =
      (Except.ok (), saveAppointment s
        { a with
          timeslot_id := newTimeslotId
          notes := (a.notes ++ " " ++ reason).trim }) := by
  unfold rescheduleAppointment
  rw [hfa, hfs]

theorem findSlot_isSome_of_exists (s : St) (x : Nat)
    (h : ∃ t ∈ s.slots, t.timeslot_id = x) : (findSlot s x).isSome := by
  rcases h with ⟨t, ht, rfl⟩
  unfold findSlot
  rw [List.find?_isSome]
  exact ⟨t, ht, by simp⟩

/-- The execution loop of shrinkSchedule succeeds and rewrites exactly the
appointments named by the actions, leaving slots, availabilities and
patients untouched. -/
theorem execReschedules_ok (actions : List RescheduleAction) (s : St)
    (happ_nodup : (s.appointments.map fun a => a.appointment_id).Nodup)
    (hact_nodup : (actions.map fun act => act.appointment_id).Nodup)
    (hfind : ∀ act ∈ actions,
      (findAppointment s act.appointment_id).isSome)
    (hslot : ∀ act ∈ actions, ∃ t ∈ s.slots,
      t.timeslot_id = act.new_timeslot_id) :
    ∃ s1, execReschedules s actions = (Except.ok (), s1) ∧
      s1.appointments = s.appointments.map (fun b =>
        match actions.find? (fun act =>
          decide (act.appointment_id = b.appointment_id)) with
        | some act => applyAction act b
        | none => b) ∧
      s1.slots = s.slots ∧ s1.availabilities = s.availabilities ∧
      s1.patients = s.patients := by
  induction actions generalizing s with
  | nil =>
    refine ⟨s, rfl, ?_, rfl, rfl, rfl⟩
    simp [List.find?_nil]
  | cons act rest ih =>
    simp only [List.map_cons, List.nodup_cons] at hact_nodup
    cases hfa : findAppointment s act.appointment_id with
    | none =>
      exfalso
      have := hfind act (List.mem_cons_self _ _)
      rw [hfa] at this
      cases this
    | some a =>
      have haid : a.appointment_id = act.appointment_id := by
        have := List.find?_some hfa
        simpa using this
      cases hfs : findSlot s act.new_timeslot_id with
      | none =>
        exfalso
        have := findSlot_isSome_of_exists s act.new_timeslot_id
          (hslot act (List.mem_cons_self _ _))
        rw [hfs] at this
        cases this
      | some tslot =>
        have hstep : execReschedules s (act :: rest) =
            execReschedules (saveAppointment s (applyAction act a)) rest :=
          by
          rw [execReschedules, rescheduleAppointment_eq s _ _ _ a tslot hfa
            hfs]
          rfl
        set s1 := saveAppointment s (applyAction act a) with hs1
        have h1ids : (s1.appointments.map fun a => a.appointment_id).Nodup
          := by
          rw [hs1, saveAppointment_appIds]
          exact happ_nodup
        have h1find : ∀ act2 ∈ rest,
            (findAppointment s1 act2.appointment_id).isSome := by
          intro act2 hact2
          rw [hs1, findAppointment_saveAppointment]
          have hne : ¬ act2.appointment_id =
              (applyAction act a).appointment_id := by
            simp only [applyAction, haid]
            intro h
            exact hact_nodup.1 (h ▸ List.mem_map_of_mem
              (fun act => act.appointment_id) hact2)
          rw [if_neg hne]
          exact hfind act2 (List.mem_cons_of_mem _ hact2)
        have h1slot : ∀ act2 ∈ rest, ∃ t ∈ s1.slots,
            t.timeslot_id = act2.new_timeslot_id := by
          intro act2 hact2
          rw [hs1, saveAppointment_slots]
          exact hslot act2 (List.mem_cons_of_mem _ hact2)
        rcases ih s1 h1ids hact_nodup.2 h1find h1slot with
          ⟨s2, hrun, happs, hslots, havs, hpats⟩
        refine ⟨s2, by rw [hstep, hrun], ?_, ?_, ?_, ?_⟩
        · rw [happs, hs1]
          unfold saveAppointment
          simp only [List.map_map]
          apply List.map_congr_left
          intro b hb
          simp only [Function.comp]
          have hpid : (applyAction act a).appointment_id =
              act.appointment_id := by simp [applyAction, haid]
          simp only [hpid]
          by_cases hbid : b.appointment_id = act.appointment_id
          · have hifeq : (if b.appointment_id = act.appointment_id then
                applyAction act a else b) = applyAction act a := if_pos hbid
            simp only [hifeq, hpid]
            have hrestnone : rest.find? (fun act2 =>
                decide (act2.appointment_id = act.appointment_id)) = none
              := by
              rw [List.find?_eq_none]
              intro act2 hact2
              simp only [decide_eq_true_eq]
              intro h
              exact hact_nodup.1 (h ▸ List.mem_map_of_mem
                (fun act => act.appointment_id) hact2)
            rw [hrestnone, List.find?_cons_of_pos _ (by simp [hbid])]
            have hba : b = a := by
              apply List.inj_on_of_nodup_map happ_nodup hb
                (List.mem_of_find?_eq_some hfa)
              rw [hbid, haid]
            rw [hba]
          · have hifeq : (if b.appointment_id = act.appointment_id then
                applyAction act a else b) = b := if_neg hbid
            simp only [hifeq]
            have hne2 : ¬ act.appointment_id = b.appointment_id :=
              fun h => hbid h.symm
            rw [List.find?_cons_of_neg _ (by simpa using hne2)]
        · rw [hslots, hs1, saveAppointment_slots]
        · rw [havs, hs1, saveAppointment_availabilities]
        · rw [hpats, hs1, saveAppointment_patients]

/-! ### Characterizing the move execution loop -/

/-- What moveAppointmentToSlot writes into the found appointment. -/
def moveApp (targetSlotId : Nat) (reason : Option String)
    (a : Appointment) : Appointment :=
  { a with
    timeslot_id := targetSlotId
    notes := match reason with
      | some r => (a.notes ++ " " ++ r).trim
      | none => a.notes }

theorem findAppointment_updateSlotStatus (s : St) (slotId x : Nat) :
    findAppointment (updateSlotStatus s slotId) x = findAppointment s x :=
  by
  unfold findAppointment
  rw [updateSlotStatus_appointments]

theorem findSlot_isSome_iff (s : St) (x : Nat) :
    (findSlot s x).isSome ↔ x ∈ s.slots.map fun t => t.timeslot_id := by
  unfold findSlot
  rw [List.find?_isSome]
  constructor
  · rintro ⟨t, ht, hp⟩
    simp only [decide_eq_true_eq] at hp
    exact hp ▸ List.mem_map_of_mem _ ht
  · intro h
    rcases List.mem_map.mp h with ⟨t, ht, rfl⟩
    exact ⟨t, ht, by simp⟩

theorem moveAppointmentToSlot_eq (s : St)
    (appointmentId newSlotId : Nat) (reason : Option String)
    (a : Appointment) (t0 : TimeSlot)
    (hfa : findAppointment s appointmentId = some a)
    (hfs : findSlot s newSlotId = some t0) :
    moveAppointmentToSlot s appointmentId newSlotId reason =
      (Except.ok (), updateSlotStatus (updateSlotStatus
          (saveAppointment s (moveApp newSlotId reason a))
          a.timeslot_id) newSlotId,
        [a.timeslot_id, newSlotId]) := by
  unfold moveAppointmentToSlot
  rw [hfa, hfs]
  rfl

/-- The movedSlotIds set accumulated by the loop. -/
def accMovedIds (apps : List Appointment) (targetSlotId : Nat)
    (acc : List Nat) : List Nat :=
  apps.foldl (fun acc a => addUnique (addUnique acc a.timeslot_id)
    targetSlotId) acc

/-- The move loop succeeds and reassigns exactly the selected
appointments, preserving slot ids and shapes and all other tables. -/
theorem execMoves_ok (apps : List Appointment) (s : St)
    (targetSlotId : Nat) (reason : Option String) (acc : List Nat)
    (happ_nodup : (s.appointments.map fun a => a.appointment_id).Nodup)
    (hslot_nodup : (s.slots.map fun t => t.timeslot_id).Nodup)
    (hsub : ∀ a ∈ apps, findAppointment s a.appointment_id = some a)
    (htarget : (findSlot s targetSlotId).isSome)
    (hnodup : (apps.map fun a => a.appointment_id).Nodup) :
    ∃ s1 tr, execMoves s apps targetSlotId reason acc =
        (Except.ok (), s1, accMovedIds apps targetSlotId acc, tr) ∧
      s1.appointments = s.appointments.map (fun b =>
        if b.appointment_id ∈ apps.map (fun a => a.appointment_id) then
          moveApp targetSlotId reason b
        else b) ∧
      s1.slots.map slotShape = s.slots.map slotShape ∧
      s1.slots.map (fun t => t.timeslot_id) =
        s.slots.map (fun t => t.timeslot_id) ∧
      s1.availabilities = s.availabilities ∧ s1.patients = s.patients := by
  induction apps generalizing s acc with
  | nil =>
    refine ⟨s, [], rfl, by simp, rfl, rfl, rfl, rfl⟩
  | cons a rest ih =>
    simp only [List.map_cons, List.nodup_cons] at hnodup
    have hfa : findAppointment s a.appointment_id = some a :=
      hsub a (List.mem_cons_self _ _)
    cases hfs : findSlot s targetSlotId with
    | none => rw [hfs] at htarget; cases htarget
    | some t0 =>
      set sA := saveAppointment s (moveApp targetSlotId reason a) with hsA
      set sB := updateSlotStatus sA a.timeslot_id with hsB
      set sC := updateSlotStatus sB targetSlotId with hsC
      have hCapp : sC.appointments = sA.appointments := by
        rw [hsC, hsB, updateSlotStatus_appointments,
          updateSlotStatus_appointments]
      have hCids : sC.slots.map (fun t => t.timeslot_id) =
          s.slots.map fun t => t.timeslot_id := by
        rw [hsC, hsB, updateSlotStatus_slotIds, updateSlotStatus_slotIds,
          hsA, saveAppointment_slots]
      have hCnodup : (sC.slots.map fun t => t.timeslot_id).Nodup := by
        rw [hCids]; exact hslot_nodup
      have hCshape : sC.slots.map slotShape = s.slots.map slotShape := by
        rw [hsC, updateSlotStatus_shape _ _ (by
          rw [hsB, updateSlotStatus_slotIds, hsA, saveAppointment_slots]
          exact hslot_nodup)]
        rw [hsB, updateSlotStatus_shape _ _ (by
          rw [hsA, saveAppointment_slots]; exact hslot_nodup)]
        rw [hsA, saveAppointment_slots]
      have hCapp_nodup :
          (sC.appointments.map fun a => a.appointment_id).Nodup := by
        rw [hCapp, hsA, saveAppointment_appIds]
        exact happ_nodup
      have hCsub : ∀ b ∈ rest, findAppointment sC b.appointment_id =
          some b := by
        intro b hb
        have : findAppointment sC b.appointment_id =
            findAppointment sA b.appointment_id := by
          unfold findAppointment
          rw [hCapp]
        rw [this, hsA, findAppointment_saveAppointment]
        have hne : ¬ b.appointment_id =
            (moveApp targetSlotId reason a).appointment_id := by
          simp only [moveApp]
          intro h
          exact hnodup.1 (h ▸ List.mem_map_of_mem
            (fun a => a.appointment_id) hb)
        rw [if_neg hne]
        exact hsub b (List.mem_cons_of_mem _ hb)
      have hCtarget : (findSlot sC targetSlotId).isSome := by
        rw [findSlot_isSome_iff, hCids, ← findSlot_isSome_iff, hfs]
        rfl
      rcases ih sC (addUnique (addUnique acc a.timeslot_id) targetSlotId)
        hCapp_nodup hCnodup hCsub hCtarget hnodup.2 with
        ⟨s1, tr, hrun, happs, hshape, hids, havs, hpats⟩
      refine ⟨s1, [a.timeslot_id, targetSlotId] ++ tr, ?_, ?_, ?_, ?_, ?_,
        ?_⟩
      · rw [execMoves, moveAppointmentToSlot_eq s a.appointment_id
          targetSlotId reason a t0 hfa hfs]
        simp only [← hsA, ← hsB, ← hsC]
        rw [hrun]
        rfl
      · rw [happs, hCapp, hsA]
        unfold saveAppointment
        simp only [List.map_map]
        apply List.map_congr_left
        intro b hb
        simp only [Function.comp, List.map_cons, List.mem_cons]
        have hmid : (moveApp targetSlotId reason a).appointment_id =
            a.appointment_id := rfl
        simp only [hmid]
        by_cases hbid : b.appointment_id = a.appointment_id
        · have hifeq : (if b.appointment_id = a.appointment_id then
              moveApp targetSlotId reason a else b) =
                moveApp targetSlotId reason a := if_pos hbid
          simp only [hifeq]
          rw [if_neg (by rw [hmid]; exact hnodup.1), if_pos (Or.inl hbid)]
          have hba : b = a := by
            apply List.inj_on_of_nodup_map happ_nodup hb
              (List.mem_of_find?_eq_some hfa)
            exact hbid
          rw [hba]
        · have hifeq : (if b.appointment_id = a.appointment_id then
              moveApp targetSlotId reason a else b) = b := if_neg hbid
          simp only [hifeq]
          by_cases hbr : b.appointment_id ∈ rest.map
            fun a => a.appointment_id
          · rw [if_pos hbr, if_pos (Or.inr hbr)]
          · rw [if_neg hbr, if_neg (by
              rintro (h | h)
              · exact hbid h
              · exact hbr h)]
      · rw [hshape, hCshape]
      · rw [hids, hCids]
      · rw [havs, hsC, hsB, updateSlotStatus_availabilities,
          updateSlotStatus_availabilities, hsA,
          saveAppointment_availabilities]
      · rw [hpats, hsC, hsB, updateSlotStatus_patients,
          updateSlotStatus_patients, hsA, saveAppointment_patients]

/-! ### Counting SCHEDULED appointments after the rewrite maps -/

/-- The SCHEDULED-count predicate of activeCount, named for reuse. -/
def schedAt (x : Nat) (a : Appointment) : Bool :=
  decide (a.timeslot_id = x) &&
    decide (a.appointment_status = AppointmentStatus.SCHEDULED)

theorem activeCount_eq_countP (s : St) (x : Nat) :
    activeCount s x = s.appointments.countP (schedAt x) := rfl

/-- After the shrink rewrite map, the SCHEDULED count of a slot is
bounded by the old count plus the number of actions targeting it. -/
theorem countP_actions_map_le (apps : List Appointment)
    (actions : List RescheduleAction) (x : Nat)
    (happ : (apps.map fun a => a.appointment_id).Nodup)
    (hact : (actions.map fun act => act.appointment_id).Nodup) :
    (apps.map (fun b =>
      match actions.find? (fun act =>
        decide (act.appointment_id = b.appointment_id)) with
      | some act => applyAction act b
      | none => b)).countP (schedAt x) ≤
      apps.countP (schedAt x) +
        actions.countP fun act => decide (act.new_timeslot_id = x) := by
  rw [List.countP_map]
  rw [countP_split apps _ (fun b => (actions.find? (fun act =>
    decide (act.appointment_id = b.appointment_id))).isSome)]
  have h1 : apps.countP (fun b =>
      !(actions.find? (fun act =>
        decide (act.appointment_id = b.appointment_id))).isSome &&
      (schedAt x ∘ fun b =>
        match actions.find? (fun act =>
          decide (act.appointment_id = b.appointment_id)) with
        | some act => applyAction act b
        | none => b) b) ≤ apps.countP (schedAt x) := by
    apply List.countP_mono_left
    intro b _
    simp only [Bool.and_eq_true, Bool.not_eq_true', Function.comp]
    rintro ⟨hnone, hp⟩
    cases hfd : actions.find? (fun act =>
      decide (act.appointment_id = b.appointment_id)) with
    | none => rw [hfd] at hp; exact hp
    | some act => rw [hfd] at hnone; cases hnone
  have h2 : apps.countP (fun b =>
      (actions.find? (fun act =>
        decide (act.appointment_id = b.appointment_id))).isSome &&
      (schedAt x ∘ fun b =>
        match actions.find? (fun act =>
          decide (act.appointment_id = b.appointment_id)) with
        | some act => applyAction act b
        | none => b) b) ≤
      actions.countP fun act => decide (act.new_timeslot_id = x) := by
    have hmono : ∀ b ∈ apps,
        ((actions.find? (fun act =>
          decide (act.appointment_id = b.appointment_id))).isSome &&
        (schedAt x ∘ fun b =>
          match actions.find? (fun act =>
            decide (act.appointment_id = b.appointment_id)) with
          | some act => applyAction act b
          | none => b) b) = true →
        (decide (b.appointment_id ∈ (actions.filter (fun act =>
          decide (act.new_timeslot_id = x))).map
            fun act => act.appointment_id)) = true := by
      intro b _
      simp only [Bool.and_eq_true, Function.comp]
      rintro ⟨hsome, hp⟩
      cases hfd : actions.find? (fun act =>
        decide (act.appointment_id = b.appointment_id)) with
      | none => rw [hfd] at hsome; cases hsome
      | some act =>
        rw [hfd] at hp
        have hmem := List.mem_of_find?_eq_some hfd
        have hid : act.appointment_id = b.appointment_id := by
          have := List.find?_some hfd
          simpa using this
        have htarget : act.new_timeslot_id = x := by
          simp only [schedAt, applyAction, Bool.and_eq_true,
            decide_eq_true_eq] at hp
          exact hp.1
        simp only [decide_eq_true_eq]
        rw [← hid]
        apply List.mem_map_of_mem
        exact List.mem_filter.mpr ⟨hmem, by simpa using htarget⟩
    calc apps.countP _ ≤ apps.countP (fun b =>
          decide (b.appointment_id ∈ (actions.filter (fun act =>
            decide (act.new_timeslot_id = x))).map
              fun act => act.appointment_id)) :=
        List.countP_mono_left hmono
      _ ≤ ((actions.filter (fun act =>
            decide (act.new_timeslot_id = x))).map
              fun act => act.appointment_id).length := by
        apply countP_mem_le _ _ _ happ
        exact List.Nodup.sublist ((List.filter_sublist _).map _) hact
      _ = actions.countP fun act => decide (act.new_timeslot_id = x) := by
        rw [List.length_map, ← List.countP_eq_length_filter]
  omega

/-- After the move rewrite map, the SCHEDULED count of a slot is bounded
by the old count plus (for the target slot only) the number of moved
appointments. -/
theorem countP_move_map_le (apps : List Appointment) (ids : List Nat)
    (targetSlotId : Nat) (reason : Option String) (x : Nat)
    (happ : (apps.map fun a => a.appointment_id).Nodup)
    (hids : ids.Nodup) :
    (apps.map (fun b =>
      if b.appointment_id ∈ ids then moveApp targetSlotId reason b
      else b)).countP (schedAt x) ≤
      apps.countP (schedAt x) +
        (if targetSlotId = x then ids.length else 0) := by
  rw [List.countP_map]
  rw [countP_split apps _ (fun b => decide (b.appointment_id ∈ ids))]
  have h1 : apps.countP (fun b =>
      !(decide (b.appointment_id ∈ ids)) &&
      (schedAt x ∘ fun b =>
        if b.appointment_id ∈ ids then moveApp targetSlotId reason b
        else b) b) ≤ apps.countP (schedAt x) := by
    apply List.countP_mono_left
    intro b _
    simp only [Bool.and_eq_true, Bool.not_eq_true', Function.comp,
      decide_eq_false_iff_not]
    rintro ⟨hnot, hp⟩
    rwa [if_neg hnot] at hp
  have h2 : apps.countP (fun b =>
      (decide (b.appointment_id ∈ ids)) &&
      (schedAt x ∘ fun b =>
        if b.appointment_id ∈ ids then moveApp targetSlotId reason b
        else b) b) ≤ if targetSlotId = x then ids.length else 0 := by
    by_cases htx : targetSlotId = x
    · rw [if_pos htx]
      have hstep : apps.countP (fun b =>
          (decide (b.appointment_id ∈ ids)) &&
          (schedAt x ∘ fun b =>
            if b.appointment_id ∈ ids then moveApp targetSlotId reason b
            else b) b) ≤ apps.countP
            (fun b => decide (b.appointment_id ∈ ids)) := by
        apply List.countP_mono_left
        intro b _
        simp only [Bool.and_eq_true]
        exact fun h => h.1
      exact le_trans hstep (countP_mem_le _ _ _ happ hids)
    · rw [if_neg htx]
      have : apps.countP (fun b =>
          (decide (b.appointment_id ∈ ids)) &&
          (schedAt x ∘ fun b =>
            if b.appointment_id ∈ ids then moveApp targetSlotId reason b
            else b) b) = 0 := by
        apply List.countP_eq_zero.mpr
        intro b _
        simp only [Bool.and_eq_true, Function.comp, decide_eq_true_eq]
        rintro ⟨hmem, hp⟩
        rw [if_pos hmem] at hp
        simp only [schedAt, moveApp, Bool.and_eq_true,
          decide_eq_true_eq] at hp
        exact htx hp.1
      omega
  omega

/-- Transfer of the capacity invariant along operations that only change
slot statuses / deletion flags and can only lower SCHEDULED counts. -/
theorem capInv_transfer (s s1 : St)
    (hshape : s1.slots.map slotShape = s.slots.map slotShape)
    (hcount : ∀ x, activeCount s1 x ≤ activeCount s x)
    (hinv : CapInv s) : CapInv s1 := by
  intro t ht
  have hmem : slotShape t ∈ s.slots.map slotShape := by
    rw [← hshape]
    exact List.mem_map_of_mem _ ht
  rcases List.mem_map.mp hmem with ⟨t0, ht0, hsh⟩
  have h1 : t0.timeslot_id = t.timeslot_id := congrArg Prod.fst hsh
  have h2 : t0.max_patients = t.max_patients := congrArg Prod.snd hsh
  calc activeCount s1 t.timeslot_id ≤ activeCount s t.timeslot_id :=
        hcount _
    _ = activeCount s t0.timeslot_id := by rw [h1]
    _ ≤ t0.max_patients := hinv t0 ht0
    _ = t.max_patients := h2

/-! ### Further framing lemmas -/

theorem saveAvailability_appointments (s : St) (a1 : Availability) :
    (saveAvailability s a1).appointments = s.appointments := rfl

theorem saveAvailability_slots (s : St) (a1 : Availability) :
    (saveAvailability s a1).slots = s.slots := rfl

theorem saveAvailability_patients (s : St) (a1 : Availability) :
    (saveAvailability s a1).patients = s.patients := rfl

theorem findSlot_saveAvailability (s : St) (a1 : Availability) (y : Nat) :
    findSlot (saveAvailability s a1) y = findSlot s y := rfl

theorem activeCount_batch (s : St) (ids : List Nat) (x : Nat) :
    activeCount (batchUpdateSlotStatuses s ids) x = activeCount s x := by
  unfold activeCount
  rw [batchUpdateSlotStatuses_appointments]

theorem findActiveSlot_mem (s : St) (x : Nat) (t : TimeSlot)
    (h : findActiveSlot s x = some t) :
    t ∈ s.slots ∧ t.timeslot_id = x ∧ t.is_deleted = false := by
  refine ⟨List.mem_of_find?_eq_some h, ?_, ?_⟩
  · have := List.find?_some h
    simp only [Bool.and_eq_true, decide_eq_true_eq] at this
    exact this.1
  · have := List.find?_some h
    simp only [Bool.and_eq_true, Bool.not_eq_true', decide_eq_true_eq] at this
    exact this.2

/-- The count over the success state of a booking: the appended SCHEDULED
appointment adds one to its own slot, nothing elsewhere. -/
theorem activeCount_append (s : St) (a : Appointment) (n : Nat) (x : Nat) :
    activeCount { s with
        appointments := s.appointments ++ [a]
        nextAppointmentId := n } x =
      activeCount s x + (if schedAt x a then 1 else 0) := by
  show (s.appointments ++ [a]).countP (schedAt x) = _
  rw [List.countP_append]
  congr 1
  simp [List.countP_cons]

/-- Saving an appointment that does not count for slot x cannot raise the
SCHEDULED count of x. -/
theorem activeCount_saveAppointment_le (s : St) (a1 : Appointment) (x : Nat)
    (h : schedAt x a1 = false) :
    activeCount (saveAppointment s a1) x ≤ activeCount s x := by
  show (s.appointments.map fun a =>
      if a.appointment_id = a1.appointment_id then a1 else a).countP
        (schedAt x) ≤ s.appointments.countP (schedAt x)
  rw [List.countP_map]
  apply List.countP_mono_left
  intro b _
  simp only [Function.comp]
  by_cases hb : b.appointment_id = a1.appointment_id
  · rw [if_pos hb]
    intro hp
    rw [h] at hp
    cases hp
  · rw [if_neg hb]
    exact id

theorem addUnique_nodup (l : List Nat) (x : Nat) (h : l.Nodup) :
    (addUnique l x).Nodup := by
  unfold addUnique
  by_cases hx : x ∈ l
  · rw [if_pos hx]
    exact h
  · rw [if_neg hx]
    simp [List.nodup_append, h, hx]

theorem accMovedIds_nodup (apps : List Appointment) (targetSlotId : Nat)
    (acc : List Nat) (h : acc.Nodup) :
    (accMovedIds apps targetSlotId acc).Nodup := by
  induction apps generalizing acc with
  | nil => exact h
  | cons a rest ih =>
    unfold accMovedIds at ih ⊢
    rw [List.foldl_cons]
    exact ih _ (addUnique_nodup _ _ (addUnique_nodup _ _ h))

theorem getApps_mem (s : St) (slotId : Nat) (optId : Option Nat)
    (a : Appointment) (h : a ∈ getAppointmentsFromSlot s slotId optId) :
    a ∈ s.appointments ∧ a.timeslot_id = slotId ∧
      a.appointment_status = AppointmentStatus.SCHEDULED := by
  have hm := List.mem_filter.mp h
  have hp := hm.2
  simp only [Bool.and_eq_true, decide_eq_true_eq] at hp
  exact ⟨hm.1, hp.1.1, hp.1.2⟩

theorem getApps_ids_nodup (s : St) (slotId : Nat) (optId : Option Nat)
    (h : (s.appointments.map fun a => a.appointment_id).Nodup) :
    ((getAppointmentsFromSlot s slotId optId).map
      fun a => a.appointment_id).Nodup :=
  List.Nodup.sublist ((List.filter_sublist _).map _) h

/-! ### Lemmas on the shrink write phase -/

theorem deactivateSlots_appointments (s : St) (availabilityId : Nat)
    (dto : ShrinkDto) :
    (deactivateSlots s availabilityId dto).appointments = s.appointments := by
  unfold deactivateSlots
  cases h1 : dto.new_start_time <;> cases h2 : dto.new_end_time <;> rfl

theorem deactivateSlots_shape (s : St) (availabilityId : Nat)
    (dto : ShrinkDto) :
    (deactivateSlots s availabilityId dto).slots.map slotShape =
      s.slots.map slotShape := by
  unfold deactivateSlots
  cases h1 : dto.new_start_time <;> cases h2 : dto.new_end_time
  · rfl
  all_goals
    simp only [List.map_map]
    apply List.map_congr_left
    intro t _
    simp only [Function.comp]
    split
    · rfl
    · rfl

theorem applyShrinking_appointments (s : St) (availability : Availability)
    (dto : ShrinkDto) :
    (applyShrinking s availability dto).appointments = s.appointments := by
  simp only [applyShrinking]
  rw [deactivateSlots_appointments, saveAvailability_appointments]

theorem applyShrinking_shape (s : St) (availability : Availability)
    (dto : ShrinkDto) :
    (applyShrinking s availability dto).slots.map slotShape =
      s.slots.map slotShape := by
  simp only [applyShrinking]
  rw [deactivateSlots_shape, saveAvailability_slots]

theorem activeCount_applyShrinking (s : St) (availability : Availability)
    (dto : ShrinkDto) (x : Nat) :
    activeCount (applyShrinking s availability dto) x = activeCount s x := by
  unfold activeCount
  rw [applyShrinking_appointments]

/-! ### Capacity invariant: transfer through the status recomputations -/

theorem capInv_updateSlotStatus (s : St) (slotId : Nat)
    (hnodup : (s.slots.map fun t => t.timeslot_id).Nodup)
    (hinv : CapInv s) : CapInv (updateSlotStatus s slotId) :=
  capInv_transfer s _ (updateSlotStatus_shape s slotId hnodup)
    (fun x => le_of_eq (activeCount_updateSlotStatus s slotId x)) hinv

theorem capInv_batch (s : St) (ids : List Nat)
    (hnodup : (s.slots.map fun t => t.timeslot_id).Nodup)
    (hinv : CapInv s) : CapInv (batchUpdateSlotStatuses s ids) :=
  capInv_transfer s _ (batchUpdateSlotStatuses_shape ids s hnodup)
    (fun x => le_of_eq (activeCount_batch s ids x)) hinv

theorem capInv_applyShrinking (s : St) (availability : Availability)
    (dto : ShrinkDto) (hinv : CapInv s) :
    CapInv (applyShrinking s availability dto) :=
  capInv_transfer s _ (applyShrinking_shape s availability dto)
    (fun x => le_of_eq (activeCount_applyShrinking s availability dto x))
    hinv

/-! ### Characterizing the booking admission -/

/-- The appointment row newAppointment creates on its success path. -/
def newBookedAppointment (s : St) (patientId : Nat) (dto : NewAppointmentDto)
    (now : Int) (t : TimeSlot) (availability : Availability) : Appointment :=
  { appointment_id := s.nextAppointmentId
    patient_id := patientId
    doctor_id := t.doctor_id
    timeslot_id := t.timeslot_id
    appointment_status := AppointmentStatus.SCHEDULED
    scheduled_on := combine availability.date
      (calcReportingMinutes t.start_time t.end_time t.max_patients
        (activeCount s t.timeslot_id))
    created_at := now
    reason := dto.reason
    notes := dto.notes }

/-- Every run of newAppointment either leaves the state untouched (all
error paths) or passes every admission check and commits the new row plus
the status recomputation. -/
theorem newAppointment_cases (s : St) (patientId : Nat)
    (dto : NewAppointmentDto) (now : Int) :
    (newAppointment s patientId dto now).2 = s ∨
    ∃ t availability,
      findActiveSlot s dto.timeslot_id = some t ∧
      t.status = TimeSlotStatus.AVAILABLE ∧
      findAvailability s t.availability_id = some availability ∧
      validateBookingWindow availability t now = none ∧
      t.doctor_id = dto.doctor_id ∧
      patientId ∈ s.patients ∧
      sameSessionExists s patientId t.doctor_id availability.date
        availability.session = false ∧
      activeCount s t.timeslot_id < t.max_patients ∧
      (newAppointment s patientId dto now).2 =
        updateSlotStatus { s with
          appointments := s.appointments ++
            [newBookedAppointment s patientId dto now t availability]
          nextAppointmentId := s.nextAppointmentId + 1 } dto.timeslot_id := by
  unfold newAppointment
  cases hfind : findActiveSlot s dto.timeslot_id with
  | none => exact Or.inl rfl
  | some t =>
    simp only []
    by_cases hst : t.status ≠ TimeSlotStatus.AVAILABLE
    · rw [if_pos hst]
      exact Or.inl rfl
    · rw [if_neg hst]
      rw [not_not] at hst
      cases hav : findAvailability s t.availability_id with
      | none => exact Or.inl rfl
      | some availability =>
        simp only []
        cases hwin : validateBookingWindow availability t now with
        | some e => exact Or.inl rfl
        | none =>
          simp only []
          by_cases hdoc : t.doctor_id ≠ dto.doctor_id
          · rw [if_pos hdoc]
            exact Or.inl rfl
          · rw [if_neg hdoc]
            rw [not_not] at hdoc
            by_cases hpat : patientId ∉ s.patients
            · rw [if_pos hpat]
              exact Or.inl rfl
            · rw [if_neg hpat]
              rw [not_not] at hpat
              by_cases hdup : sameSessionExists s patientId t.doctor_id
                  availability.date availability.session = true
              · rw [if_pos hdup]
                exact Or.inl rfl
              · rw [if_neg hdup]
                rw [Bool.not_eq_true] at hdup
                by_cases hfull : activeCount s t.timeslot_id ≥
                    t.max_patients
                · rw [if_pos hfull]
                  exact Or.inl rfl
                · rw [if_neg hfull]
                  exact Or.inr ⟨t, availability, rfl, hst, hav, hwin,
                    hdoc, hpat, hdup, by omega, rfl⟩

/-- The success path of newAppointment, fully determined by the admission
checks. -/
theorem newAppointment_ok (s : St) (patientId : Nat)
    (dto : NewAppointmentDto) (now : Int) (t : TimeSlot)
    (availability : Availability)
    (hfind : findActiveSlot s dto.timeslot_id = some t)
    (hstatus : t.status = TimeSlotStatus.AVAILABLE)
    (hav : findAvailability s t.availability_id = some availability)
    (hwin : validateBookingWindow availability t now = none)
    (hdoc : t.doctor_id = dto.doctor_id)
    (hpat : patientId ∈ s.patients)
    (hdup : sameSessionExists s patientId t.doctor_id availability.date
      availability.session = false)
    (hnotfull : activeCount s t.timeslot_id < t.max_patients) :
    newAppointment s patientId dto now =
      (Except.ok (newBookedAppointment s patientId dto now t availability),
        updateSlotStatus { s with
          appointments := s.appointments ++
            [newBookedAppointment s patientId dto now t availability]
          nextAppointmentId := s.nextAppointmentId + 1 } dto.timeslot_id) := by
  simp only [newAppointment, hfind]
  rw [if_neg (show ¬ t.status ≠ TimeSlotStatus.AVAILABLE from
    fun h => h hstatus)]
  simp only [hav, hwin]
  rw [if_neg (show ¬ t.doctor_id ≠ dto.doctor_id from fun h => h hdoc)]
  rw [if_neg (show ¬ patientId ∉ s.patients from fun h => h hpat)]
  rw [if_neg (show ¬ sameSessionExists s patientId t.doctor_id
      availability.date availability.session = true from
    fun h => by rw [hdup] at h; cases h)]
  rw [if_neg (show ¬ activeCount s t.timeslot_id ≥ t.max_patients from
    by omega)]
  rfl

/-- The error paths of newAppointment against a full slot: with every
earlier admission check passing, the capacity check fires. -/
theorem newAppointment_full (s : St) (patientId : Nat)
    (dto : NewAppointmentDto) (now : Int) (t : TimeSlot)
    (availability : Availability)
    (hfind : findActiveSlot s dto.timeslot_id = some t)
    (hstatus : t.status = TimeSlotStatus.AVAILABLE)
    (hav : findAvailability s t.availability_id = some availability)
    (hwin : validateBookingWindow availability t now = none)
    (hdoc : t.doctor_id = dto.doctor_id)
    (hpat : patientId ∈ s.patients)
    (hdup : sameSessionExists s patientId t.doctor_id availability.date
      availability.session = false)
    (hfull : activeCount s t.timeslot_id ≥ t.max_patients) :
    newAppointment s patientId dto now =
      (Except.error Err.conflictSlotFull, s) := by
  simp only [newAppointment, hfind]
  rw [if_neg (show ¬ t.status ≠ TimeSlotStatus.AVAILABLE from
    fun h => h hstatus)]
  simp only [hav, hwin]
  rw [if_neg (show ¬ t.doctor_id ≠ dto.doctor_id from fun h => h hdoc)]
  rw [if_neg (show ¬ patientId ∉ s.patients from fun h => h hpat)]
  rw [if_neg (show ¬ sameSessionExists s patientId t.doctor_id
      availability.date availability.session = true from
    fun h => by rw [hdup] at h; cases h)]
  rw [if_pos hfull]

/-! ### The capacity invariant across booking and cancellation -/

theorem capInv_newAppointment (s : St) (patientId : Nat)
    (dto : NewAppointmentDto) (now : Int) (hwf : WF s) (hinv : CapInv s) :
    CapInv (newAppointment s patientId dto now).2 := by
  rcases newAppointment_cases s patientId dto now with heq |
    ⟨t, availability, hfind, hstatus, hav, hwin, hdoc, hpat, hdup, hlt, heq⟩
  · rw [heq]
    exact hinv
  · rw [heq]
    set anew := newBookedAppointment s patientId dto now t availability
      with hanew
    set s1 : St := { s with
      appointments := s.appointments ++ [anew]
      nextAppointmentId := s.nextAppointmentId + 1 } with hs1
    have hs1nodup : (s1.slots.map fun u => u.timeslot_id).Nodup :=
      hwf.slots_nodup
    have hshape : (updateSlotStatus s1 dto.timeslot_id).slots.map slotShape
        = s.slots.map slotShape := updateSlotStatus_shape s1 _ hs1nodup
    intro u hu
    have humem : slotShape u ∈ s.slots.map slotShape := by
      rw [← hshape]
      exact List.mem_map_of_mem _ hu
    rcases List.mem_map.mp humem with ⟨t0, ht0, hsh⟩
    have hid0 : t0.timeslot_id = u.timeslot_id := congrArg Prod.fst hsh
    have hmax0 : t0.max_patients = u.max_patients := congrArg Prod.snd hsh
    have hcnt : activeCount (updateSlotStatus s1 dto.timeslot_id)
        u.timeslot_id = activeCount s u.timeslot_id +
          (if schedAt u.timeslot_id anew then 1 else 0) := by
      rw [activeCount_updateSlotStatus]
      exact activeCount_append s anew _ u.timeslot_id
    by_cases hx : t.timeslot_id = u.timeslot_id
    · have htmem : t ∈ s.slots := (findActiveSlot_mem s _ t hfind).1
      have ht0t : t0 = t :=
        List.inj_on_of_nodup_map hwf.slots_nodup ht0 htmem
          (by rw [hid0, hx])
      have hlt2 : activeCount s u.timeslot_id < t.max_patients := by
        rw [← hx]
        exact hlt
      have hmaxeq : t.max_patients = u.max_patients := by
        rw [← ht0t]
        exact hmax0
      rw [hcnt]
      have hdelta : (if schedAt u.timeslot_id anew then 1 else 0) ≤ 1 := by
        split <;> omega
      omega
    · have hzero : schedAt u.timeslot_id anew = false := by
        simp [schedAt, hanew, newBookedAppointment, hx]
      rw [hcnt, hzero]
      have hcnt0 : activeCount s u.timeslot_id ≤ t0.max_patients := by
        rw [← hid0]
        exact hinv t0 ht0
      simp only [Bool.false_eq_true, if_false]
      omega

theorem capInv_cancelAppointment (s : St) (appointmentId userId : Nat)
    (role : UserRole) (now : Int) (hwf : WF s) (hinv : CapInv s) :
    CapInv (cancelAppointment s appointmentId userId role now).2 := by
  unfold cancelAppointment
  cases hfa : findAppointment s appointmentId with
  | none => exact hinv
  | some appointment =>
    simp only []
    by_cases h1 : role = UserRole.PATIENT ∧ appointment.patient_id ≠ userId
    · rw [if_pos h1]
      exact hinv
    · rw [if_neg h1]
      by_cases h2 : role = UserRole.DOCTOR ∧ appointment.doctor_id ≠ userId
      · rw [if_pos h2]
        exact hinv
      · rw [if_neg h2]
        by_cases h3 : appointment.appointment_status =
            AppointmentStatus.CANCELLED ∨
            appointment.appointment_status = AppointmentStatus.COMPLETED
        · rw [if_pos h3]
          exact hinv
        · rw [if_neg h3]
          cases hfs : findSlot s appointment.timeslot_id with
          | none => exact hinv
          | some slot =>
            simp only []
            cases hav : findAvailability s slot.availability_id with
            | none => exact hinv
            | some availability =>
              simp only []
              by_cases h4 : now ≥ combine availability.date slot.start_time
              · rw [if_pos h4]
                exact hinv
              · rw [if_neg h4]
                set a1 := { appointment with
                  appointment_status := AppointmentStatus.CANCELLED }
                  with ha1
                apply capInv_transfer s
                · exact updateSlotStatus_shape (saveAppointment s a1) _
                    hwf.slots_nodup
                · intro x
                  rw [activeCount_updateSlotStatus]
                  exact activeCount_saveAppointment_le s a1 x
                    (by simp [ha1, schedAt])
                · exact hinv

/-! ### Characterizing moveSlots -/

/-- The insufficient-capacity path of moveSlots: the error carries the
computed capacity and the required count, and the only write so far is the
status recomputation hidden inside the capacity read. -/
theorem moveSlotsT_insufficient (s : St) (doctorId : Nat) (dto : MoveDto)
    (tslot : TimeSlot)
    (hv1 : (validateSlotOwnership s dto.source_slot_id doctorId).isSome)
    (hv2 : (validateSlotOwnership s dto.target_slot_id doctorId).isSome)
    (hne : (getAppointmentsFromSlot s dto.source_slot_id
      dto.appointment_id).isEmpty = false)
    (hfs : findSlot s dto.target_slot_id = some tslot)
    (hcap : (max 0 ((tslot.max_patients : Int) -
        (activeCount s dto.target_slot_id : Int))).toNat <
      (getAppointmentsFromSlot s dto.source_slot_id
        dto.appointment_id).length) :
    moveSlotsT s doctorId dto =
      (Except.error (Err.conflictInsufficientMoveCapacity
        ((max 0 ((tslot.max_patients : Int) -
          (activeCount s dto.target_slot_id : Int))).toNat)
        (getAppointmentsFromSlot s dto.source_slot_id
          dto.appointment_id).length),
       updateSlotStatus s dto.target_slot_id, [dto.target_slot_id], []) := by
  cases hv1s : validateSlotOwnership s dto.source_slot_id doctorId with
  | none =>
    rw [hv1s] at hv1
    cases hv1
  | some t1 =>
    cases hv2s : validateSlotOwnership s dto.target_slot_id doctorId with
    | none =>
      rw [hv2s] at hv2
      cases hv2
    | some t2 =>
      simp only [moveSlotsT, hv1s, hv2s, getSlotAvailableCapacity, hfs]
      rw [if_neg (show ¬ (getAppointmentsFromSlot s dto.source_slot_id
          dto.appointment_id).isEmpty = true from
        fun h => by rw [hne] at h; cases h)]
      rw [if_pos hcap]

/-- The success path of moveSlots: every selected appointment is
reassigned, the batch list is the deduplicated set of touched slots, and
all other tables are untouched. -/
theorem moveSlotsT_ok (s : St) (doctorId : Nat) (dto : MoveDto)
    (tslot : TimeSlot)
    (happn : (s.appointments.map fun a => a.appointment_id).Nodup)
    (hsln : (s.slots.map fun t => t.timeslot_id).Nodup)
    (hv1 : (validateSlotOwnership s dto.source_slot_id doctorId).isSome)
    (hv2 : (validateSlotOwnership s dto.target_slot_id doctorId).isSome)
    (hne : (getAppointmentsFromSlot s dto.source_slot_id
      dto.appointment_id).isEmpty = false)
    (hfs : findSlot s dto.target_slot_id = some tslot)
    (hcap : ¬ (max 0 ((tslot.max_patients : Int) -
        (activeCount s dto.target_slot_id : Int))).toNat <
      (getAppointmentsFromSlot s dto.source_slot_id
        dto.appointment_id).length) :
    ∃ s2 tr,
      moveSlotsT s doctorId dto =
        (Except.ok
          { moved_appointments := (getAppointmentsFromSlot s
              dto.source_slot_id dto.appointment_id).length
            appointment_ids := (getAppointmentsFromSlot s dto.source_slot_id
              dto.appointment_id).map fun a => a.appointment_id },
          batchUpdateSlotStatuses s2 (accMovedIds (getAppointmentsFromSlot s
            dto.source_slot_id dto.appointment_id) dto.target_slot_id []),
          [dto.target_slot_id] ++ tr ++ accMovedIds
            (getAppointmentsFromSlot s dto.source_slot_id
              dto.appointment_id) dto.target_slot_id [],
          accMovedIds (getAppointmentsFromSlot s dto.source_slot_id
            dto.appointment_id) dto.target_slot_id []) ∧
      s2.appointments = s.appointments.map (fun b =>
        if b.appointment_id ∈ (getAppointmentsFromSlot s dto.source_slot_id
            dto.appointment_id).map (fun a => a.appointment_id) then
          moveApp dto.target_slot_id dto.reason b
        else b) ∧
      s2.slots.map slotShape = s.slots.map slotShape ∧
      s2.slots.map (fun t => t.timeslot_id) =
        s.slots.map (fun t => t.timeslot_id) ∧
      s2.availabilities = s.availabilities ∧ s2.patients = s.patients := by
  cases hv1s : validateSlotOwnership s dto.source_slot_id doctorId with
  | none =>
    rw [hv1s] at hv1
    cases hv1
  | some t1 =>
    cases hv2s : validateSlotOwnership s dto.target_slot_id doctorId with
    | none =>
      rw [hv2s] at hv2
      cases hv2
    | some t2 =>
      set apps := getAppointmentsFromSlot s dto.source_slot_id
        dto.appointment_id with happs
      set s1 := updateSlotStatus s dto.target_slot_id with hs1
      have h1appn : (s1.appointments.map fun a => a.appointment_id).Nodup
        := by
        rw [hs1, updateSlotStatus_appointments]
        exact happn
      have h1sln : (s1.slots.map fun t => t.timeslot_id).Nodup := by
        rw [hs1, updateSlotStatus_slotIds]
        exact hsln
      have h1sub : ∀ a ∈ apps, findAppointment s1 a.appointment_id = some a
        := by
        intro a ha
        rw [hs1, findAppointment_updateSlotStatus]
        exact findAppointment_of_mem s a (getApps_mem s _ _ a ha).1 happn
      have h1target : (findSlot s1 dto.target_slot_id).isSome := by
        rw [findSlot_isSome_iff, hs1, updateSlotStatus_slotIds,
          ← findSlot_isSome_iff, hfs]
        rfl
      have hidsnodup : (apps.map fun a => a.appointment_id).Nodup :=
        getApps_ids_nodup s _ _ happn
      rcases execMoves_ok apps s1 dto.target_slot_id dto.reason []
        h1appn h1sln h1sub h1target hidsnodup with
        ⟨s2, tr2, hrun, happ2, hshape2, hids2, hav2, hpat2⟩
      refine ⟨s2, tr2, ?_, ?_, ?_, ?_, ?_, ?_⟩
      · simp only [moveSlotsT, hv1s, hv2s, getSlotAvailableCapacity, hfs]
        rw [← happs, ← hs1]
        rw [if_neg (show ¬ apps.isEmpty = true from
          fun h => by rw [hne] at h; cases h)]
        rw [if_neg hcap]
        rw [hrun]
      · rw [happ2, hs1, updateSlotStatus_appointments]
      · rw [hshape2, hs1]
        exact updateSlotStatus_shape s _ hsln
      · rw [hids2, hs1, updateSlotStatus_slotIds]
      · rw [hav2, hs1, updateSlotStatus_availabilities]
      · rw [hpat2, hs1, updateSlotStatus_patients]

theorem capInv_moveSlots (s : St) (doctorId : Nat) (dto : MoveDto)
    (hwf : WF s) (hinv : CapInv s) : CapInv (moveSlots s doctorId dto).2 := by
  cases hv1s : validateSlotOwnership s dto.source_slot_id doctorId with
  | none =>
    simp only [moveSlots, moveSlotsT, hv1s]
    exact hinv
  | some t1 =>
    cases hv2s : validateSlotOwnership s dto.target_slot_id doctorId with
    | none =>
      simp only [moveSlots, moveSlotsT, hv1s, hv2s]
      exact hinv
    | some t2 =>
      cases hemp : (getAppointmentsFromSlot s dto.source_slot_id
          dto.appointment_id).isEmpty with
      | true =>
        simp [moveSlots, moveSlotsT, hv1s, hv2s, hemp]
        exact hinv
      | false =>
        cases hfs : findSlot s dto.target_slot_id with
        | none =>
          simp [moveSlots, moveSlotsT, hv1s, hv2s, hemp,
            getSlotAvailableCapacity, hfs]
          exact hinv
        | some tslot =>
          by_cases hcap : (max 0 ((tslot.max_patients : Int) -
              (activeCount s dto.target_slot_id : Int))).toNat <
            (getAppointmentsFromSlot s dto.source_slot_id
              dto.appointment_id).length
          · have heq := moveSlotsT_insufficient s doctorId dto tslot
              (by rw [hv1s]; rfl) (by rw [hv2s]; rfl) hemp hfs hcap
            simp only [moveSlots, heq]
            exact capInv_updateSlotStatus s _ hwf.slots_nodup hinv
          · rcases moveSlotsT_ok s doctorId dto tslot
              hwf.appointments_nodup hwf.slots_nodup
              (by rw [hv1s]; rfl) (by rw [hv2s]; rfl) hemp hfs hcap with
              ⟨s2, tr, heq, happ2, hshape2, hids2, hav2, hpat2⟩
            simp only [moveSlots, heq]
            have hinv2 : CapInv s2 := by
              intro u hu
              have humem : slotShape u ∈ s.slots.map slotShape := by
                rw [← hshape2]
                exact List.mem_map_of_mem _ hu
              rcases List.mem_map.mp humem with ⟨t0, ht0, hsh⟩
              have hid0 : t0.timeslot_id = u.timeslot_id :=
                congrArg Prod.fst hsh
              have hmax0 : t0.max_patients = u.max_patients :=
                congrArg Prod.snd hsh
              have hbound : activeCount s2 u.timeslot_id ≤
                  activeCount s u.timeslot_id +
                    (if dto.target_slot_id = u.timeslot_id then
                      ((getAppointmentsFromSlot s dto.source_slot_id
                        dto.appointment_id).map
                          fun a => a.appointment_id).length
                     else 0) := by
                rw [activeCount_eq_countP, happ2, activeCount_eq_countP]
                exact countP_move_map_le s.appointments _ dto.target_slot_id
                  dto.reason u.timeslot_id hwf.appointments_nodup
                  (getApps_ids_nodup s _ _ hwf.appointments_nodup)
              by_cases hx : dto.target_slot_id = u.timeslot_id
              · have htsl : tslot ∈ s.slots := List.mem_of_find?_eq_some hfs
                have htid : tslot.timeslot_id = dto.target_slot_id := by
                  have := List.find?_some hfs
                  simpa using this
                have ht0t : t0 = tslot :=
                  List.inj_on_of_nodup_map hwf.slots_nodup ht0 htsl
                    (by rw [hid0, htid, hx])
                have hcnt_le : activeCount s dto.target_slot_id ≤
                    tslot.max_patients := by
                  have h := hinv tslot htsl
                  rw [htid] at h
                  exact h
                have hge : 0 ≤ (tslot.max_patients : Int) -
                    (activeCount s dto.target_slot_id : Int) := by omega
                rw [max_eq_right hge] at hcap
                rw [if_pos hx] at hbound
                rw [List.length_map] at hbound
                have hmaxu : tslot.max_patients = u.max_patients := by
                  rw [← ht0t]
                  exact hmax0
                rw [← hx] at hbound ⊢
                omega
              · rw [if_neg hx] at hbound
                have hcnt0 : activeCount s u.timeslot_id ≤ t0.max_patients
                  := by
                  rw [← hid0]
                  exact hinv t0 ht0
                omega
            exact capInv_batch s2 _ (by rw [hids2]; exact hwf.slots_nodup)
              hinv2

/-! ### Characterizing the affected appointments of a shrink -/

/-- The filter predicate of the two affected-appointment queries,
propositionally. -/
theorem affectedPred_iff (s : St) (avId : Nat) (a : Appointment)
    (c : TimeSlot → Bool) :
    (decide (a.appointment_status = AppointmentStatus.SCHEDULED) &&
      (match findSlot s a.timeslot_id with
       | some t => decide (t.availability_id = avId) && c t
       | none => false)) = true ↔
      (a.appointment_status = AppointmentStatus.SCHEDULED ∧
        ∃ t, findSlot s a.timeslot_id = some t ∧
          t.availability_id = avId ∧ c t = true) := by
  cases hf : findSlot s a.timeslot_id with
  | none =>
    constructor
    · intro h
      simp at h
    · rintro ⟨h1, t, ht, h2⟩
      exact Option.noConfusion ht
  | some t =>
    constructor
    · intro h
      simp only [Bool.and_eq_true, decide_eq_true_eq] at h
      exact ⟨h.1, t, rfl, h.2.1, h.2.2⟩
    · rintro ⟨h1, t2, ht2, h2, h3⟩
      injection ht2 with heq
      subst heq
      simp only [Bool.and_eq_true, decide_eq_true_eq]
      exact ⟨h1, h2, h3⟩

/-- Membership in one sorted affected-appointment batch. -/
theorem mem_sorted_affected (s : St) (avId : Nat) (c : TimeSlot → Bool)
    (a : Appointment) :
    a ∈ sortByKey (fun a => a.scheduled_on) (sortByKey (slotStartKey s)
      (s.appointments.filter fun a =>
        decide (a.appointment_status = AppointmentStatus.SCHEDULED) &&
        (match findSlot s a.timeslot_id with
         | some t => decide (t.availability_id = avId) && c t
         | none => false))) ↔
      (a ∈ s.appointments ∧
        a.appointment_status = AppointmentStatus.SCHEDULED ∧
        ∃ t, findSlot s a.timeslot_id = some t ∧
          t.availability_id = avId ∧ c t = true) := by
  rw [mem_sortByKey, mem_sortByKey, List.mem_filter]
  constructor
  · rintro ⟨h1, h2⟩
    exact ⟨h1, (affectedPred_iff s avId a c).mp h2⟩
  · rintro ⟨h1, h2⟩
    exact ⟨h1, (affectedPred_iff s avId a c).mpr h2⟩

theorem affected_ids_nodup (s : St) (availability : Availability)
    (dto : ShrinkDto) :
    ((getAffectedAppointments s availability dto).map
      fun a => a.appointment_id).Nodup := by
  simp only [getAffectedAppointments]
  exact (List.Perm.nodup_iff ((sortByKey_perm _ _).map _)).mpr
    (dedupById_ids_nodup _)

theorem affected_pairwise (s : St) (availability : Availability)
    (dto : ShrinkDto) :
    (getAffectedAppointments s availability dto).Pairwise
      fun x y => x.scheduled_on ≤ y.scheduled_on := by
  simp only [getAffectedAppointments]
  exact sortByKey_pairwise _ _

theorem affected_subset (s : St) (availability : Availability)
    (dto : ShrinkDto) (a : Appointment)
    (h : a ∈ getAffectedAppointments s availability dto) :
    a ∈ s.appointments ∧
      a.appointment_status = AppointmentStatus.SCHEDULED := by
  simp only [getAffectedAppointments] at h
  rw [mem_sortByKey] at h
  have h2 := dedupById_subset _ _ h
  rcases List.mem_append.mp h2 with hE | hS
  · cases he : dto.new_end_time with
    | none =>
      rw [he] at hE
      cases hE
    | some newEnd =>
      rw [he] at hE
      have := (mem_sorted_affected s availability.availability_id _ a).mp hE
      exact ⟨this.1, this.2.1⟩
  · cases hs2 : dto.new_start_time with
    | none =>
      rw [hs2] at hS
      cases hS
    | some newStart =>
      rw [hs2] at hS
      have := (mem_sorted_affected s availability.availability_id _ a).mp hS
      exact ⟨this.1, this.2.1⟩

/-- Exactly which appointments a shrink affects. -/
theorem mem_affected (s : St) (availability : Availability)
    (dto : ShrinkDto)
    (hwf : (s.appointments.map fun a => a.appointment_id).Nodup)
    (a : Appointment) :
    a ∈ getAffectedAppointments s availability dto ↔
      (a ∈ s.appointments ∧
        a.appointment_status = AppointmentStatus.SCHEDULED ∧
        ∃ t, findSlot s a.timeslot_id = some t ∧
          t.availability_id = availability.availability_id ∧
          ((∃ e, dto.new_end_time = some e ∧ t.start_time > e) ∨
           (∃ n, dto.new_start_time = some n ∧ t.end_time < n))) := by
  cases he : dto.new_end_time with
  | none =>
    cases hs2 : dto.new_start_time with
    | none =>
      simp only [getAffectedAppointments, he, hs2]
      rw [mem_sortByKey]
      constructor
      · intro h
        have := dedupById_subset _ _ h
        simp at this
      · rintro ⟨_, _, t, _, _, (⟨e, he2, _⟩ | ⟨n, hn2, _⟩)⟩
        · exact Option.noConfusion he2
        · exact Option.noConfusion hn2
    | some newStart =>
      simp only [getAffectedAppointments, he, hs2]
      rw [mem_sortByKey]
      rw [mem_dedupById _ (fun x hx y hy hxy =>
        List.inj_on_of_nodup_map hwf
          ((mem_sorted_affected s availability.availability_id _ x).mp
            (by simpa using hx)).1
          ((mem_sorted_affected s availability.availability_id _ y).mp
            (by simpa using hy)).1 hxy)]
      rw [List.nil_append]
      rw [mem_sorted_affected]
      constructor
      · rintro ⟨h1, h2, t, hf, hav, hc⟩
        simp only [decide_eq_true_eq] at hc
        exact ⟨h1, h2, t, hf, hav, Or.inr ⟨newStart, rfl, hc⟩⟩
      · rintro ⟨h1, h2, t, hf, hav, (⟨e, he2, _⟩ | ⟨n, hn2, hc⟩)⟩
        · exact Option.noConfusion he2
        · injection hn2 with hn3
          subst hn3
          exact ⟨h1, h2, t, hf, hav, by simpa using hc⟩
  | some newEnd =>
    cases hs2 : dto.new_start_time with
    | none =>
      simp only [getAffectedAppointments, he, hs2]
      rw [mem_sortByKey]
      rw [mem_dedupById _ (fun x hx y hy hxy =>
        List.inj_on_of_nodup_map hwf
          ((mem_sorted_affected s availability.availability_id _ x).mp
            (by simpa using hx)).1
          ((mem_sorted_affected s availability.availability_id _ y).mp
            (by simpa using hy)).1 hxy)]
      rw [List.append_nil]
      rw [mem_sorted_affected]
      constructor
      · rintro ⟨h1, h2, t, hf, hav, hc⟩
        simp only [decide_eq_true_eq] at hc
        exact ⟨h1, h2, t, hf, hav, Or.inl ⟨newEnd, rfl, hc⟩⟩
      · rintro ⟨h1, h2, t, hf, hav, (⟨e, he2, hc⟩ | ⟨n, hn2, _⟩)⟩
        · injection he2 with he3
          subst he3
          exact ⟨h1, h2, t, hf, hav, by simpa using hc⟩
        · exact Option.noConfusion hn2
    | some newStart =>
      simp only [getAffectedAppointments, he, hs2]
      rw [mem_sortByKey]
      have hmem : ∀ x, x ∈ sortByKey (fun a => a.scheduled_on)
          (sortByKey (slotStartKey s) (s.appointments.filter fun a =>
            decide (a.appointment_status = AppointmentStatus.SCHEDULED) &&
            (match findSlot s a.timeslot_id with
             | some t =>
               decide (t.availability_id = availability.availability_id) &&
                 decide (t.start_time > newEnd)
             | none => false))) ++ sortByKey (fun a => a.scheduled_on)
          (sortByKey (slotStartKey s) (s.appointments.filter fun a =>
            decide (a.appointment_status = AppointmentStatus.SCHEDULED) &&
            (match findSlot s a.timeslot_id with
             | some t =>
               decide (t.availability_id = availability.availability_id) &&
                 decide (t.end_time < newStart)
             | none => false))) → x ∈ s.appointments := by
        intro x hx
        rcases List.mem_append.mp hx with hxe | hxs
        · exact ((mem_sorted_affected s availability.availability_id _
            x).mp hxe).1
        · exact ((mem_sorted_affected s availability.availability_id _
            x).mp hxs).1
      rw [mem_dedupById _ (fun x hx y hy hxy =>
        List.inj_on_of_nodup_map hwf (hmem x hx) (hmem y hy) hxy)]
      rw [List.mem_append, mem_sorted_affected, mem_sorted_affected]
      constructor
      · rintro (⟨h1, h2, t, hf, hav, hc⟩ | ⟨h1, h2, t, hf, hav, hc⟩)
        · simp only [decide_eq_true_eq] at hc
          exact ⟨h1, h2, t, hf, hav, Or.inl ⟨newEnd, rfl, hc⟩⟩
        · simp only [decide_eq_true_eq] at hc
          exact ⟨h1, h2, t, hf, hav, Or.inr ⟨newStart, rfl, hc⟩⟩
      · rintro ⟨h1, h2, t, hf, hav, (⟨e, he2, hc⟩ | ⟨n, hn2, hc⟩)⟩
        · injection he2 with he3
          subst he3
          exact Or.inl ⟨h1, h2, t, hf, hav, by simpa using hc⟩
        · injection hn2 with hn3
          subst hn3
          exact Or.inr ⟨h1, h2, t, hf, hav, by simpa using hc⟩

/-! ### The capacity invariant across shrinkSchedule -/

theorem capInv_shrinkSchedule (s : St) (doctorId : Nat) (dto : ShrinkDto)
    (hwf : WF s) (hinv : CapInv s) :
    CapInv (shrinkSchedule s doctorId dto).2 := by
  cases hva : validateAvailability s dto.availability_id doctorId with
  | none =>
    simp only [shrinkSchedule, hva]
    exact hinv
  | some availability =>
    cases hps : validateShrinkingParameters dto availability with
    | some e =>
      simp only [shrinkSchedule, hva, hps]
      exact hinv
    | none =>
      cases hemp : (getAffectedAppointments s availability dto).isEmpty with
      | true =>
        simp only [shrinkSchedule, hva, hps]
        rw [if_pos hemp]
        exact capInv_applyShrinking s availability dto hinv
      | false =>
        by_cases hsucc : (generateRescheduleStrategy s doctorId availability
            dto (getAffectedAppointments s availability dto)).success = false
        · simp only [shrinkSchedule, hva, hps]
          rw [if_neg (show ¬ (getAffectedAppointments s availability
              dto).isEmpty = true from fun h => by rw [hemp] at h; cases h)]
          rw [if_pos hsucc]
          exact hinv
        · have hsucc2 : (generateRescheduleStrategy s doctorId availability
              dto (getAffectedAppointments s availability dto)).success =
              true := by
            cases hb : (generateRescheduleStrategy s doctorId availability
                dto (getAffectedAppointments s availability dto)).success
            · exact absurd hb hsucc
            · rfl
          have hact_nodup : ((generateRescheduleStrategy s doctorId
              availability dto (getAffectedAppointments s availability
                dto)).reschedule_actions.map
                  fun act => act.appointment_id).Nodup := by
            rw [strategy_ids_of_success s doctorId availability dto _
              hsucc2]
            exact affected_ids_nodup s availability dto
          have hfindacts : ∀ act ∈ (generateRescheduleStrategy s doctorId
              availability dto (getAffectedAppointments s availability
                dto)).reschedule_actions,
              (findAppointment s act.appointment_id).isSome := by
            intro act hact
            have hid : act.appointment_id ∈ (generateRescheduleStrategy s
                doctorId availability dto (getAffectedAppointments s
                  availability dto)).reschedule_actions.map
                    fun act => act.appointment_id :=
              List.mem_map_of_mem _ hact
            rw [strategy_ids_of_success s doctorId availability dto _
              hsucc2] at hid
            rcases List.mem_map.mp hid with ⟨a, ha, haid⟩
            have hfa := findAppointment_of_mem s a
              (affected_subset s availability dto a ha).1
              hwf.appointments_nodup
            rw [haid] at hfa
            rw [hfa]
            rfl
          rcases execReschedules_ok _ s hwf.appointments_nodup hact_nodup
            hfindacts (strategy_targets_exist s doctorId availability dto
              (getAffectedAppointments s availability dto)) with
            ⟨s1, hrun, happ1, hslots1, hav1, hpat1⟩
          have heq : (shrinkSchedule s doctorId dto).2 =
              applyShrinking s1 availability dto := by
            simp only [shrinkSchedule, hva, hps]
            rw [if_neg (show ¬ (getAffectedAppointments s availability
                dto).isEmpty = true from
              fun h => by rw [hemp] at h; cases h)]
            rw [if_neg hsucc]
            rw [hrun]
          rw [heq]
          apply capInv_applyShrinking
          intro u hu
          rw [hslots1] at hu
          have hb1 : activeCount s1 u.timeslot_id ≤
              activeCount s u.timeslot_id +
                (generateRescheduleStrategy s doctorId availability dto
                  (getAffectedAppointments s availability
                    dto)).reschedule_actions.countP
                      fun act => decide (act.new_timeslot_id =
                        u.timeslot_id) := by
            rw [activeCount_eq_countP, happ1, activeCount_eq_countP]
            exact countP_actions_map_le s.appointments _ u.timeslot_id
              hwf.appointments_nodup hact_nodup
          have hb2 := strategy_countP_le s doctorId availability dto
            (getAffectedAppointments s availability dto)
            hwf.slots_nodup hwf.availabilities_nodup u.timeslot_id
          have hsb : spotsBound s u.timeslot_id =
              u.max_patients - activeCount s u.timeslot_id := by
            unfold spotsBound
            rw [findSlot_of_mem s u hu hwf.slots_nodup]
          have hc := hinv u hu
          omega

/-! ### Session uniqueness (claim C8) -/

/-- The session identity of an active appointment: (patient, doctor,
availability date, session), none for inactive or dangling rows.  This is
the key the duplicate-session query of newAppointment guards. -/
def sessionKey (s : St) (a : Appointment) :
    Option (Nat × Nat × Nat × SessionTag) :=
  if a.appointment_status = AppointmentStatus.SCHEDULED then
    match findSlot s a.timeslot_id with
    | some t =>
      match findAvailability s t.availability_id with
      | some av => some (a.patient_id, t.doctor_id, av.date, av.session)
      | none => none
    | none => none
  else none

/-- At most one SCHEDULED appointment per (patient, doctor, date, session). -/
def SessionUnique (s : St) : Prop :=
  ∀ a1 ∈ s.appointments, ∀ a2 ∈ s.appointments,
    a1.appointment_id ≠ a2.appointment_id →
    sessionKey s a1 = sessionKey s a2 → sessionKey s a1 = none

instance (s : St) : Decidable (SessionUnique s) := by
  unfold SessionUnique
  infer_instance

/-- A status recomputation changes no field sessionKey reads. -/
theorem findSlot_updateSlotStatus_fields (s : St) (slotId y : Nat) :
    (findSlot (updateSlotStatus s slotId) y).map
        (fun t => (t.availability_id, t.doctor_id)) =
      (findSlot s y).map fun t => (t.availability_id, t.doctor_id) := by
  unfold updateSlotStatus
  cases hf : findSlot s slotId with
  | none => rfl
  | some slot =>
    simp only []
    split
    · rw [findSlot_saveSlot]
      by_cases hy : y = slot.timeslot_id
      · have hid : slot.timeslot_id = slotId := by
          have := List.find?_some hf
          simpa using this
        rw [if_pos hy, hy, hid, hf]
        rfl
      · rw [if_neg hy]
    · rfl

theorem findAvailability_updateSlotStatus (s : St) (slotId y : Nat) :
    findAvailability (updateSlotStatus s slotId) y = findAvailability s y
    := by
  unfold findAvailability
  rw [updateSlotStatus_availabilities]

theorem sessionKey_updateSlotStatus (s : St) (slotId : Nat)
    (a : Appointment) :
    sessionKey (updateSlotStatus s slotId) a = sessionKey s a := by
  unfold sessionKey
  by_cases hst : a.appointment_status = AppointmentStatus.SCHEDULED
  · rw [if_pos hst, if_pos hst]
    have hfields := findSlot_updateSlotStatus_fields s slotId a.timeslot_id
    cases hf1 : findSlot s a.timeslot_id with
    | none =>
      cases hf2 : findSlot (updateSlotStatus s slotId) a.timeslot_id with
      | none => rfl
      | some t2 =>
        rw [hf1, hf2] at hfields
        simp at hfields
    | some t1 =>
      cases hf2 : findSlot (updateSlotStatus s slotId) a.timeslot_id with
      | none =>
        rw [hf1, hf2] at hfields
        simp at hfields
      | some t2 =>
        rw [hf1, hf2] at hfields
        simp only [Option.map, Option.some_inj, Prod.mk.injEq] at hfields
        show (match findAvailability (updateSlotStatus s slotId)
            t2.availability_id with
          | some av => some (a.patient_id, t2.doctor_id, av.date, av.session)
          | none => none) =
          match findAvailability s t1.availability_id with
          | some av => some (a.patient_id, t1.doctor_id, av.date, av.session)
          | none => none
        rw [findAvailability_updateSlotStatus, hfields.1, hfields.2]
  · rw [if_neg hst, if_neg hst]

/-- Booking preserves session uniqueness: the duplicate-session check
rejects a second active appointment with the same key. -/
theorem sessionUnique_newAppointment (s : St) (patientId : Nat)
    (dto : NewAppointmentDto) (now : Int) (hwf : WF s)
    (hsu : SessionUnique s) :
    SessionUnique (newAppointment s patientId dto now).2 := by
  rcases newAppointment_cases s patientId dto now with heq |
    ⟨t, availability, hfind, hstatus, hav, hwin, hdoc, hpat, hdup, hlt, heq⟩
  · rw [heq]
    exact hsu
  · rw [heq]
    set anew := newBookedAppointment s patientId dto now t availability
      with hanew
    set s1 : St := { s with
      appointments := s.appointments ++ [anew]
      nextAppointmentId := s.nextAppointmentId + 1 } with hs1
    have hkey : ∀ b, sessionKey (updateSlotStatus s1 dto.timeslot_id) b =
        sessionKey s b := by
      intro b
      rw [sessionKey_updateSlotStatus]
      rfl
    have happs : (updateSlotStatus s1 dto.timeslot_id).appointments =
        s.appointments ++ [anew] := by
      rw [updateSlotStatus_appointments]
    have htmem : t ∈ s.slots := (findActiveSlot_mem s _ t hfind).1
    have hkanew : sessionKey s anew = some (patientId, t.doctor_id,
        availability.date, availability.session) := by
      unfold sessionKey
      rw [if_pos (show anew.appointment_status =
        AppointmentStatus.SCHEDULED from rfl)]
      have hfs : findSlot s anew.timeslot_id = some t :=
        findSlot_of_mem s t htmem hwf.slots_nodup
      simp only [hfs, hav]
      rfl
    have hold : ∀ b ∈ s.appointments, sessionKey s b =
        some (patientId, t.doctor_id, availability.date,
          availability.session) → False := by
      intro b hb hkb
      unfold sessionKey at hkb
      by_cases hbs : b.appointment_status = AppointmentStatus.SCHEDULED
      · rw [if_pos hbs] at hkb
        cases hfb : findSlot s b.timeslot_id with
        | none =>
          rw [hfb] at hkb
          cases hkb
        | some tb =>
          simp only [hfb] at hkb
          cases hfab : findAvailability s tb.availability_id with
          | none =>
            rw [hfab] at hkb
            cases hkb
          | some avb =>
            simp only [hfab, Option.some_inj, Prod.mk.injEq] at hkb
            have hwitness : sameSessionExists s patientId t.doctor_id
                availability.date availability.session = true := by
              unfold sameSessionExists
              rw [List.any_eq_true]
              refine ⟨b, hb, ?_⟩
              simp only [hfb, hfab, Bool.and_eq_true, decide_eq_true_eq]
              exact ⟨⟨hkb.1, hbs⟩, hkb.2.1, hkb.2.2.1, hkb.2.2.2⟩
            rw [hdup] at hwitness
            cases hwitness
      · rw [if_neg hbs] at hkb
        cases hkb
    intro a1 h1 a2 h2 hne hkeq
    simp only [hkey] at hkeq ⊢
    rw [happs] at h1 h2
    rcases List.mem_append.mp h1 with h1s | h1n
    · rcases List.mem_append.mp h2 with h2s | h2n
      · exact hsu a1 h1s a2 h2s hne hkeq
      · have ha2 : a2 = anew := List.mem_singleton.mp h2n
        subst ha2
        rw [hkanew] at hkeq
        exact (hold a1 h1s hkeq).elim
    · have ha1 : a1 = anew := List.mem_singleton.mp h1n
      subst ha1
      rcases List.mem_append.mp h2 with h2s | h2n
      · rw [hkanew] at hkeq
        exact (hold a2 h2s hkeq.symm).elim
      · have ha2 : a2 = anew := List.mem_singleton.mp h2n
        subst ha2
        exact absurd rfl hne

/-- The duplicate-session check fires: with every earlier admission check
passing, a patient already holding an active same-session appointment is
rejected with the duplicate-session conflict and no write. -/
theorem newAppointment_duplicate (s : St) (patientId : Nat)
    (dto : NewAppointmentDto) (now : Int) (t : TimeSlot)
    (availability : Availability)
    (hfind : findActiveSlot s dto.timeslot_id = some t)
    (hstatus : t.status = TimeSlotStatus.AVAILABLE)
    (hav : findAvailability s t.availability_id = some availability)
    (hwin : validateBookingWindow availability t now = none)
    (hdoc : t.doctor_id = dto.doctor_id)
    (hpat : patientId ∈ s.patients)
    (hdup : sameSessionExists s patientId t.doctor_id availability.date
      availability.session = true) :
    newAppointment s patientId dto now =
      (Except.error Err.conflictDuplicateSession, s) := by
  simp only [newAppointment, hfind]
  rw [if_neg (show ¬ t.status ≠ TimeSlotStatus.AVAILABLE from
    fun h => h hstatus)]
  simp only [hav, hwin]
  rw [if_neg (show ¬ t.doctor_id ≠ dto.doctor_id from fun h => h hdoc)]
  rw [if_neg (show ¬ patientId ∉ s.patients from fun h => h hpat)]
  rw [if_pos hdup]

/-- The status recomputation leaves the state untouched exactly when the
stored status already equals the recomputed one: a differing recompute
really writes the slot row. -/
theorem updateSlotStatus_eq_self_iff (s : St) (x : Nat) (tslot : TimeSlot)
    (hfs : findSlot s x = some tslot) :
    updateSlotStatus s x = s ↔
      newStatusFor tslot.status (activeCount s x) tslot.max_patients =
        tslot.status := by
  constructor
  · intro h
    by_contra hne
    have hid : tslot.timeslot_id = x := by
      have := List.find?_some hfs
      simpa using this
    simp only [updateSlotStatus, hfs] at h
    rw [if_pos (show tslot.status ≠ newStatusFor tslot.status
        (activeCount s x) tslot.max_patients from
      fun he => hne he.symm)] at h
    have h3 : findSlot (saveSlot s { tslot with
        status := newStatusFor tslot.status (activeCount s x)
          tslot.max_patients }) x = findSlot s x := by
      rw [h]
    rw [findSlot_saveSlot] at h3
    have hxid : x = ({ tslot with
        status := newStatusFor tslot.status (activeCount s x)
          tslot.max_patients } : TimeSlot).timeslot_id := hid.symm
    rw [if_pos hxid] at h3
    have hsome : (findSlot s ({ tslot with
        status := newStatusFor tslot.status (activeCount s x)
          tslot.max_patients } : TimeSlot).timeslot_id).isSome := by
      rw [show ({ tslot with
          status := newStatusFor tslot.status (activeCount s x)
            tslot.max_patients } : TimeSlot).timeslot_id = x from hid]
      rw [hfs]
      rfl
    rw [if_pos hsome] at h3
    rw [hfs] at h3
    have h4 := Option.some_inj.mp h3
    have hstat : newStatusFor tslot.status (activeCount s x)
        tslot.max_patients = tslot.status := congrArg TimeSlot.status h4
    exact hne hstat
  · intro h
    exact updateSlotStatus_noop s x tslot hfs h

/-! ## Concrete fixtures for witnesses and counterexamples -/

/-- A morning availability of doctor 7 with an open booking window. -/
def exAv100 : Availability :=
  { availability_id := 100, doctor_id := 7, date := 0
    session := SessionTag.MORNING
    consulting_start_time := 600, consulting_end_time := 660
    booking_start_at := 0, booking_end_at := 500, is_deleted := false }

/-- A one-patient slot of exAv100, already holding one active appointment. -/
def exSlot500 : TimeSlot :=
  { timeslot_id := 500, availability_id := 100, doctor_id := 7
    start_time := 600, end_time := 660, max_patients := 1
    status := TimeSlotStatus.AVAILABLE, is_deleted := false }

/-- A five-patient slot of exAv100 with no appointments yet. -/
def exSlot501 : TimeSlot :=
  { timeslot_id := 501, availability_id := 100, doctor_id := 7
    start_time := 600, end_time := 660, max_patients := 5
    status := TimeSlotStatus.AVAILABLE, is_deleted := false }

/-- Patient 3's active appointment on exSlot500. -/
def exA900 : Appointment :=
  { appointment_id := 900, patient_id := 3, doctor_id := 7
    timeslot_id := 500, appointment_status := AppointmentStatus.SCHEDULED
    scheduled_on := 600, created_at := 0, reason := "", notes := "" }

def exSt1 : St :=
  { availabilities := [exAv100], slots := [exSlot500]
    appointments := [exA900], patients := [3, 4]
    nextAppointmentId := 901 }

def exDto1 : NewAppointmentDto :=
  { doctor_id := 7, timeslot_id := 500, reason := "", notes := "" }

def exMdto : MoveDto :=
  { availability_id := 100, source_slot_id := 500, target_slot_id := 500
    appointment_id := none, reason := none }

def exSdto : ShrinkDto :=
  { availability_id := 100, new_start_time := none, new_end_time := none
    reason := none }

/-- The duplicate-booking state: patient 3 already active on slot 500,
slot 501 open in the same session. -/
def exSt8 : St :=
  { availabilities := [exAv100], slots := [exSlot500, exSlot501]
    appointments := [exA900], patients := [3, 4]
    nextAppointmentId := 901 }

def exDto8 : NewAppointmentDto :=
  { doctor_id := 7, timeslot_id := 501, reason := "", notes := "" }

/-- Shrink counterexample fixture: two displaced appointments whose
booking order (created_at) disagrees with their staggered reporting
order (scheduled_on). -/
def c3Av : Availability :=
  { availability_id := 5, doctor_id := 7, date := 0
    session := SessionTag.MORNING
    consulting_start_time := 600, consulting_end_time := 1020
    booking_start_at := 0, booking_end_at := 500, is_deleted := false }

def c3Slot31 : TimeSlot :=
  { timeslot_id := 31, availability_id := 5, doctor_id := 7
    start_time := 840, end_time := 900, max_patients := 2
    status := TimeSlotStatus.AVAILABLE, is_deleted := false }

def c3Slot32 : TimeSlot :=
  { timeslot_id := 32, availability_id := 5, doctor_id := 7
    start_time := 900, end_time := 960, max_patients := 2
    status := TimeSlotStatus.AVAILABLE, is_deleted := false }

/-- Booked first (created_at 5), reports later (scheduled_on 900). -/
def c3A1 : Appointment :=
  { appointment_id := 41, patient_id := 3, doctor_id := 7
    timeslot_id := 32, appointment_status := AppointmentStatus.SCHEDULED
    scheduled_on := 900, created_at := 5, reason := "", notes := "" }

/-- Booked second (created_at 10), reports earlier (scheduled_on 840). -/
def c3A2 : Appointment :=
  { appointment_id := 42, patient_id := 4, doctor_id := 7
    timeslot_id := 31, appointment_status := AppointmentStatus.SCHEDULED
    scheduled_on := 840, created_at := 10, reason := "", notes := "" }

def c3St : St :=
  { availabilities := [c3Av], slots := [c3Slot31, c3Slot32]
    appointments := [c3A1, c3A2], patients := [3, 4]
    nextAppointmentId := 43 }

def c3Dto : ShrinkDto :=
  { availability_id := 5, new_start_time := none, new_end_time := some 780
    reason := none }

/-- Move fixture: two appointments on slot 1 moved to slot 2. -/
def cmAv : Availability :=
  { availability_id := 60, doctor_id := 7, date := 0
    session := SessionTag.MORNING
    consulting_start_time := 600, consulting_end_time := 720
    booking_start_at := 0, booking_end_at := 500, is_deleted := false }

def cmSlot1 : TimeSlot :=
  { timeslot_id := 1, availability_id := 60, doctor_id := 7
    start_time := 600, end_time := 660, max_patients := 2
    status := TimeSlotStatus.AVAILABLE, is_deleted := false }

def cmSlot2 : TimeSlot :=
  { timeslot_id := 2, availability_id := 60, doctor_id := 7
    start_time := 660, end_time := 720, max_patients := 5
    status := TimeSlotStatus.AVAILABLE, is_deleted := false }

def cmA11 : Appointment :=
  { appointment_id := 11, patient_id := 3, doctor_id := 7
    timeslot_id := 1, appointment_status := AppointmentStatus.SCHEDULED
    scheduled_on := 600, created_at := 0, reason := "", notes := "" }

def cmA12 : Appointment :=
  { appointment_id := 12, patient_id := 4, doctor_id := 7
    timeslot_id := 1, appointment_status := AppointmentStatus.SCHEDULED
    scheduled_on := 630, created_at := 1, reason := "", notes := "" }

def cmSt : St :=
  { availabilities := [cmAv], slots := [cmSlot1, cmSlot2]
    appointments := [cmA11, cmA12], patients := [3, 4]
    nextAppointmentId := 13 }

def cmDto : MoveDto :=
  { availability_id := 60, source_slot_id := 1, target_slot_id := 2
    appointment_id := none, reason := none }

/-- Move failure fixture: the full BLOCKED target slot 3 makes the
capacity check fail, while the status recomputation hidden in the
capacity read rewrites its status to BOOKED. -/
def cfSlot3 : TimeSlot :=
  { timeslot_id := 3, availability_id := 60, doctor_id := 7
    start_time := 660, end_time := 720, max_patients := 1
    status := TimeSlotStatus.BLOCKED, is_deleted := false }

def cfA21 : Appointment :=
  { appointment_id := 21, patient_id := 4, doctor_id := 7
    timeslot_id := 3, appointment_status := AppointmentStatus.SCHEDULED
    scheduled_on := 660, created_at := 2, reason := "", notes := "" }

def cfSt : St :=
  { availabilities := [cmAv], slots := [cmSlot1, cfSlot3]
    appointments := [cmA11, cfA21], patients := [3, 4]
    nextAppointmentId := 22 }

def cfDto : MoveDto :=
  { availability_id := 60, source_slot_id := 1, target_slot_id := 3
    appointment_id := none, reason := none }

/-- Shrink failure fixture: one affected appointment, no replacement
capacity anywhere. -/
def csAv : Availability :=
  { availability_id := 70, doctor_id := 7, date := 0
    session := SessionTag.MORNING
    consulting_start_time := 600, consulting_end_time := 720
    booking_start_at := 0, booking_end_at := 500, is_deleted := false }

def csSlot81 : TimeSlot :=
  { timeslot_id := 81, availability_id := 70, doctor_id := 7
    start_time := 660, end_time := 720, max_patients := 1
    status := TimeSlotStatus.AVAILABLE, is_deleted := false }

def csA91 : Appointment :=
  { appointment_id := 91, patient_id := 3, doctor_id := 7
    timeslot_id := 81, appointment_status := AppointmentStatus.SCHEDULED
    scheduled_on := 660, created_at := 0, reason := "", notes := "" }

def csSt : St :=
  { availabilities := [csAv], slots := [csSlot81]
    appointments := [csA91], patients := [3, 4]
    nextAppointmentId := 92 }

def csDto : ShrinkDto :=
  { availability_id := 70, new_start_time := none, new_end_time := some 630
    reason := none }

/-! ## The claims -/

/-- Claim C1: for every time slot and after every committed operation
(booking, cancellation, move, shrink), the number of SCHEDULED
appointments referencing the slot is at most the slot's max_patients; in
particular, a booking attempt against a slot whose SCHEDULED count
already equals max_patients fails with a ConflictError (the slot-full
conflict) and mutates nothing, so no appointment is created. -/
theorem c1_capacity_invariant (s : St) (hwf : WF s) (hinv : CapInv s)
    (patientId : Nat) (dto : NewAppointmentDto) (now : Int)
    (t : TimeSlot) (availability : Availability)
    (appointmentId userId : Nat) (role : UserRole)
    (mdoctorId : Nat) (mdto : MoveDto) (sdoctorId : Nat) (sdto : ShrinkDto)
    (hfind : findActiveSlot s dto.timeslot_id = some t)
    (hstatus : t.status = TimeSlotStatus.AVAILABLE)
    (hav : findAvailability s t.availability_id = some availability)
    (hwin : validateBookingWindow availability t now = none)
    (hdoc : t.doctor_id = dto.doctor_id)
    (hpat : patientId ∈ s.patients)
    (hdup : sameSessionExists s patientId t.doctor_id availability.date
      availability.session = false)
    (hfull : activeCount s t.timeslot_id = t.max_patients) :
    newAppointment s patientId dto now =
      (Except.error Err.conflictSlotFull, s) ∧
    Err.conflictSlotFull.isConflict = true ∧
    CapInv (newAppointment s patientId dto now).2 ∧
    CapInv (cancelAppointment s appointmentId userId role now).2 ∧
    CapInv (moveSlots s mdoctorId mdto).2 ∧
    CapInv (shrinkSchedule s sdoctorId sdto).2 := by
  refine ⟨?_, rfl, capInv_newAppointment s patientId dto now hwf hinv,
    capInv_cancelAppointment s appointmentId userId role now hwf hinv,
    capInv_moveSlots s mdoctorId mdto hwf hinv,
    capInv_shrinkSchedule s sdoctorId sdto hwf hinv⟩
  exact newAppointment_full s patientId dto now t availability hfind
    hstatus hav hwin hdoc hpat hdup hfull.ge

/-- Claim C2: shrink is all-or-nothing.  When at least one SCHEDULED
appointment is affected and the three-tier capacity search (same-day,
next-day, multi-day) finds strictly less capacity than needed, the
operation fails with a ConflictException reporting the multi-day total
capacity found, and the state — every Availability, TimeSlot and
Appointment row — is returned unchanged. -/
theorem c2_shrink_all_or_nothing (s : St) (doctorId : Nat)
    (dto : ShrinkDto) (availability : Availability) (days : List DayCap)
    (total : Nat)
    (hva : validateAvailability s dto.availability_id doctorId =
      some availability)
    (hps : validateShrinkingParameters dto availability = none)
    (hne : (getAffectedAppointments s availability dto).isEmpty = false)
    (h1 : ¬ capacityOf (findSameDayAvailableSlots s availability dto) ≥
      (getAffectedAppointments s availability dto).length)
    (h2 : nextDayInsufficient s doctorId availability.date
      (getAffectedAppointments s availability dto).length)
    (hm : findMultipleFutureDays s doctorId availability.date
      (getAffectedAppointments s availability dto).length =
        (days, total, false)) :
    shrinkSchedule s doctorId dto =
      (Except.error (Err.conflictInsufficientShrinkCapacity
        (getAffectedAppointments s availability dto).length total), s) ∧
    (Err.conflictInsufficientShrinkCapacity
      (getAffectedAppointments s availability dto).length
        total).isConflict = true ∧
    total < (getAffectedAppointments s availability dto).length := by
  refine ⟨?_, rfl, ?_⟩
  · simp only [shrinkSchedule, hva, hps]
    rw [if_neg (show ¬ (getAffectedAppointments s availability
        dto).isEmpty = true from fun h => by rw [hne] at h; cases h)]
    rw [genStrategy_fail s doctorId availability dto _ days total h1 h2 hm]
    rfl
  · rw [findMultipleFutureDays_eq] at hm
    have h3 := congrArg (fun p : List DayCap × Nat × Bool => p.2.1) hm
    have h4 := congrArg (fun p : List DayCap × Nat × Bool => p.2.2) hm
    simp only [] at h3 h4
    rw [h3] at h4
    have := of_decide_eq_false h4
    omega

/-- Claim C3 (corrected): the affected appointments of a shrink are
exactly the SCHEDULED appointments under the availability whose slot
starts after the new end (when a new end is given) or ends before the new
start (when a new start is given), de-duplicated by appointment id; they
are ordered ascending by scheduled_on — the staggered reporting instant —
not by the original booking instant (created_at); replacement slots are
assigned greedily to a prefix of this ordered list, so the appointments
left unplaced when capacity runs out are those latest by reporting
instant. -/
theorem c3_affected_order (s : St) (availability : Availability)
    (dto : ShrinkDto) (slots : List SlotCap) (date : Option Nat)
    (hwf : (s.appointments.map fun a => a.appointment_id).Nodup) :
    (∀ a, a ∈ getAffectedAppointments s availability dto ↔
      (a ∈ s.appointments ∧
        a.appointment_status = AppointmentStatus.SCHEDULED ∧
        ∃ t, findSlot s a.timeslot_id = some t ∧
          t.availability_id = availability.availability_id ∧
          ((∃ e, dto.new_end_time = some e ∧ t.start_time > e) ∨
           (∃ n, dto.new_start_time = some n ∧ t.end_time < n)))) ∧
    ((getAffectedAppointments s availability dto).map
      fun a => a.appointment_id).Nodup ∧
    (getAffectedAppointments s availability dto).Pairwise
      (fun x y => x.scheduled_on ≤ y.scheduled_on) ∧
    ((createRescheduleActions (getAffectedAppointments s availability dto)
        slots date).reschedule_actions.map fun act => act.appointment_id) =
      ((getAffectedAppointments s availability dto).take
        (createRescheduleActions (getAffectedAppointments s availability
          dto) slots date).reschedule_actions.length).map
            fun a => a.appointment_id := by
  refine ⟨mem_affected s availability dto hwf,
    affected_ids_nodup s availability dto,
    affected_pairwise s availability dto, ?_⟩
  unfold createRescheduleActions
  exact assignGreedy_ids_take date _ slots

/-- Claim C3, counterexample to the frozen wording: the code orders the
affected appointments by scheduled_on, not by the original booking
instant — here the appointment booked first (created_at 5) is processed
second because its reporting time is later. -/
theorem c3_counterexample :
    getAffectedAppointments c3St c3Av c3Dto = [c3A2, c3A1] ∧
    ¬ (getAffectedAppointments c3St c3Av c3Dto).Pairwise
        (fun x y => x.created_at ≤ y.created_at) :=
  ⟨rfl, by decide⟩

/-- Claim C4 (corrected): when the target's computed available capacity
(max_patients minus active count, floored at zero) is below the number of
selected appointments, moveSlots unconditionally throws the
insufficient-capacity conflict carrying both counts, and the resulting
state is exactly the input state with the target slot's status
recomputed — the write hidden in the capacity read — so the state equals
the input if and only if the target's stored status already matches the
recomputed one; with sufficient capacity all selected appointments are
reassigned to the target and the final batched pass recomputes each
touched slot's status exactly once (the batch list has no duplicates). -/
theorem c4_move_capacity (s : St) (doctorId : Nat) (dto : MoveDto)
    (tslot : TimeSlot) (cap n : Nat) (hwf : WF s)
    (hv1 : (validateSlotOwnership s dto.source_slot_id doctorId).isSome)
    (hv2 : (validateSlotOwnership s dto.target_slot_id doctorId).isSome)
    (hne : (getAppointmentsFromSlot s dto.source_slot_id
      dto.appointment_id).isEmpty = false)
    (hfs : findSlot s dto.target_slot_id = some tslot)
    (hcap : cap = (max 0 ((tslot.max_patients : Int) -
      (activeCount s dto.target_slot_id : Int))).toNat)
    (hn : n = (getAppointmentsFromSlot s dto.source_slot_id
      dto.appointment_id).length) :
    (cap < n →
      moveSlots s doctorId dto =
        (Except.error (Err.conflictInsufficientMoveCapacity cap n),
          updateSlotStatus s dto.target_slot_id) ∧
      ((moveSlots s doctorId dto).2 = s ↔
        newStatusFor tslot.status (activeCount s dto.target_slot_id)
          tslot.max_patients = tslot.status)) ∧
    (cap ≥ n →
      ∃ s2,
        moveSlots s doctorId dto =
          (Except.ok
            { moved_appointments := n
              appointment_ids := (getAppointmentsFromSlot s
                dto.source_slot_id dto.appointment_id).map
                  fun a => a.appointment_id }, s2) ∧
        (∀ b ∈ s2.appointments,
          b.appointment_id ∈ (getAppointmentsFromSlot s dto.source_slot_id
            dto.appointment_id).map (fun a => a.appointment_id) →
          b.timeslot_id = dto.target_slot_id) ∧
        (moveSlotsT s doctorId dto).2.2.2.Nodup) := by
  subst hcap
  subst hn
  constructor
  · intro hlt
    have hfail : moveSlots s doctorId dto =
        (Except.error (Err.conflictInsufficientMoveCapacity
          ((max 0 ((tslot.max_patients : Int) -
            (activeCount s dto.target_slot_id : Int))).toNat)
          (getAppointmentsFromSlot s dto.source_slot_id
            dto.appointment_id).length),
          updateSlotStatus s dto.target_slot_id) := by
      unfold moveSlots
      rw [moveSlotsT_insufficient s doctorId dto tslot hv1 hv2 hne hfs hlt]
    refine ⟨hfail, ?_⟩
    rw [hfail]
    exact updateSlotStatus_eq_self_iff s dto.target_slot_id tslot hfs
  · intro hge
    rcases moveSlotsT_ok s doctorId dto tslot hwf.appointments_nodup
      hwf.slots_nodup hv1 hv2 hne hfs (by omega) with
      ⟨s2, tr, heq, happ2, hshape2, hids2, hav2, hpat2⟩
    refine ⟨batchUpdateSlotStatuses s2 (accMovedIds
      (getAppointmentsFromSlot s dto.source_slot_id dto.appointment_id)
      dto.target_slot_id []), ?_, ?_, ?_⟩
    · unfold moveSlots
      rw [heq]
    · intro b hb hbid
      rw [batchUpdateSlotStatuses_appointments, happ2] at hb
      rcases List.mem_map.mp hb with ⟨b0, hb0, rfl⟩
      by_cases hmem0 : b0.appointment_id ∈ (getAppointmentsFromSlot s
          dto.source_slot_id dto.appointment_id).map
            fun a => a.appointment_id
      · rw [if_pos hmem0]
        rfl
      · rw [if_neg hmem0] at hbid
        exact absurd hbid hmem0
    · rw [heq]
      exact accMovedIds_nodup _ _ [] List.nodup_nil

/-- Claim C4, counterexample to the frozen wording, both halves.  On the
failure path, a move into the full BLOCKED slot 3 of the well-formed state
cfSt throws the insufficient-capacity conflict yet mutates a record: the
capacity read recomputes the target's status and rewrites BLOCKED to
BOOKED, so "no record is mutated" fails.  On the success path, the
touched slots' statuses are not recomputed exactly once: the ghost trace
of updateSlotStatus calls recomputes the target slot four times (once
inside the capacity read, once per moved appointment, once in the final
batch) and the source slot three times. -/
theorem c4_counterexample :
    (WF cfSt ∧ CapInv cfSt ∧
      (moveSlots cfSt 7 cfDto).1 =
        Except.error (Err.conflictInsufficientMoveCapacity 0 1) ∧
      (moveSlots cfSt 7 cfDto).2 ≠ cfSt) ∧
    (moveSlotsT cmSt 7 cmDto).1 =
      Except.ok { moved_appointments := 2, appointment_ids := [11, 12] } ∧
    (moveSlotsT cmSt 7 cmDto).2.2.1 = [2, 1, 2, 1, 2, 1, 2] ∧
    ¬ ∀ x ∈ (moveSlotsT cmSt 7 cmDto).2.2.1,
        (moveSlotsT cmSt 7 cmDto).2.2.1.count x = 1 :=
  ⟨⟨by decide, by decide, rfl, by decide⟩, rfl, rfl, by decide⟩

/-- Claim C5: booking-window boundaries.  For a window configured before
the consultation instant and a request before that instant, a request
strictly before booking_start fails with the window-not-open error
carrying the minutes until opening, a request strictly after booking_end
fails with the window-closed error carrying the minutes since closure,
and requests exactly at booking_start or exactly at booking_end pass the
window check — the end is inclusive. -/
theorem c5_booking_window (availability : Availability)
    (timeslot : TimeSlot) (now : Int)
    (hcfg1 : availability.booking_start_at < availability.booking_end_at)
    (hcfg2 : availability.booking_end_at <
      combine availability.date timeslot.start_time)
    (hfuture : now < combine availability.date timeslot.start_time) :
    (now < availability.booking_start_at →
      validateBookingWindow availability timeslot now =
        some (Err.conflictWindowNotOpen
          (availability.booking_start_at - now))) ∧
    (now > availability.booking_end_at →
      validateBookingWindow availability timeslot now =
        some (Err.conflictWindowClosed
          (now - availability.booking_end_at))) ∧
    (now = availability.booking_start_at →
      validateBookingWindow availability timeslot now = none) ∧
    (now = availability.booking_end_at →
      validateBookingWindow availability timeslot now = none) := by
  simp only [validateBookingWindow]
  refine ⟨?_, ?_, ?_, ?_⟩
  · intro h
    rw [if_neg (show ¬ now ≥ combine availability.date timeslot.start_time
      by omega)]
    rw [if_neg (show ¬ availability.booking_start_at ≥
      availability.booking_end_at by omega)]
    rw [if_neg (show ¬ availability.booking_end_at ≥
      combine availability.date timeslot.start_time by omega)]
    rw [if_pos h]
  · intro h
    rw [if_neg (show ¬ now ≥ combine availability.date timeslot.start_time
      by omega)]
    rw [if_neg (show ¬ availability.booking_start_at ≥
      availability.booking_end_at by omega)]
    rw [if_neg (show ¬ availability.booking_end_at ≥
      combine availability.date timeslot.start_time by omega)]
    rw [if_neg (show ¬ now < availability.booking_start_at by omega)]
    rw [if_pos h]
  · intro h
    rw [if_neg (show ¬ now ≥ combine availability.date timeslot.start_time
      by omega)]
    rw [if_neg (show ¬ availability.booking_start_at ≥
      availability.booking_end_at by omega)]
    rw [if_neg (show ¬ availability.booking_end_at ≥
      combine availability.date timeslot.start_time by omega)]
    rw [if_neg (show ¬ now < availability.booking_start_at by omega)]
    rw [if_neg (show ¬ now > availability.booking_end_at by omega)]
  · intro h
    rw [if_neg (show ¬ now ≥ combine availability.date timeslot.start_time
      by omega)]
    rw [if_neg (show ¬ availability.booking_start_at ≥
      availability.booking_end_at by omega)]
    rw [if_neg (show ¬ availability.booking_end_at ≥
      combine availability.date timeslot.start_time by omega)]
    rw [if_neg (show ¬ now < availability.booking_start_at by omega)]
    rw [if_neg (show ¬ now > availability.booking_end_at by omega)]

/-- Claim C6: slot status recomputation is the pure function of (current
status, active SCHEDULED count, max_patients) the spec describes (count
at or above max_patients gives BOOKED, else BLOCKED is sticky, else
AVAILABLE), it is idempotent both on the pure value and on the state, and
it performs no write when the recomputed status equals the stored one. -/
theorem c6_status_engine (s : St) (slotId : Nat) (slot : TimeSlot)
    (hfind : findSlot s slotId = some slot) :
    (∀ current count maxPatients,
      newStatusFor current count maxPatients =
        specRecomputeStatus current count maxPatients) ∧
    (∀ current count maxPatients,
      newStatusFor (newStatusFor current count maxPatients) count
        maxPatients = newStatusFor current count maxPatients) ∧
    updateSlotStatus (updateSlotStatus s slotId) slotId =
      updateSlotStatus s slotId ∧
    (newStatusFor slot.status (activeCount s slotId) slot.max_patients =
        slot.status →
      updateSlotStatus s slotId = s) :=
  ⟨fun _ _ _ => newStatusFor_eq_spec _ _ _,
   fun _ _ _ => newStatusFor_idem _ _ _,
   updateSlotStatus_idem s slotId,
   fun h => updateSlotStatus_noop s slotId slot hfind h⟩

/-- Appointment rows are untouched by the time-shift operation on every
path. -/
theorem shiftTimeOp_appointments (s : St) (doctorId : Nat)
    (dto : ShiftDto) :
    (shiftTimeOp s doctorId dto).2.appointments = s.appointments := by
  cases hva : validateAvailability s dto.availability_id doctorId with
  | none => simp only [shiftTimeOp, hva]
  | some availability =>
    cases hm : dto.shift_minutes with
    | none => simp only [shiftTimeOp, hva, hm]
    | some m =>
      simp only [shiftTimeOp, hva, hm]
      by_cases hz : m = 0
      · rw [if_pos hz]
      · rw [if_neg hz]
        by_cases hemp : (s.slots.filter fun t =>
            decide (t.availability_id = dto.availability_id) &&
              !t.is_deleted).isEmpty = true
        · rw [if_pos hemp]
        · rw [if_neg hemp]
          exact (foldl_saveSlot_appointments _ _ _).trans
            (saveAvailability_appointments s _)

/-- Claim C7: the time-shift operation rewrites the availability's
consulting start and end and shifts both times of every non-deleted slot
under it by shift_minutes, while every Appointment record — scheduled_on
included — is left unchanged on every path. -/
theorem c7_shift_frame (s : St) (doctorId : Nat) (dto : ShiftDto)
    (m : Int) (availability : Availability) (hwf : WF s)
    (hva : validateAvailability s dto.availability_id doctorId =
      some availability)
    (hm : dto.shift_minutes = some m) (hm0 : m ≠ 0)
    (hne : (s.slots.filter fun t =>
      decide (t.availability_id = dto.availability_id) &&
        !t.is_deleted).isEmpty = false) :
    (∀ doctorId2 dto2,
      (shiftTimeOp s doctorId2 dto2).2.appointments = s.appointments) ∧
    ∃ s2,
      shiftTimeOp s doctorId dto =
        (Except.ok { slots_updated := (s.slots.filter fun t =>
          decide (t.availability_id = dto.availability_id) &&
            !t.is_deleted).length }, s2) ∧
      s2.appointments = s.appointments ∧
      findAvailability s2 dto.availability_id =
        some { availability with
          consulting_start_time := dto.new_start_time
          consulting_end_time := dto.new_end_time } ∧
      (∀ t ∈ s.slots, t.availability_id = dto.availability_id →
        t.is_deleted = false →
        findSlot s2 t.timeslot_id = some { t with
          start_time := shiftMinutesOfDay t.start_time m
          end_time := shiftMinutesOfDay t.end_time m }) := by
  set f : TimeSlot → TimeSlot := fun t => { t with
    start_time := shiftMinutesOfDay t.start_time m
    end_time := shiftMinutesOfDay t.end_time m } with hf
  set slots := s.slots.filter (fun t =>
    decide (t.availability_id = dto.availability_id) && !t.is_deleted)
    with hslots
  set av1 : Availability := { availability with
    consulting_start_time := dto.new_start_time
    consulting_end_time := dto.new_end_time } with hav1
  set s1 := saveAvailability s av1 with hs1
  set s2 := slots.foldl (fun st t => saveSlot st (f t)) s1 with hs2
  have heq : shiftTimeOp s doctorId dto =
      (Except.ok { slots_updated := slots.length }, s2) := by
    simp only [shiftTimeOp, hva, hm]
    rw [if_neg hm0]
    rw [← hslots]
    rw [if_neg (show ¬ slots.isEmpty = true from
      fun h => by rw [hne] at h; cases h)]
  refine ⟨fun d2 dt2 => shiftTimeOp_appointments s d2 dt2, s2, heq, ?_,
    ?_, ?_⟩
  · rw [hs2]
    exact (foldl_saveSlot_appointments _ _ _).trans
      (saveAvailability_appointments s _)
  · have havid : availability.availability_id = dto.availability_id := by
      have := List.find?_some hva
      simp only [Bool.and_eq_true, decide_eq_true_eq] at this
      exact this.1
    have havmem : availability ∈ s.availabilities :=
      List.mem_of_find?_eq_some hva
    have h2 : findAvailability s2 dto.availability_id =
        findAvailability s1 dto.availability_id := by
      unfold findAvailability
      rw [hs2, foldl_saveSlot_availabilities]
    rw [h2, hs1, findAvailability_saveAvailability]
    have havid1 : av1.availability_id = availability.availability_id := rfl
    rw [if_pos (by rw [havid1, havid])]
    have hsome : (findAvailability s av1.availability_id).isSome := by
      unfold findAvailability
      rw [List.find?_isSome]
      exact ⟨availability, havmem, by simp [havid1]⟩
    rw [if_pos hsome]
  · intro t ht htav htdel
    have hnd : (slots.map fun t => t.timeslot_id).Nodup := by
      rw [hslots]
      exact List.Nodup.sublist ((List.filter_sublist _).map _)
        hwf.slots_nodup
    have hsub : ∀ u ∈ slots, findSlot s1 u.timeslot_id = some u := by
      intro u hu
      rw [hs1, findSlot_saveAvailability]
      exact findSlot_of_mem s u (List.mem_of_mem_filter (hslots ▸ hu))
        hwf.slots_nodup
    have hres := foldl_saveSlot_find f (fun u => rfl) slots s1 hnd hsub
    have htmem : t ∈ slots := by
      rw [hslots]
      refine List.mem_filter.mpr ⟨ht, ?_⟩
      simp [htav, htdel]
    rw [hs2]
    exact hres.1 t htmem

/-- Claim C8: per (patient, doctor, availability date, session) at most
one SCHEDULED appointment exists: a booking attempt by a patient already
holding an active appointment with the same doctor and session is
rejected with the duplicate-session conflict and no write, and every run
of newAppointment preserves the uniqueness invariant. -/
theorem c8_session_unique (s : St) (patientId : Nat)
    (dto : NewAppointmentDto) (now : Int) (hwf : WF s)
    (hsu : SessionUnique s) :
    (∀ t availability,
      findActiveSlot s dto.timeslot_id = some t →
      t.status = TimeSlotStatus.AVAILABLE →
      findAvailability s t.availability_id = some availability →
      validateBookingWindow availability t now = none →
      t.doctor_id = dto.doctor_id →
      patientId ∈ s.patients →
      sameSessionExists s patientId t.doctor_id availability.date
        availability.session = true →
      newAppointment s patientId dto now =
        (Except.error Err.conflictDuplicateSession, s)) ∧
    SessionUnique (newAppointment s patientId dto now).2 :=
  ⟨fun t availability hfind hstatus hav hwin hdoc hpat hdup =>
    newAppointment_duplicate s patientId dto now t availability hfind
      hstatus hav hwin hdoc hpat hdup,
   sessionUnique_newAppointment s patientId dto now hwf hsu⟩

/-- Claim C9: the time-of-day shift utility wraps across midnight and is
self-inverse modulo a day: on every zero-padded "HH:MM" input shifting by
m and then by -m returns the input, and every shift lands on a zero-padded
"HH:MM" string with hours below 24 and minutes below 60. -/
theorem c9_shift_roundtrip (h m : Nat) (mins : Int)
    (hh : h < 24) (hm : m < 60) :
    shiftTime (shiftTime (fmtTime h m) mins) (-mins) = fmtTime h m ∧
    ∃ h2 m2, h2 < 24 ∧ m2 < 60 ∧
      shiftTime (fmtTime h m) mins = fmtTime h2 m2 := by
  have ht : h * 60 + m < 1440 := by omega
  have hstep := shiftTime_eq_fmt h m hh hm mins
  set t1 := shiftMinutesOfDay (h * 60 + m) mins with ht1
  have ht1lt : t1 < 1440 := shiftMinutesOfDay_lt _ _
  have hh2 : t1 / 60 < 24 := by omega
  have hm2 : t1 % 60 < 60 := by omega
  constructor
  · rw [hstep]
    rw [shiftTime_eq_fmt (t1 / 60) (t1 % 60) hh2 hm2 (-mins)]
    have hsum : t1 / 60 * 60 + t1 % 60 = t1 := by omega
    rw [hsum, ht1]
    rw [shiftTime_roundtrip_minutes (h * 60 + m) ht mins]
    have e1 : (h * 60 + m) / 60 = h := by omega
    have e2 : (h * 60 + m) % 60 = m := by omega
    rw [e1, e2]
  · exact ⟨t1 / 60, t1 % 60, hh2, hm2, hstep⟩

/-- Claim C10: the staggered reporting time always falls inside the slot:
for a slot starting strictly before it ends within one day and a booking
index below max_patients, slot start plus index times the floored
per-patient stride stays at or after the start and strictly before the
end — both at the minute level and through the "HH:MM" string function —
and the appointment a successful booking creates carries a scheduled_on
inside its slot's range. -/
theorem c10_reporting_in_slot (sh sm eh em maxPatients k : Nat)
    (hsh : sh < 24) (hsm : sm < 60) (heh : eh < 24) (hem : em < 60)
    (hlt : sh * 60 + sm < eh * 60 + em) (hmax : 0 < maxPatients)
    (hk : k < maxPatients)
    (s : St) (patientId : Nat) (dto : NewAppointmentDto) (now : Int)
    (t : TimeSlot) (availability : Availability)
    (hfind : findActiveSlot s dto.timeslot_id = some t)
    (hstatus : t.status = TimeSlotStatus.AVAILABLE)
    (hav : findAvailability s t.availability_id = some availability)
    (hwin : validateBookingWindow availability t now = none)
    (hdoc : t.doctor_id = dto.doctor_id)
    (hpat : patientId ∈ s.patients)
    (hdup : sameSessionExists s patientId t.doctor_id availability.date
      availability.session = false)
    (hnotfull : activeCount s t.timeslot_id < t.max_patients)
    (hts : t.start_time < t.end_time) (hte : t.end_time < 1440) :
    (sh * 60 + sm ≤
        calcReportingMinutes (sh * 60 + sm) (eh * 60 + em) maxPatients k ∧
      calcReportingMinutes (sh * 60 + sm) (eh * 60 + em) maxPatients k <
        eh * 60 + em) ∧
    calculateReportingTime (fmtTime sh sm) (fmtTime eh em) maxPatients k =
      fmtTime
        (calcReportingMinutes (sh * 60 + sm) (eh * 60 + em) maxPatients k
          / 60)
        (calcReportingMinutes (sh * 60 + sm) (eh * 60 + em) maxPatients k
          % 60) ∧
    ∃ a s2, newAppointment s patientId dto now = (Except.ok a, s2) ∧
      combine availability.date t.start_time ≤ a.scheduled_on ∧
      a.scheduled_on < combine availability.date t.end_time := by
  refine ⟨calcReportingMinutes_bounds (sh * 60 + sm) (eh * 60 + em)
    maxPatients k hlt (by omega) hmax hk, ?_, ?_⟩
  · unfold calculateReportingTime
    rw [parseTime_fmtTime sh sm (by omega) (by omega),
      parseTime_fmtTime eh em (by omega) (by omega)]
  · have hmax2 : 0 < t.max_patients := by omega
    have hbounds := calcReportingMinutes_bounds t.start_time t.end_time
      t.max_patients (activeCount s t.timeslot_id) hts hte hmax2 hnotfull
    refine ⟨_, _, newAppointment_ok s patientId dto now t availability
      hfind hstatus hav hwin hdoc hpat hdup hnotfull, ?_, ?_⟩
    · show combine availability.date t.start_time ≤
        combine availability.date (calcReportingMinutes t.start_time
          t.end_time t.max_patients (activeCount s t.timeslot_id))
      unfold combine
      omega
    · show combine availability.date (calcReportingMinutes t.start_time
        t.end_time t.max_patients (activeCount s t.timeslot_id)) <
          combine availability.date t.end_time
      unfold combine
      omega

/-! ## Witnesses -/

def exShiftDto : ShiftDto :=
  { availability_id := 100, new_start_time := 630, new_end_time := 690
    shift_minutes := some 30, reason := none }

theorem c1_witness :
    newAppointment exSt1 4 exDto1 100 =
      (Except.error Err.conflictSlotFull, exSt1) :=
  (c1_capacity_invariant exSt1 (by decide) (by decide) 4 exDto1 100
    exSlot500 exAv100 900 3 UserRole.PATIENT 7 exMdto 7 exSdto
    (by decide) (by decide) (by decide) (by decide) (by decide)
    (by decide) (by decide) (by decide)).1

theorem c2_witness :
    shrinkSchedule csSt 7 csDto =
      (Except.error (Err.conflictInsufficientShrinkCapacity
        (getAffectedAppointments csSt csAv csDto).length 0), csSt) :=
  (c2_shrink_all_or_nothing csSt 7 csDto csAv [] 0 (by decide) (by decide)
    (by decide) (by decide)
    (fun nd h => by
      rw [show findNextAvailableDay csSt 7 csAv.date = none from rfl] at h
      cases h)
    (by decide)).1

theorem c3_witness :
    ((getAffectedAppointments c3St c3Av c3Dto).map
      fun a => a.appointment_id).Nodup :=
  (c3_affected_order c3St c3Av c3Dto [] none (by decide)).2.1

theorem c4_witness :
    ∃ s2, moveSlots cmSt 7 cmDto =
        (Except.ok
          { moved_appointments := 2
            appointment_ids := (getAppointmentsFromSlot cmSt
              cmDto.source_slot_id cmDto.appointment_id).map
                fun a => a.appointment_id }, s2) ∧
      (∀ b ∈ s2.appointments,
        b.appointment_id ∈ (getAppointmentsFromSlot cmSt
          cmDto.source_slot_id cmDto.appointment_id).map
            (fun a => a.appointment_id) →
        b.timeslot_id = cmDto.target_slot_id) ∧
      (moveSlotsT cmSt 7 cmDto).2.2.2.Nodup :=
  (c4_move_capacity cmSt 7 cmDto cmSlot2 5 2 (by decide) (by decide)
    (by decide) (by decide) (by decide) (by decide) (by decide)).2
    (by decide)

theorem c5_witness : validateBookingWindow exAv100 exSlot500 0 = none :=
  (c5_booking_window exAv100 exSlot500 0 (by decide) (by decide)
    (by decide)).2.2.1 (by decide)

theorem c6_witness :
    updateSlotStatus (updateSlotStatus exSt1 500) 500 =
      updateSlotStatus exSt1 500 :=
  (c6_status_engine exSt1 500 exSlot500 (by decide)).2.2.1

theorem c7_witness :
    (shiftTimeOp exSt1 7 exShiftDto).2.appointments = exSt1.appointments :=
  (c7_shift_frame exSt1 7 exShiftDto 30 exAv100 (by decide) (by decide)
    (by decide) (by decide) (by decide)).1 7 exShiftDto

theorem c8_witness :
    newAppointment exSt8 3 exDto8 100 =
      (Except.error Err.conflictDuplicateSession, exSt8) :=
  (c8_session_unique exSt8 3 exDto8 100 (by decide) (by decide)).1
    exSlot501 exAv100 (by decide) (by decide) (by decide) (by decide)
    (by decide) (by decide) (by decide)

theorem c9_witness :
    shiftTime (shiftTime (fmtTime 23 59) 75) (-75) = fmtTime 23 59 :=
  (c9_shift_roundtrip 23 59 75 (by decide) (by decide)).1

theorem c10_witness :
    ∃ a s2, newAppointment exSt8 4 exDto8 100 = (Except.ok a, s2) ∧
      combine exAv100.date exSlot501.start_time ≤ a.scheduled_on ∧
      a.scheduled_on < combine exAv100.date exSlot501.end_time :=
  (c10_reporting_in_slot 10 0 11 0 5 0 (by decide) (by decide) (by decide)
    (by decide) (by decide) (by decide) (by decide) exSt8 4 exDto8 100
    exSlot501 exAv100 (by decide) (by decide) (by decide) (by decide)
    (by decide) (by decide) (by decide) (by decide) (by decide)
    (by decide)).2.2

end Sched
